import Mathlib

/-!
netsim: the xorshift* generator and the simulated network link.

A shallow embedding of `src/Random.hpp`, `src/Random.cpp` and of the link
simulator declared in `src/SimulatedNetwork.hpp`.

Machine integers are natural numbers or integers with the reduction modulo
`2 ^ w` written out wherever the C++ type truncates.
-/

namespace netsim

/-! ## Random -/

/-- The generator of `Random.hpp`: its only field is the 64-bit word `state_`. -/
structure Random where
  state_ : Nat
deriving DecidableEq

/-- The multiplier of `Random::NextOutput`. -/
def kMultiplier : Nat := 2685821657736338717

/-- The constructor `Random::Random(uint64_t seed)`: `state_ = seed;`. -/
def Random.new (seed : Nat) : Random := ⟨seed % 2 ^ 64⟩

/-- First line of `NextOutput`: `state_ ^= state_ >> 12;`. -/
def xorshift12 (s : Nat) : Nat := s ^^^ (s >>> 12)

/-- Second line of `NextOutput`: `state_ ^= state_ << 25;`, the shift truncated to 64 bits. -/
def xorshift25 (s : Nat) : Nat := s ^^^ ((s <<< 25) % 2 ^ 64)

/-- Third line of `NextOutput`: `state_ ^= state_ >> 27;`. -/
def xorshift27 (s : Nat) : Nat := s ^^^ (s >>> 27)

/-- The state that `NextOutput` leaves behind: the three xorshifts in order. -/
def nextState (s : Nat) : Nat := xorshift27 (xorshift25 (xorshift12 s))

/-- The function `Random::NextOutput`: updates the state by the three xorshifts and returns
`state_ * 2685821657736338717ull`, the product truncated to 64 bits. -/
def Random.NextOutput (r : Random) : Nat × Random :=
  let s := nextState r.state_
  ((s * kMultiplier) % 2 ^ 64, ⟨s⟩)

/-- The generator after `n` calls of `NextOutput`. -/
def Random.steps : Nat → Random → Random
  | 0, r => r
  | n + 1, r => Random.steps n r.NextOutput.2

/-- The value returned by the `n`-th call of `NextOutput` (counting from 1); the `0`-th is
taken to be `0`. -/
def Random.nthOutput : Nat → Random → Nat
  | 0, _ => 0
  | n + 1, r => (Random.steps n r).NextOutput.1

/-- The arithmetic of `Random::Rand(uint32_t t)` on the 32-bit word `x`:
`uint64_t result = x * (static_cast<uint64_t>(t) + 1); result >>= 32; return result;`. -/
def scale32 (x t : Nat) : Nat :=
  let result := (x * ((t % 2 ^ 64 + 1) % 2 ^ 64)) % 2 ^ 64
  let result := result >>> 32
  result % 2 ^ 32

/-- The function `Random::Rand(uint32_t t)`: `uint32_t x = NextOutput();` followed by the
scaling of `x` into `[0, t]`. -/
def Random.Rand (r : Random) (t : Nat) : Nat × Random :=
  let out := r.NextOutput
  let x := out.1 % 2 ^ 32
  (scale32 x t, out.2)

/-- The function `Random::Rand(uint32_t low, uint32_t high)`: `return Rand(high - low) + low;`
in unsigned 32-bit arithmetic. -/
def Random.RandU32 (r : Random) (low high : Nat) : Nat × Random :=
  let t := (high + 2 ^ 32 - low) % 2 ^ 32
  let out := r.Rand t
  ((out.1 + low) % 2 ^ 32, out.2)

/-- Conversion of an integer to `int64_t` (two's complement wrap). -/
def wrapI64 (v : Int) : Int := (v + 2 ^ 63) % 2 ^ 64 - 2 ^ 63

/-- Conversion of an integer to `int32_t` (two's complement wrap). -/
def wrapI32 (v : Int) : Int := (v + 2 ^ 31) % 2 ^ 32 - 2 ^ 31

/-- Conversion of an integer to `uint32_t`. -/
def toU32 (v : Int) : Nat := (v % 2 ^ 32).toNat

/-- The function `Random::Rand(int32_t low, int32_t high)`:
`const int64_t low_i64{low}; return Rand((high - low_i64)) + low_i64;`. The difference is a
64-bit signed value, passed to `Rand(uint32_t)`; the sum is again 64-bit signed and is
converted to `int32_t` on return. -/
def Random.RandI32 (r : Random) (low high : Int) : Int × Random :=
  let low_i64 : Int := low
  let diff : Int := wrapI64 (high - low_i64)
  let out := r.Rand (toU32 diff)
  (wrapI32 (wrapI64 ((out.1 : Int) + low_i64)), out.2)

/-- The numerator of `Random::Rand<double>()`: `NextOutput() - 1` in unsigned 64-bit
arithmetic. -/
def Random.doubleNumerator (r : Random) : Nat := (r.NextOutput.1 + 2 ^ 64 - 1) % 2 ^ 64

/-- Rounding of a rational to the nearest integer, ties to the even one. -/
def roundHalfEven (x : ℚ) : Int :=
  let f := ⌊x⌋
  if x - f < 1 / 2 then f
  else if 1 / 2 < x - f then f + 1
  else if f % 2 = 0 then f else f + 1

/-- The `double` nearest to `x`: 53 significant bits, round to nearest, ties to even (the
default rounding of IEEE 754 binary64). With `2 ^ e ≤ |x| < 2 ^ (e + 1)` the spacing of the
doubles around `x` is `2 ^ (e - 52)`. The exponent range is not bounded; the values met in
`Random.cpp` lie between `2 ^ (-64)` and `2 ^ 64`, well inside it. -/
def roundDouble (x : ℚ) : ℚ :=
  if x = 0 then 0
  else
    let ulp : ℚ := 2 ^ (Int.log 2 |x| - 52)
    (roundHalfEven (x / ulp) : ℚ) * ulp

/-- The conversion of a `uint64_t` to `double`, as in `double result = NextOutput() - 1;`
and `static_cast<double>(0xFFFFFFFFFFFFFFFFull)`. -/
def toDouble (n : Nat) : ℚ := roundDouble (n : ℚ)

/-- The function `Random::Rand<double>()`: `double result = NextOutput() - 1;
result = result / static_cast<double>(0xFFFFFFFFFFFFFFFFull);`. The numerator and the divisor
are converted to `double`, and the quotient of the two doubles is a `double` again. -/
def Random.RandDouble (r : Random) : ℚ × Random :=
  let result := toDouble r.doubleNumerator
  (roundDouble (result / toDouble 0xFFFFFFFFFFFFFFFF), r.NextOutput.2)

/-- The function `Random::Rand<bool>()`: `return Rand(0, 1) == 1;`, where the literals are
`int`, so the signed overload is the one called. -/
def Random.RandBool (r : Random) : Bool × Random :=
  let out := r.RandI32 0 1
  (decide (out.1 = 1), out.2)

/-- The function `Random::Gaussian`. The two uniform draws are the raw outputs of two calls
of `NextOutput`; `boxMuller o1 o2` stands for the transcendental factor
`sqrt(-2 * log(u1)) * cos(2 * kPi * u2)` with `u = o / 0xFFFFFFFFFFFFFFFF`. -/
def Random.Gaussian (boxMuller : Nat → Nat → ℚ) (r : Random) (mean standard_deviation : ℚ) :
    ℚ × Random :=
  let o1 := r.NextOutput
  let o2 := o1.2.NextOutput
  (mean + standard_deviation * boxMuller o1.1 o2.1, o2.2)

/-- The number of 32-bit words `x` that `Random::Rand(uint32_t t)` maps to `k`. -/
def bucketCount (t k : Nat) : Nat :=
  ((Finset.range (2 ^ 32)).filter (fun x => scale32 x t = k)).card

/-! ## SimulatedNetwork: the data model of `SimulatedNetwork.hpp`

Times are microseconds, kept as unbounded integers. The two probabilities, which the header
stores as `double`, are exact rationals. The header documents the member
`last_capacity_link_exit_time_` as "the last time a packet left the capacity_link_ (used to
enforce the capacity of the link and avoid packets starts to get sent before the link it
free)". -/

/-- The struct `Config`, with the defaults of the header. -/
structure Config where
  queue_length_packets : Nat := 0
  queue_delay_ms : Int := 0
  delay_standard_deviation_ms : Int := 0
  link_capacity_kbps : Int := 0
  loss_percent : Int := 0
  allow_reordering : Bool := false
  avg_burst_loss_length : Int := -1
  packet_overhead : Int := 0
deriving DecidableEq

/-- The struct `PacketInFlightInfo`. -/
structure PacketInFlightInfo where
  size : Nat
  send_time_us : Int
  packet_id : Nat
deriving DecidableEq

/-- The struct `PacketDeliveryInfo`. -/
structure PacketDeliveryInfo where
  receive_time_us : Int
  packet_id : Nat
deriving DecidableEq

/-- The constructor `PacketDeliveryInfo(PacketInFlightInfo source, int64_t receive_time_us)`:
it keeps the receive time and the packet id of the source. -/
def PacketDeliveryInfo.ofSource (source : PacketInFlightInfo) (receive_time_us : Int) :
    PacketDeliveryInfo :=
  ⟨receive_time_us, source.packet_id⟩

/-- The struct `SimulatedNetwork::PacketInfo`. -/
structure PacketInfo where
  packet : PacketInFlightInfo
  arrival_time_us : Int
deriving DecidableEq

/-- The struct `SimulatedNetwork::ConfigState`. -/
structure ConfigState where
  config : Config
  prob_loss_bursting : ℚ
  prob_start_bursting : ℚ
  pause_transmission_until_us : Int := 0
deriving DecidableEq

/-- The data members of the class `SimulatedNetwork`. -/
structure SimulatedNetwork where
  capacity_link_ : List PacketInfo
  delay_link_ : List PacketInfo
  next_process_time_us_ : Option Int
  config_state_ : ConfigState
  random_ : Random
  bursting_ : Bool
  last_enqueue_time_us_ : Int
  last_capacity_link_exit_time_ : Int
deriving DecidableEq

/-! ## SimulatedNetwork: the member functions

The header declares them; their bodies (`SimulatedNetwork.cpp`) are not among the source
files, so each is written out from the specification, section 4.2. -/

/-- Clamp a rational to `[0, 1]`. -/
def clamp01 (q : ℚ) : ℚ := max 0 (min 1 q)

/-- The ceiling of `a / b` in integer arithmetic (floor division of the negation). -/
def ceilDiv (a b : Int) : Int := -(Int.fdiv (-a) b)

/-- Modelled from the spec: the derivation of the cached `ConfigState` from a `Config`
(the body of the constructor and of `SetConfig` is missing). Section 4.2.5:
`p_start = loss_percent / (100 * avg_burst_loss_length)` and
`p_loss_burst = 1 - 1 / avg_burst_loss_length`, both clamped to `[0, 1]`; section 7:
`avg_burst_loss_length == 0` fails fast (`none`). With the sentinel `-1` the two
probabilities are not used by the loss decision; they are set to `loss_percent / 100`. -/
def makeConfigState (config : Config) (pause_transmission_until_us : Int) : Option ConfigState :=
  if config.avg_burst_loss_length = 0 then none
  else if config.avg_burst_loss_length = -1 then
    some
      { config := config
        prob_loss_bursting := (config.loss_percent : ℚ) / 100
        prob_start_bursting := (config.loss_percent : ℚ) / 100
        pause_transmission_until_us := pause_transmission_until_us }
  else
    some
      { config := config
        prob_loss_bursting := clamp01 (1 - 1 / (config.avg_burst_loss_length : ℚ))
        prob_start_bursting :=
          clamp01 ((config.loss_percent : ℚ) / (100 * (config.avg_burst_loss_length : ℚ)))
        pause_transmission_until_us := pause_transmission_until_us }

/-- Modelled from the spec: `SimulatedNetwork::GetConfigState` (body missing) returns the
current `ConfigState`. -/
def SimulatedNetwork.GetConfigState (net : SimulatedNetwork) : ConfigState := net.config_state_

/-- Modelled from the spec: the capacity-exit time of section 4.2.1, step 4 (the body of
`EnqueuePacket` is missing). `effective_size_bits = (size_bytes + packet_overhead) * 8`;
with `link_capacity_kbps == 0` the exit is `start`, otherwise
`start + ⌈effective_size_bits * 1000 / link_capacity_kbps⌉`. -/
def capacityExitTime (state : ConfigState) (start : Int) (size : Nat) : Int :=
  let effective_size_bits : Int := ((size : Int) + state.config.packet_overhead) * 8
  if state.config.link_capacity_kbps = 0 then start
  else start + ceilDiv (effective_size_bits * 1000) state.config.link_capacity_kbps

/-- Modelled from the spec: the least `arrival_time_us` in the delay link (section 4.2.4,
"minimum arrival"); `none` when it is empty. -/
def leastArrival : List PacketInfo → Option Int
  | [] => none
  | p :: ps =>
    match leastArrival ps with
    | none => some p.arrival_time_us
    | some a => some (min p.arrival_time_us a)

/-- Modelled from the spec: the greatest `arrival_time_us` currently in the delay link
(section 4.2.2, step 4, `last_delay_arrival`); `none` stands for "−∞ if empty". -/
def greatestArrival : List PacketInfo → Option Int
  | [] => none
  | p :: ps =>
    match greatestArrival ps with
    | none => some p.arrival_time_us
    | some a => some (max p.arrival_time_us a)

/-- Modelled from the spec: `SimulatedNetwork::NextDeliveryTimeUs` (body missing),
section 4.2.4: the minimum `arrival_time_us` across the head of the capacity link and the
delay link, or `none` if both are empty. -/
def SimulatedNetwork.NextDeliveryTimeUs (net : SimulatedNetwork) : Option Int :=
  match net.capacity_link_.head?, leastArrival net.delay_link_ with
  | none, none => none
  | some p, none => some p.arrival_time_us
  | none, some d => some d
  | some p, some d => some (min p.arrival_time_us d)

/-- Modelled from the spec: "Recompute `next_process_time_us`" (sections 4.2.1, 4.2.3 and
4.2.5): the cached field is set to the value of section 4.2.4. -/
def SimulatedNetwork.recomputeNextProcessTime (net : SimulatedNetwork) : SimulatedNetwork :=
  { net with next_process_time_us_ := net.NextDeliveryTimeUs }

/-- Modelled from the spec: the loss decision of section 4.2.2, step 1, and of the table of
section 4.2.6 (the body of `UpdateCapacityQueue` is missing). The draw is `Rand<double>()`
and the packet is dropped when `draw < p`. Returns (dropped, new `bursting_`, generator). -/
def lossDecision (state : ConfigState) (bursting : Bool) (random : Random) :
    Bool × Bool × Random :=
  let draw := random.RandDouble
  if state.config.avg_burst_loss_length = -1 then
    (decide (draw.1 < (state.config.loss_percent : ℚ) / 100), false, draw.2)
  else if bursting then
    let drop := decide (draw.1 < state.prob_loss_bursting)
    (drop, drop, draw.2)
  else
    let drop := decide (draw.1 < state.prob_start_bursting)
    (drop, drop, draw.2)

/-- Modelled from the spec: the jitter of section 4.2.2, step 2 (body missing):
`extra_delay_us = max(0, round(gaussian(queue_delay_ms, delay_standard_deviation_ms)) * 1000)`. -/
def extraDelayUs (boxMuller : Nat → Nat → ℚ) (state : ConfigState) (random : Random) :
    Int × Random :=
  let g := random.Gaussian boxMuller (state.config.queue_delay_ms : ℚ)
    (state.config.delay_standard_deviation_ms : ℚ)
  (max 0 (round g.1 * 1000), g.2)

/-- Modelled from the spec: the ordering rule of section 4.2.2, step 4 (body missing): with
`allow_reordering == false`, `delivery = max(delivery, last_delay_arrival)`; with
`allow_reordering == true` the delivery time is kept as it is. -/
def orderedDelivery (state : ConfigState) (delay : List PacketInfo) (delivery : Int) : Int :=
  if state.config.allow_reordering then delivery
  else
    match greatestArrival delay with
    | none => delivery
    | some last_delay_arrival => max delivery last_delay_arrival

/-- Modelled from the spec: the loop of `UpdateCapacityQueue` (body missing), section 4.2.2.
It walks the capacity link from its head while `arrival_time_us ≤ now`; each such packet is
dropped or moved to the back of the delay link with `delivery = arrival_time_us +
extra_delay_us`, raised to the greatest arrival in the delay link when reordering is off.
Returns (capacity link, delay link, generator, `bursting_`). -/
def promote (boxMuller : Nat → Nat → ℚ) (state : ConfigState) (time_now_us : Int) :
    List PacketInfo → List PacketInfo → Random → Bool →
      List PacketInfo × List PacketInfo × Random × Bool
  | [], delay, random, bursting => ([], delay, random, bursting)
  | p :: rest, delay, random, bursting =>
    if p.arrival_time_us ≤ time_now_us then
      let loss := lossDecision state bursting random
      if loss.1 then
        promote boxMuller state time_now_us rest delay loss.2.2 loss.2.1
      else
        let jitter := extraDelayUs boxMuller state loss.2.2
        let delivery := orderedDelivery state delay (p.arrival_time_us + jitter.1)
        promote boxMuller state time_now_us rest
          (delay ++ [{ p with arrival_time_us := delivery }]) jitter.2 loss.2.1
    else (p :: rest, delay, random, bursting)

/-- Modelled from the spec: the value of the member `last_capacity_link_exit_time_` after
the loop of `UpdateCapacityQueue` (body missing). The header documents the member as the last
time a packet left the capacity link, and invariant I2 of the specification times the head
of the link from it. Every head with `arrival_time_us ≤ now` leaves the link, dropped or not,
and its exit time is recorded; when none leaves, the time `last` recorded before is kept. -/
def lastExitTime (time_now_us : Int) : List PacketInfo → Int → Int
  | [], last => last
  | p :: rest, last =>
    if p.arrival_time_us ≤ time_now_us then lastExitTime time_now_us rest p.arrival_time_us
    else last

/-- Modelled from the spec: `SimulatedNetwork::UpdateCapacityQueue(ConfigState state,
int64_t time_now_us)` (body missing), section 4.2.2. The member
`last_capacity_link_exit_time_` records, as the header documents it, the last time a packet
left the capacity link. The closing sentence of that section (re-timing the head after a
reconfiguration) has nothing left to do here, because `SetConfig` and
`PauseTransmissionUntil` re-clock the whole capacity link themselves (section 4.2.5). -/
def SimulatedNetwork.UpdateCapacityQueue (boxMuller : Nat → Nat → ℚ) (net : SimulatedNetwork)
    (state : ConfigState) (time_now_us : Int) : SimulatedNetwork :=
  let r := promote boxMuller state time_now_us net.capacity_link_ net.delay_link_ net.random_
    net.bursting_
  { net with
    capacity_link_ := r.1, delay_link_ := r.2.1, random_ := r.2.2.1, bursting_ := r.2.2.2
    last_capacity_link_exit_time_ :=
      lastExitTime time_now_us net.capacity_link_ net.last_capacity_link_exit_time_ }

/-- Modelled from the spec: the time `last_capacity_exit_time_us` of section 4.2.1 (the body
of `EnqueuePacket` is missing): the exit time of the packet ahead of a packet that joins the
capacity link. That is the exit time of the tail of the capacity link or, when the link is
empty, the last time a packet left it (the member `last_capacity_link_exit_time_`). -/
def SimulatedNetwork.lastCapacityExitTime (net : SimulatedNetwork) : Int :=
  match net.capacity_link_.getLast? with
  | some tail => tail.arrival_time_us
  | none => net.last_capacity_link_exit_time_

/-- Modelled from the spec: `SimulatedNetwork::EnqueuePacket` (body missing), section 4.2.1,
steps 1 to 7. `none` is the failed assertion of step 1; otherwise the returned flag is the
function's `bool`. The update of step 5, `last_capacity_exit_time_us = exit`, is the append
itself: the new packet is the tail, so `lastCapacityExitTime` is its exit from then on. -/
def SimulatedNetwork.EnqueuePacket (boxMuller : Nat → Nat → ℚ) (net : SimulatedNetwork)
    (packet : PacketInFlightInfo) : Option (Bool × SimulatedNetwork) :=
  if packet.send_time_us < net.last_enqueue_time_us_ then none
  else
    let net : SimulatedNetwork := { net with last_enqueue_time_us_ := packet.send_time_us }
    let state := net.GetConfigState
    let net := net.UpdateCapacityQueue boxMuller state packet.send_time_us
    if 0 < state.config.queue_length_packets ∧
        state.config.queue_length_packets ≤ net.capacity_link_.length then
      some (false, net)
    else
      let start := max packet.send_time_us
        (max net.lastCapacityExitTime state.pause_transmission_until_us)
      let exit := capacityExitTime state start packet.size
      let net : SimulatedNetwork :=
        { net with capacity_link_ := net.capacity_link_ ++ [PacketInfo.mk packet exit] }
      some (true, net.recomputeNextProcessTime)

/-- Modelled from the spec: `SimulatedNetwork::DequeueDeliverablePackets` (body missing),
section 4.2.3: update the capacity queue, remove every delay-link packet with
`arrival_time_us ≤ now`, return them by ascending arrival time (ties in insertion order),
recompute the next process time. -/
def SimulatedNetwork.DequeueDeliverablePackets (boxMuller : Nat → Nat → ℚ)
    (net : SimulatedNetwork) (receive_time_us : Int) :
    List PacketDeliveryInfo × SimulatedNetwork :=
  let net := net.UpdateCapacityQueue boxMuller net.GetConfigState receive_time_us
  let ready := net.delay_link_.filter (fun p => decide (p.arrival_time_us ≤ receive_time_us))
  let rest := net.delay_link_.filter (fun p => !decide (p.arrival_time_us ≤ receive_time_us))
  let sorted := ready.insertionSort (fun a b => a.arrival_time_us ≤ b.arrival_time_us)
  (sorted.map (fun p => PacketDeliveryInfo.ofSource p.packet p.arrival_time_us),
    SimulatedNetwork.recomputeNextProcessTime { net with delay_link_ := rest })

/-- Modelled from the spec: the re-clocking scan of section 4.2.5 (the bodies of `SetConfig`
and `PauseTransmissionUntil` are missing): from head to tail, each packet starts at
`max(send_time_us, prior_arrival_time_us, pause_transmission_until_us)`, where the prior
arrival is the exit time of the packet ahead: the recomputed exit of the packet before it in
the link, and for the head the time given as `prior_arrival_time_us`. -/
def reclock (state : ConfigState) : Int → List PacketInfo → List PacketInfo
  | _, [] => []
  | prior_arrival_time_us, p :: rest =>
    let start := max p.packet.send_time_us
      (max prior_arrival_time_us state.pause_transmission_until_us)
    let exit := capacityExitTime state start p.packet.size
    { p with arrival_time_us := exit } :: reclock state exit rest

/-- Modelled from the spec: installing a `ConfigState` (section 4.2.5): the capacity link
is re-clocked, the packet ahead of its head being the last packet that left the link
(`last_capacity_link_exit_time_`, invariant I2 of the specification); the delay link is left
alone and the next process time is recomputed. The sentence "`last_capacity_exit_time_us` is
updated to the tail's new exit" holds of `lastCapacityExitTime`, which reads the tail. -/
def SimulatedNetwork.install (net : SimulatedNetwork) (state : ConfigState) : SimulatedNetwork :=
  SimulatedNetwork.recomputeNextProcessTime
    { net with
      config_state_ := state
      capacity_link_ := reclock state net.last_capacity_link_exit_time_ net.capacity_link_ }

/-- Modelled from the spec: `SimulatedNetwork::SetConfig` (body missing), section 4.2.5.
`none` is the fail-fast of section 7 on `avg_burst_loss_length == 0`. -/
def SimulatedNetwork.SetConfig (net : SimulatedNetwork) (config : Config) :
    Option SimulatedNetwork :=
  (makeConfigState config net.config_state_.pause_transmission_until_us).map net.install

/-- Modelled from the spec: `SimulatedNetwork::UpdateConfig` (body missing): the modifier is
applied to the current configuration and the result installed as by `SetConfig`. -/
def SimulatedNetwork.UpdateConfig (net : SimulatedNetwork) (config_modifier : Config → Config) :
    Option SimulatedNetwork :=
  net.SetConfig (config_modifier net.config_state_.config)

/-- Modelled from the spec: `SimulatedNetwork::PauseTransmissionUntil` (body missing),
section 4.2.5: sets `pause_transmission_until_us` and re-clocks the capacity link. -/
def SimulatedNetwork.PauseTransmissionUntil (net : SimulatedNetwork) (until_us : Int) :
    SimulatedNetwork :=
  net.install { net.config_state_ with pause_transmission_until_us := until_us }

/-- Modelled from the spec: the constructor `SimulatedNetwork(Config config,
uint64_t random_seed = 1)` (body missing): empty queues, the loss model in state Normal,
the generator seeded with `random_seed`, all times `0`. -/
def SimulatedNetwork.new (config : Config) (random_seed : Nat) : Option SimulatedNetwork :=
  (makeConfigState config 0).map fun state =>
    { capacity_link_ := []
      delay_link_ := []
      next_process_time_us_ := none
      config_state_ := state
      random_ := Random.new random_seed
      bursting_ := false
      last_enqueue_time_us_ := 0
      last_capacity_link_exit_time_ := 0 }

/-! ## Sequences of public calls -/

/-- One call of the public interface of `SimulatedNetwork`. -/
inductive Call where
  | enqueue (packet : PacketInFlightInfo)
  | setConfig (config : Config)
  | updateConfig (config_modifier : Config → Config)
  | pauseTransmissionUntil (until_us : Int)
  | dequeue (receive_time_us : Int)

/-- The effect of one call: the new simulator and the deliveries the call returned
(`none` when the call fails fast). -/
def SimulatedNetwork.call (boxMuller : Nat → Nat → ℚ) (net : SimulatedNetwork) :
    Call → Option (SimulatedNetwork × List PacketDeliveryInfo)
  | Call.enqueue packet => (net.EnqueuePacket boxMuller packet).map fun r => (r.2, [])
  | Call.setConfig config => (net.SetConfig config).map fun n => (n, [])
  | Call.updateConfig config_modifier => (net.UpdateConfig config_modifier).map fun n => (n, [])
  | Call.pauseTransmissionUntil until_us => some (net.PauseTransmissionUntil until_us, [])
  | Call.dequeue receive_time_us =>
    let r := net.DequeueDeliverablePackets boxMuller receive_time_us
    some (r.2, r.1)

/-- A sequence of calls run in order: the final simulator and all deliveries returned, in
the order returned. -/
def SimulatedNetwork.run (boxMuller : Nat → Nat → ℚ) :
    SimulatedNetwork → List Call → Option (SimulatedNetwork × List PacketDeliveryInfo)
  | net, [] => some (net, [])
  | net, c :: cs =>
    match net.call boxMuller c with
    | none => none
    | some (net1, ds1) =>
      match SimulatedNetwork.run boxMuller net1 cs with
      | none => none
      | some (net2, ds2) => some (net2, ds1 ++ ds2)

/-- The packets handed to `EnqueuePacket` by a sequence of calls. -/
def enqueuedPackets : List Call → List PacketInFlightInfo
  | [] => []
  | Call.enqueue packet :: cs => packet :: enqueuedPackets cs
  | _ :: cs => enqueuedPackets cs

/-- A configuration whose link capacity and packet overhead are not negative. -/
def Config.nonnegative (config : Config) : Prop :=
  0 ≤ config.link_capacity_kbps ∧ 0 ≤ config.packet_overhead

/-- A call installs only configurations that are `Config.nonnegative`. -/
def Call.nonnegative : Call → Prop
  | Call.setConfig config => config.nonnegative
  | Call.updateConfig config_modifier => ∀ config : Config, config.nonnegative →
      (config_modifier config).nonnegative
  | _ => True

/-- A call leaves `queue_length_packets` at `N`. -/
def Call.keepsQueueLength (N : Nat) : Call → Prop
  | Call.setConfig config => config.queue_length_packets = N
  | Call.updateConfig config_modifier => ∀ config : Config, config.queue_length_packets = N →
      (config_modifier config).queue_length_packets = N
  | _ => True

/-- The invariant behind "no time travel": `q` carries a packet handed to `EnqueuePacket`
and its scheduled time is not before the packet's send time. -/
def PacketInfo.good (E : List PacketInFlightInfo) (q : PacketInfo) : Prop :=
  q.packet ∈ E ∧ q.packet.send_time_us ≤ q.arrival_time_us

/-- A freshly constructed simulator driven through a sequence of calls. -/
def SimulatedNetwork.runFresh (boxMuller : Nat → Nat → ℚ) (config : Config) (random_seed : Nat)
    (calls : List Call) : Option (SimulatedNetwork × List PacketDeliveryInfo) :=
  (SimulatedNetwork.new config random_seed).bind fun net0 =>
    SimulatedNetwork.run boxMuller net0 calls

/-- All deliveries returned to the caller of a freshly constructed simulator. -/
def deliveriesOf (boxMuller : Nat → Nat → ℚ) (config : Config) (random_seed : Nat)
    (calls : List Call) : Option (List PacketDeliveryInfo) :=
  (SimulatedNetwork.runFresh boxMuller config random_seed calls).map Prod.snd

/-- The delivery record made from an entry of the delay link:
`PacketDeliveryInfo(packet, arrival_time_us)`. -/
def PacketInfo.delivery (q : PacketInfo) : PacketDeliveryInfo :=
  PacketDeliveryInfo.ofSource q.packet q.arrival_time_us

/-- The entries of the delay link that `DequeueDeliverablePackets` turns into deliveries, in
the order returned: each holds the packet its delivery is made from and the receive time. -/
def SimulatedNetwork.deliveredPackets (boxMuller : Nat → Nat → ℚ) (net : SimulatedNetwork)
    (receive_time_us : Int) : List PacketInfo :=
  let net := net.UpdateCapacityQueue boxMuller net.GetConfigState receive_time_us
  (net.delay_link_.filter (fun p => decide (p.arrival_time_us ≤ receive_time_us))).insertionSort
    (fun a b => a.arrival_time_us ≤ b.arrival_time_us)

/-- The deliveries of one call, each kept with the packet it is made from. -/
def SimulatedNetwork.sourcesOfCall (boxMuller : Nat → Nat → ℚ) (net : SimulatedNetwork) :
    Call → List PacketInfo
  | Call.dequeue receive_time_us => net.deliveredPackets boxMuller receive_time_us
  | _ => []

/-- The deliveries of a sequence of calls, in the order returned, each kept with the packet
it is made from (`none` when a call fails fast). -/
def SimulatedNetwork.runSources (boxMuller : Nat → Nat → ℚ) :
    SimulatedNetwork → List Call → Option (List PacketInfo)
  | _, [] => some []
  | net, c :: cs =>
    match net.call boxMuller c with
    | none => none
    | some (net1, _) =>
      (SimulatedNetwork.runSources boxMuller net1 cs).map fun qs =>
        net.sourcesOfCall boxMuller c ++ qs

/-- The deliveries returned to the caller of a freshly constructed simulator, each kept with
the packet it is made from. -/
def sourcesOf (boxMuller : Nat → Nat → ℚ) (config : Config) (random_seed : Nat)
    (calls : List Call) : Option (List PacketInfo) :=
  (SimulatedNetwork.new config random_seed).bind fun net0 =>
    SimulatedNetwork.runSources boxMuller net0 calls

/-- A transcendental factor that is constantly zero, for concrete runs. -/
def noJitter : Nat → Nat → ℚ := fun _ _ => 0

/-- The configuration of `SimulatedNetworkTest.BasicTest`. -/
def basicTestConfig : Config := { link_capacity_kbps := 500, queue_length_packets := 50 }

/-- The configuration of the queue-overflow scenario: one slot, 100 kbps. -/
def overflowConfig : Config := { link_capacity_kbps := 100, queue_length_packets := 1 }

/-- The simulator of the queue-overflow scenario after its first packet was accepted. -/
def overflowNetwork : SimulatedNetwork :=
  { capacity_link_ := [⟨⟨1000, 0, 1⟩, 80000⟩]
    delay_link_ := []
    next_process_time_us_ := some 80000
    config_state_ := ⟨overflowConfig, 0, 0, 0⟩
    random_ := ⟨1⟩
    bursting_ := false
    last_enqueue_time_us_ := 0
    last_capacity_link_exit_time_ := 0 }

/-- A configuration with a negative link capacity. -/
def negativeCapacityConfig : Config := { link_capacity_kbps := -8 }

/-- The 64-bit state whose next output is `1`. -/
def outputOneState : Nat := 11013388057781577488

/-- The 64-bit state whose next output is `2 ^ 64 - 1`. -/
def outputMaxState : Nat := 12165231662994148584

/-- The sampler `rand_bool` in the words of the specification: `rand_u32(0,1) == 1`, with
the unsigned range sampler. -/
def Random.randBoolSpec (r : Random) : Bool × Random :=
  let out := r.RandU32 0 1
  (decide (out.1 = 1), out.2)

/-- A call of one of the samplers of `Random`, with its arguments. -/
inductive SamplerCall where
  | rand (t : Nat)
  | randU32 (low high : Nat)
  | randI32 (low high : Int)
  | randBool
  | randDouble
  | gaussian (mean standard_deviation : ℚ)

/-- The value a sampler returns. -/
inductive SamplerResult where
  | u32 (value : Nat)
  | i32 (value : Int)
  | bool (value : Bool)
  | real (value : ℚ)
deriving DecidableEq

/-- The outcome of a sequence of sampler calls: the values returned, the values returned by
the calls of `NextOutput` made on the way, and the generator left behind. -/
structure SamplerRun where
  results : List SamplerResult
  outputs : List Nat
  final : Random

/-- One sampler call: the value returned, the `NextOutput` values drawn by the body of the
sampler in `Random.cpp`, and the generator left behind. -/
def Random.sample (boxMuller : Nat → Nat → ℚ) (r : Random) :
    SamplerCall → SamplerResult × List Nat × Random
  | SamplerCall.rand t => (SamplerResult.u32 (r.Rand t).1, [r.NextOutput.1], (r.Rand t).2)
  | SamplerCall.randU32 low high =>
    (SamplerResult.u32 (r.RandU32 low high).1, [r.NextOutput.1], (r.RandU32 low high).2)
  | SamplerCall.randI32 low high =>
    (SamplerResult.i32 (r.RandI32 low high).1, [r.NextOutput.1], (r.RandI32 low high).2)
  | SamplerCall.randBool => (SamplerResult.bool r.RandBool.1, [r.NextOutput.1], r.RandBool.2)
  | SamplerCall.randDouble =>
    (SamplerResult.real r.RandDouble.1, [r.NextOutput.1], r.RandDouble.2)
  | SamplerCall.gaussian mean standard_deviation =>
    (SamplerResult.real (r.Gaussian boxMuller mean standard_deviation).1,
      [r.NextOutput.1, r.NextOutput.2.NextOutput.1],
      (r.Gaussian boxMuller mean standard_deviation).2)

/-- A sequence of sampler calls made one after the other on the same generator. -/
def Random.sampleAll (boxMuller : Nat → Nat → ℚ) : Random → List SamplerCall → SamplerRun
  | r, [] => ⟨[], [], r⟩
  | r, c :: cs =>
    let one := r.sample boxMuller c
    let more := Random.sampleAll boxMuller one.2.2 cs
    ⟨one.1 :: more.results, one.2.1 ++ more.outputs, more.final⟩

/-- The number of calls of `NextOutput` in the body of a sampler. -/
def SamplerCall.coreSteps : SamplerCall → Nat
  | SamplerCall.gaussian _ _ => 2
  | _ => 1

/-- The number of calls of `NextOutput` made by a sequence of sampler calls. -/
def totalCoreSteps : List SamplerCall → Nat
  | [] => 0
  | c :: cs => c.coreSteps + totalCoreSteps cs

/-- The first `n` values returned by `NextOutput`, starting from the generator `r`. -/
def Random.outputStream (r : Random) (n : Nat) : List Nat :=
  (List.range n).map fun i => r.nthOutput (i + 1)

/-- The configuration of the reconfiguration scenario before `SetConfig`: 100 kbps. -/
def reconfigConfig : Config := { link_capacity_kbps := 100 }

/-- The configuration installed in the reconfiguration scenario: 1000 kbps. -/
def reconfigFastConfig : Config := { link_capacity_kbps := 1000 }

/-- The simulator of the reconfiguration scenario after its 10000-byte packet was accepted. -/
def reconfigNetwork : SimulatedNetwork :=
  { capacity_link_ := [⟨⟨10000, 0, 1⟩, 800000⟩]
    delay_link_ := []
    next_process_time_us_ := some 800000
    config_state_ := ⟨reconfigConfig, 0, 0, 0⟩
    random_ := ⟨1⟩
    bursting_ := false
    last_enqueue_time_us_ := 0
    last_capacity_link_exit_time_ := 0 }

/-- The simulator of the backlog scenario: two 1000-byte packets sent at `0` into a 100 kbps
link, after `DequeueDeliverablePackets(80000)` has delivered the first. The second waits in
the capacity link for time `160000`; the last packet left the link at `80000`. -/
def backlogNetwork : SimulatedNetwork :=
  { capacity_link_ := [⟨⟨1000, 0, 2⟩, 160000⟩]
    delay_link_ := []
    next_process_time_us_ := some 160000
    config_state_ := ⟨reconfigConfig, 0, 0, 0⟩
    random_ := ⟨3659449627584515⟩
    bursting_ := false
    last_enqueue_time_us_ := 0
    last_capacity_link_exit_time_ := 80000 }

/-- The exit time of the tail of a list of queued packets, or `prior` when it is empty. -/
def exitOfTail (prior : Int) (l : List PacketInfo) : Int :=
  match l.getLast? with
  | some tail => tail.arrival_time_us
  | none => prior

/-- The invariants I2 and I3 of the specification as a fixed point: every exit time in the
capacity link is the one the re-clocking scan computes under the current `ConfigState`, the
packet ahead of the head being the last packet that left the link. -/
def SimulatedNetwork.clocked (net : SimulatedNetwork) : Prop :=
  reclock net.config_state_ net.last_capacity_link_exit_time_ net.capacity_link_ =
    net.capacity_link_

/-- The cached `ConfigState` is the one derived from its own configuration and pause. -/
def SimulatedNetwork.cached (net : SimulatedNetwork) : Prop :=
  makeConfigState net.config_state_.config net.config_state_.pause_transmission_until_us =
    some net.config_state_

/-- The configuration of the pure-delay scenario: infinite capacity, 10 ms of extra delay. -/
def delayConfig : Config := { queue_delay_ms := 10 }

/-- The simulator of the pure-delay scenario after its packet was accepted. -/
def delayNetwork : SimulatedNetwork :=
  { capacity_link_ := [⟨⟨1000, 0, 1⟩, 0⟩]
    delay_link_ := []
    next_process_time_us_ := some 0
    config_state_ := ⟨delayConfig, 0, 0, 0⟩
    random_ := ⟨1⟩
    bursting_ := false
    last_enqueue_time_us_ := 0
    last_capacity_link_exit_time_ := 0 }

/-- A call installs only configurations with `allow_reordering == false`. -/
def Call.keepsOrdering : Call → Prop
  | Call.setConfig config => config.allow_reordering = false
  | Call.updateConfig config_modifier => ∀ config : Config, config.allow_reordering = false →
      (config_modifier config).allow_reordering = false
  | _ => True

/-- The call is `EnqueuePacket` or `DequeueDeliverablePackets`. -/
def Call.isQueueCall : Call → Prop
  | Call.enqueue _ => True
  | Call.dequeue _ => True
  | _ => False

/-- No packet is sent before the time of an earlier `DequeueDeliverablePackets` call. -/
def dequeueBeforeEnqueue : List Call → Prop
  | [] => True
  | Call.dequeue receive_time_us :: cs =>
    (∀ packet : PacketInFlightInfo, Call.enqueue packet ∈ cs →
      receive_time_us ≤ packet.send_time_us) ∧ dequeueBeforeEnqueue cs
  | _ :: cs => dequeueBeforeEnqueue cs

/-- The order of the delay link by scheduled delivery time. -/
def PacketInfo.arrivesBefore (a b : PacketInfo) : Prop := a.arrival_time_us ≤ b.arrival_time_us

/-- The packets (without their times) held in the delay link and, behind them, in the
capacity link. -/
def SimulatedNetwork.inFlight (net : SimulatedNetwork) : List PacketInFlightInfo :=
  net.delay_link_.map (fun q => q.packet) ++ net.capacity_link_.map (fun q => q.packet)

/-- The invariant behind FIFO delivery: reordering is off and the delay link is in the order
of its scheduled delivery times. -/
def SimulatedNetwork.ordered (net : SimulatedNetwork) : Prop :=
  net.config_state_.config.allow_reordering = false ∧
  net.delay_link_.Pairwise PacketInfo.arrivesBefore

/-- The invariant behind non-decreasing receive times: the configuration is not negative, the
capacity link is in the order of its exit times, and nothing in either link is scheduled
before `bound`. -/
def SimulatedNetwork.scheduledFrom (net : SimulatedNetwork) (bound : Int) : Prop :=
  net.config_state_.config.nonnegative ∧
  net.capacity_link_.Pairwise PacketInfo.arrivesBefore ∧
  (∀ q ∈ net.capacity_link_, bound ≤ q.arrival_time_us) ∧
  (∀ q ∈ net.delay_link_, bound ≤ q.arrival_time_us)

/-- The factor `sqrt(-2 * log(u1)) * cos(2 * kPi * u2)` of `Random::Gaussian`, to three
decimals, on the three Gaussian draws of a simulator with seed `1` that promotes three packets
without a loss: the calls 2 and 3, 5 and 6, 8 and 9 of `NextOutput` (the calls 1, 4 and 7 are
the loss draws) give `-0.135`, `0.491` and `-0.470`. No other draw is made in the jitter
scenario; they are given as `0`. -/
def seedOneFactor : Nat → Nat → ℚ := fun o1 o2 =>
  if o1 = 12380297144915551517 ∧ o2 = 13389498078930870103 then -135 / 1000
  else if o1 = 1036278371763004928 ∧ o2 = 14440594066559445721 then 491 / 1000
  else if o1 = 12425867847131019661 ∧ o2 = 6247250396617125944 then -470 / 1000
  else 0

/-- The configuration of the jitter scenario (scenario 4 of the specification): infinite
capacity, no mean delay, a standard deviation of 100 ms, reordering off. -/
def jitterConfig : Config := { delay_standard_deviation_ms := 100 }

/-- The calls of the jitter scenario: three packets sent at `0`, `1` and `2`, each followed by
a `DequeueDeliverablePackets`, at `0`, `50000` and `60000`. -/
def jitterCalls : List Call :=
  [Call.enqueue ⟨1000, 0, 1⟩, Call.dequeue 0, Call.enqueue ⟨1000, 1, 2⟩, Call.dequeue 50000,
    Call.enqueue ⟨1000, 2, 3⟩, Call.dequeue 60000]

/-- The simulator of the pure-delay scenario after `DequeueDeliverablePackets(0)`: its packet
waits in the delay link for time `10000`. -/
def delayedNetwork : SimulatedNetwork :=
  { capacity_link_ := []
    delay_link_ := [⟨⟨1000, 0, 1⟩, 10000⟩]
    next_process_time_us_ := some 10000
    config_state_ := ⟨delayConfig, 0, 0, 0⟩
    random_ := ⟨3659449627584515⟩
    bursting_ := false
    last_enqueue_time_us_ := 0
    last_capacity_link_exit_time_ := 0 }

/-! ## The generator: lemmas and theorems -/

theorem xorshift12_eq_zero {s : Nat} (h : xorshift12 s = 0) : s = 0 := by
  unfold xorshift12 at h
  rw [Nat.xor_eq_zero, Nat.shiftRight_eq_div_pow] at h
  omega

theorem xorshift27_eq_zero {s : Nat} (h : xorshift27 s = 0) : s = 0 := by
  unfold xorshift27 at h
  rw [Nat.xor_eq_zero, Nat.shiftRight_eq_div_pow] at h
  omega

theorem xorshift25_eq_zero {s : Nat} (hs : s < 2 ^ 64) (h : xorshift25 s = 0) : s = 0 := by
  unfold xorshift25 at h
  rw [Nat.xor_eq_zero, Nat.shiftLeft_eq] at h
  omega

theorem xorshift12_lt {s : Nat} (hs : s < 2 ^ 64) : xorshift12 s < 2 ^ 64 := by
  unfold xorshift12
  apply Nat.xor_lt_two_pow hs
  rw [Nat.shiftRight_eq_div_pow]
  exact lt_of_le_of_lt (Nat.div_le_self _ _) hs

theorem xorshift27_lt {s : Nat} (hs : s < 2 ^ 64) : xorshift27 s < 2 ^ 64 := by
  unfold xorshift27
  apply Nat.xor_lt_two_pow hs
  rw [Nat.shiftRight_eq_div_pow]
  exact lt_of_le_of_lt (Nat.div_le_self _ _) hs

theorem xorshift25_lt {s : Nat} (hs : s < 2 ^ 64) : xorshift25 s < 2 ^ 64 := by
  unfold xorshift25
  exact Nat.xor_lt_two_pow hs (Nat.mod_lt _ (by norm_num))

theorem nextState_lt {s : Nat} (hs : s < 2 ^ 64) : nextState s < 2 ^ 64 :=
  xorshift27_lt (xorshift25_lt (xorshift12_lt hs))

theorem nextState_ne_zero {s : Nat} (hs : s < 2 ^ 64) (h0 : s ≠ 0) : nextState s ≠ 0 := by
  intro h
  exact h0 (xorshift12_eq_zero (xorshift25_eq_zero (xorshift12_lt hs) (xorshift27_eq_zero h)))

theorem mul_kMultiplier_ne_zero {s : Nat} (hs : s < 2 ^ 64) (h0 : s ≠ 0) :
    (s * kMultiplier) % 2 ^ 64 ≠ 0 := by
  intro h
  have hd : 2 ^ 64 ∣ s * kMultiplier := Nat.dvd_of_mod_eq_zero h
  have hk : Nat.Coprime 2 kMultiplier := by decide
  have hc : Nat.Coprime (2 ^ 64) kMultiplier := Nat.Coprime.pow_left 64 hk
  have := Nat.le_of_dvd (Nat.pos_of_ne_zero h0) (hc.dvd_of_dvd_mul_right hd)
  omega

theorem steps_succ (n : Nat) (r : Random) :
    Random.steps (n + 1) r = (Random.steps n r).NextOutput.2 := by
  induction n generalizing r with
  | zero => rfl
  | succ n ih =>
    show Random.steps (n + 1) r.NextOutput.2 = _
    rw [ih]
    rfl

theorem steps_state (n : Nat) (r : Random) (hs : r.state_ < 2 ^ 64) (h0 : r.state_ ≠ 0) :
    (Random.steps n r).state_ < 2 ^ 64 ∧ (Random.steps n r).state_ ≠ 0 := by
  induction n with
  | zero => exact ⟨hs, h0⟩
  | succ n ih =>
    rw [steps_succ]
    exact ⟨nextState_lt ih.1, nextState_ne_zero ih.1 ih.2⟩


theorem scale32_eq {x t : Nat} (hx : x < 2 ^ 32) (ht : t < 2 ^ 32) :
    scale32 x t = x * (t + 1) / 2 ^ 32 ∧ x * (t + 1) < 2 ^ 64 := by
  have hp : x * (t + 1) < 2 ^ 32 * (t + 1) := Nat.mul_lt_mul_of_pos_right hx (Nat.succ_pos t)
  have hq : 2 ^ 32 * (t + 1) ≤ 2 ^ 32 * 2 ^ 32 := Nat.mul_le_mul_left _ ht
  have h64 : x * (t + 1) < 2 ^ 64 := by
    have : (2 : Nat) ^ 32 * 2 ^ 32 = 2 ^ 64 := by norm_num
    omega
  have hd : x * (t + 1) / 2 ^ 32 < t + 1 :=
    Nat.div_lt_of_lt_mul (by rw [Nat.mul_comm] at hp; rw [Nat.mul_comm]; exact hp)
  refine ⟨?_, h64⟩
  unfold scale32
  simp only
  rw [Nat.mod_eq_of_lt (show t < 2 ^ 64 by omega), Nat.mod_eq_of_lt (show t + 1 < 2 ^ 64 by omega),
    Nat.mod_eq_of_lt h64, Nat.shiftRight_eq_div_pow, Nat.mod_eq_of_lt (by omega)]

theorem scale32_le {x t : Nat} (hx : x < 2 ^ 32) (ht : t < 2 ^ 32) : scale32 x t ≤ t := by
  rw [(scale32_eq hx ht).1]
  have hp : x * (t + 1) < 2 ^ 32 * (t + 1) := Nat.mul_lt_mul_of_pos_right hx (Nat.succ_pos t)
  have hd : x * (t + 1) / 2 ^ 32 < t + 1 :=
    Nat.div_lt_of_lt_mul hp
  omega

theorem Rand_le (r : Random) {t : Nat} (ht : t < 2 ^ 32) : (r.Rand t).1 ≤ t :=
  scale32_le (Nat.mod_lt _ (by norm_num)) ht

/-- Claim C4: for every generator state and every 32-bit unsigned `t` (also `t = 2 ^ 32 - 1`),
`Rand(t)` equals `(x * (t + 1)) >> 32` with `x` the low 32 bits of the next output, the
product fits in 64 bits, and the result is at most `t`. -/
theorem Rand_in_range (r : Random) (t : Nat) (ht : t < 2 ^ 32) :
    (r.Rand t).1 = ((r.NextOutput.1 % 2 ^ 32) * (t + 1)) >>> 32 ∧
    (r.NextOutput.1 % 2 ^ 32) * (t + 1) < 2 ^ 64 ∧
    (r.Rand t).1 ≤ t := by
  have hx : r.NextOutput.1 % 2 ^ 32 < 2 ^ 32 := Nat.mod_lt _ (by norm_num)
  refine ⟨?_, (scale32_eq hx ht).2, Rand_le r ht⟩
  rw [Nat.shiftRight_eq_div_pow]
  exact (scale32_eq hx ht).1

/-- Claim C6: for `low ≤ high` (32-bit unsigned), `Rand(low, high)` equals
`Rand(high - low) + low`, the addition does not wrap modulo `2 ^ 32`, and the result lies in
`[low, high]`. -/
theorem RandU32_in_range (r : Random) (low high : Nat) (hle : low ≤ high) (hh : high < 2 ^ 32) :
    (r.RandU32 low high).1 = (r.Rand (high - low)).1 + low ∧
    (r.Rand (high - low)).1 + low < 2 ^ 32 ∧
    low ≤ (r.RandU32 low high).1 ∧ (r.RandU32 low high).1 ≤ high := by
  have ht : (high + 2 ^ 32 - low) % 2 ^ 32 = high - low := by omega
  have hr := Rand_le r (show high - low < 2 ^ 32 by omega)
  have h1 : (r.RandU32 low high).1 = (r.Rand (high - low)).1 + low := by
    unfold Random.RandU32
    simp only
    rw [ht]
    omega
  refine ⟨h1, by omega, by omega, by omega⟩

/-- Claim C5: for every generator state and 32-bit signed `low ≤ high`, also when
`high - low` exceeds the largest 32-bit signed integer, no intermediate value of the signed
`Rand(low, high)` wraps (the 64-bit difference, its conversion to `uint32_t`, the 64-bit sum and
the returned `int32_t` are all exact) and the result lies in `[low, high]`. -/
theorem RandI32_in_range (r : Random) (low high : Int) (hlo : -2 ^ 31 ≤ low) (hle : low ≤ high)
    (hhi : high < 2 ^ 31) :
    wrapI64 (high - low) = high - low ∧
    ((toU32 (wrapI64 (high - low)) : Nat) : Int) = high - low ∧
    (r.RandI32 low high).1 = ((r.Rand (high - low).toNat).1 : Int) + low ∧
    low ≤ (r.RandI32 low high).1 ∧ (r.RandI32 low high).1 ≤ high := by
  have hw : wrapI64 (high - low) = high - low := by unfold wrapI64; omega
  have hu : toU32 (high - low) = (high - low).toNat := by unfold toU32; omega
  have hr := Rand_le r (show (high - low).toNat < 2 ^ 32 by omega)
  have h1 : (r.RandI32 low high).1 = ((r.Rand (high - low).toNat).1 : Int) + low := by
    unfold Random.RandI32
    simp only
    rw [hw, hu]
    unfold wrapI64 wrapI32
    omega
  refine ⟨hw, ?_, h1, by omega, by omega⟩
  rw [hw, hu]
  omega

theorem NextOutput_ne_zero (r : Random) (hs : r.state_ < 2 ^ 64) (h0 : r.state_ ≠ 0) :
    r.NextOutput.1 ≠ 0 ∧ r.NextOutput.1 < 2 ^ 64 :=
  ⟨mul_kMultiplier_ne_zero (nextState_lt hs) (nextState_ne_zero hs h0), Nat.mod_lt _ (by norm_num)⟩

/-- Claim C2: for every nonzero 64-bit seed and every `n ≥ 1`, the state after `n` calls of
`NextOutput` is nonzero, and the `n`-th output, which is that state times
`2685821657736338717` modulo `2 ^ 64`, is nonzero. -/
theorem NextOutput_nonzero (seed n : Nat) (hseed : seed ≠ 0) (hlt : seed < 2 ^ 64) (hn : 1 ≤ n) :
    ((Random.new seed).steps n).state_ ≠ 0 ∧
    (Random.new seed).nthOutput n = (((Random.new seed).steps n).state_ * 2685821657736338717) % 2 ^ 64 ∧
    (Random.new seed).nthOutput n ≠ 0 := by
  have hnew : (Random.new seed).state_ = seed := Nat.mod_eq_of_lt hlt
  obtain ⟨m, rfl⟩ : ∃ m, n = m + 1 := ⟨n - 1, by omega⟩
  have hm := steps_state m (Random.new seed) (by rw [hnew]; exact hlt) (by rw [hnew]; exact hseed)
  have hm1 := steps_state (m + 1) (Random.new seed) (by rw [hnew]; exact hlt) (by rw [hnew]; exact hseed)
  refine ⟨hm1.2, ?_, (NextOutput_ne_zero _ hm.1 hm.2).1⟩
  rw [steps_succ]
  rfl

theorem roundHalfEven_of_lt {x : ℚ} {z : Int} (h1 : (z : ℚ) ≤ x) (h2 : x < z + 1 / 2) :
    roundHalfEven x = z := by
  have hf : ⌊x⌋ = z := by
    rw [Int.floor_eq_iff]; constructor
    · exact h1
    · linarith
  unfold roundHalfEven
  simp only [hf]
  rw [if_pos (by linarith)]

theorem roundHalfEven_of_gt {x : ℚ} {z : Int} (h1 : (z : ℚ) + 1 / 2 < x) (h2 : x < z + 1) :
    roundHalfEven x = z + 1 := by
  have hf : ⌊x⌋ = z := by
    rw [Int.floor_eq_iff]; constructor
    · linarith
    · exact h2
  unfold roundHalfEven
  simp only [hf]
  rw [if_neg (by linarith), if_pos (by linarith)]

theorem roundHalfEven_intCast (z : Int) : roundHalfEven (z : ℚ) = z :=
  roundHalfEven_of_lt le_rfl (by linarith)

theorem floor_le_roundHalfEven (x : ℚ) : ⌊x⌋ ≤ roundHalfEven x := by
  unfold roundHalfEven
  simp only
  split_ifs <;> omega

theorem log_eq_of_bounds {x : ℚ} {e : ℤ} (h1 : (2 : ℚ) ^ e ≤ x) (h2 : x < (2 : ℚ) ^ (e + 1)) :
    Int.log 2 x = e := by
  have hx : 0 < x := lt_of_lt_of_le (zpow_pos (by norm_num) e) h1
  have ha : e ≤ Int.log 2 x := by
    rw [← Int.zpow_le_iff_le_log (by norm_num) hx]; exact_mod_cast h1
  have hb : Int.log 2 x < e + 1 := by
    rw [← Int.lt_zpow_iff_log_lt (by norm_num) hx]; exact_mod_cast h2
  omega

theorem roundDouble_zero : roundDouble 0 = 0 := by simp [roundDouble]

theorem roundDouble_of_pos {x : ℚ} (hx : 0 < x) :
    roundDouble x = (roundHalfEven (x / 2 ^ (Int.log 2 x - 52)) : ℚ) * 2 ^ (Int.log 2 x - 52) := by
  unfold roundDouble
  rw [if_neg hx.ne', abs_of_pos hx]

theorem two_pow_52_mul (e : Int) : ((2 ^ 52 : Int) : ℚ) * 2 ^ (e - 52) = 2 ^ e := by
  have h : ((2 ^ 52 : Int) : ℚ) = (2 : ℚ) ^ (52 : Int) := by norm_num
  rw [h, ← zpow_add₀ (by norm_num : (2 : ℚ) ≠ 0)]
  congr 1
  ring

/-- A positive number is rounded to at least the power of two below it. -/
theorem le_roundDouble {x : ℚ} (hx : 0 < x) : (2 : ℚ) ^ Int.log 2 x ≤ roundDouble x := by
  rw [roundDouble_of_pos hx]
  have hu : (0 : ℚ) < 2 ^ (Int.log 2 x - 52) := zpow_pos (by norm_num) _
  have h1 : (2 : ℚ) ^ Int.log 2 x ≤ x := by
    have := Int.zpow_log_le_self (b := 2) (by norm_num) hx
    exact_mod_cast this
  have h2 : ((2 ^ 52 : Int) : ℚ) ≤ x / 2 ^ (Int.log 2 x - 52) := by
    rw [le_div_iff₀ hu, two_pow_52_mul]
    exact h1
  have h3 : (2 ^ 52 : Int) ≤ roundHalfEven (x / 2 ^ (Int.log 2 x - 52)) :=
    le_trans (Int.le_floor.mpr h2) (floor_le_roundHalfEven _)
  have h4 : ((2 ^ 52 : Int) : ℚ) ≤ (roundHalfEven (x / 2 ^ (Int.log 2 x - 52)) : ℚ) := by
    exact_mod_cast h3
  calc (2 : ℚ) ^ Int.log 2 x
      = ((2 ^ 52 : Int) : ℚ) * 2 ^ (Int.log 2 x - 52) := (two_pow_52_mul _).symm
    _ ≤ _ := mul_le_mul_of_nonneg_right h4 hu.le

theorem roundDouble_nonneg {x : ℚ} (hx : 0 ≤ x) : 0 ≤ roundDouble x := by
  rcases hx.eq_or_lt with h | h
  · rw [← h, roundDouble_zero]
  · exact le_trans (zpow_pos (by norm_num) _).le (le_roundDouble h)

theorem roundDouble_eval {x : ℚ} (e z : Int) (h1 : (2 : ℚ) ^ e ≤ x) (h2 : x < (2 : ℚ) ^ (e + 1))
    (hz : roundHalfEven (x / 2 ^ (e - 52)) = z) : roundDouble x = (z : ℚ) * 2 ^ (e - 52) := by
  have hx : 0 < x := lt_of_lt_of_le (zpow_pos (by norm_num) e) h1
  rw [roundDouble_of_pos hx, log_eq_of_bounds h1 h2, hz]

theorem toDouble_max : toDouble 0xFFFFFFFFFFFFFFFF = 2 ^ 64 := by
  unfold toDouble
  rw [roundDouble_eval 63 (2 ^ 53 - 1 + 1) (by norm_num) (by norm_num)
    (roundHalfEven_of_gt (by norm_num) (by norm_num))]
  norm_num

theorem toDouble_max_pred : toDouble (2 ^ 64 - 2) = 2 ^ 64 := by
  unfold toDouble
  rw [roundDouble_eval 63 (2 ^ 53 - 1 + 1) (by norm_num) (by norm_num)
    (roundHalfEven_of_gt (by norm_num) (by norm_num))]
  norm_num

theorem roundDouble_one : roundDouble 1 = 1 := by
  rw [roundDouble_eval 0 (2 ^ 52) (by norm_num) (by norm_num)
    (by rw [← roundHalfEven_intCast (2 ^ 52)]; norm_num)]
  norm_num


theorem roundHalfEven_of_tie_odd {x : ℚ} {z : Int} (h1 : (z : ℚ) + 1 / 2 ≤ x) (h2 : x < z + 1)
    (hz : z % 2 = 1) : roundHalfEven x = z + 1 := by
  rcases h1.eq_or_lt with h | h
  · have hf : ⌊x⌋ = z := by
      rw [Int.floor_eq_iff]; constructor
      · linarith
      · exact h2
    unfold roundHalfEven
    simp only [hf]
    rw [if_neg (by linarith), if_neg (by linarith), if_neg (by omega)]
  · exact roundHalfEven_of_gt h h2

/-- Every 64-bit integer from `2 ^ 64 - 1024` on is converted to the double `2 ^ 64`. -/
theorem toDouble_top {n : Nat} (h1 : 2 ^ 64 - 1024 ≤ n) (h2 : n < 2 ^ 64) :
    toDouble n = 2 ^ 64 := by
  have hn1 : ((2 ^ 64 - 1024 : Nat) : ℚ) ≤ (n : ℚ) := by exact_mod_cast h1
  have hn2 : (n : ℚ) < ((2 ^ 64 : Nat) : ℚ) := by exact_mod_cast h2
  have hn3 : (18446744073709550592 : ℚ) ≤ (n : ℚ) := by
    have : ((2 ^ 64 - 1024 : Nat) : ℚ) = 18446744073709550592 := by norm_num
    rw [← this]; exact hn1
  have hn4 : (n : ℚ) < 18446744073709551616 := by
    have : ((2 ^ 64 : Nat) : ℚ) = 18446744073709551616 := by norm_num
    rw [← this]; exact hn2
  have e1 : (2 : ℚ) ^ (63 : Int) = 9223372036854775808 := by norm_num
  have e2 : (2 : ℚ) ^ ((63 : Int) + 1) = 18446744073709551616 := by norm_num
  have e3 : (2 : ℚ) ^ ((63 : Int) - 52) = 2048 := by norm_num
  have e4 : (((2 ^ 53 - 1 : Int) : ℚ)) = 9007199254740991 := by norm_num
  have g1 : (2 : ℚ) ^ (63 : Int) ≤ (n : ℚ) := by rw [e1]; linarith
  have g2 : (n : ℚ) < (2 : ℚ) ^ ((63 : Int) + 1) := by rw [e2]; linarith
  have g3 : (((2 ^ 53 - 1 : Int) : ℚ)) + 1 / 2 ≤ (n : ℚ) / 2 ^ ((63 : Int) - 52) := by
    rw [e3, e4, le_div_iff₀ (by norm_num)]; linarith
  have g4 : (n : ℚ) / 2 ^ ((63 : Int) - 52) < (((2 ^ 53 - 1 : Int) : ℚ)) + 1 := by
    rw [e3, e4, div_lt_iff₀ (by norm_num)]; linarith
  unfold toDouble
  rw [roundDouble_eval 63 (2 ^ 53 - 1 + 1) g1 g2 (roundHalfEven_of_tie_odd g3 g4 (by decide))]
  norm_num

/-- Small integers are converted to `double` exactly; `2 ^ 53 + 1` lies half way between two
doubles and goes to the even one, `2 ^ 53`. -/
theorem toDouble_examples :
    toDouble 0 = 0 ∧ toDouble 1 = 1 ∧ toDouble 7 = 7 ∧ toDouble (2 ^ 53 + 1) = 2 ^ 53 ∧
    toDouble (2 ^ 53 + 3) = 2 ^ 53 + 4 ∧ toDouble (2 ^ 64 - 1025) = 2 ^ 64 - 2048 := by
  refine ⟨by simp [toDouble, roundDouble_zero], ?_, ?_, ?_, ?_, ?_⟩
  · unfold toDouble
    rw [Nat.cast_one, roundDouble_one]
  · unfold toDouble
    rw [roundDouble_eval 2 (7 * 2 ^ 50) (by norm_num) (by norm_num)
      (by rw [← roundHalfEven_intCast (7 * 2 ^ 50)]; norm_num)]
    norm_num
  · unfold toDouble
    have h : roundHalfEven ((((2 ^ 53 + 1 : Nat) : ℚ)) / 2 ^ ((53 : Int) - 52)) = 2 ^ 52 := by
      have hf : ⌊(((2 ^ 53 + 1 : Nat) : ℚ)) / 2 ^ ((53 : Int) - 52)⌋ = 2 ^ 52 := by
        rw [Int.floor_eq_iff]; constructor <;> norm_num
      unfold roundHalfEven
      simp only [hf]
      rw [if_neg (by norm_num), if_neg (by norm_num), if_pos (by decide)]
    rw [roundDouble_eval 53 (2 ^ 52) (by norm_num) (by norm_num) h]
    norm_num
  · unfold toDouble
    rw [roundDouble_eval 53 (2 ^ 52 + 1 + 1) (by norm_num) (by norm_num)
      (roundHalfEven_of_tie_odd (by norm_num) (by norm_num) (by decide))]
    norm_num
  · unfold toDouble
    rw [roundDouble_eval 63 (2 ^ 53 - 1) (by norm_num) (by norm_num)
      (roundHalfEven_of_lt (by norm_num) (by norm_num))]
    norm_num

theorem doubleNumerator_le (r : Random) (hs : r.state_ < 2 ^ 64) (h0 : r.state_ ≠ 0) :
    r.doubleNumerator = r.NextOutput.1 - 1 ∧ r.doubleNumerator ≤ 2 ^ 64 - 2 := by
  have ho := NextOutput_ne_zero r hs h0
  have hnum : r.doubleNumerator = r.NextOutput.1 - 1 := by
    unfold Random.doubleNumerator
    omega
  exact ⟨hnum, by omega⟩

/-- At every state whose numerator `NextOutput() - 1` is `2 ^ 64 - 1024` or more,
`Rand<double>()` returns `1`. -/
theorem RandDouble_eq_one (r : Random) (h : 2 ^ 64 - 1024 ≤ r.doubleNumerator) :
    r.RandDouble.1 = 1 := by
  have hlt : r.doubleNumerator < 2 ^ 64 := Nat.mod_lt _ (by norm_num)
  show roundDouble (toDouble r.doubleNumerator / toDouble 0xFFFFFFFFFFFFFFFF) = 1
  rw [toDouble_top h hlt, toDouble_max]
  rw [div_self (by norm_num), roundDouble_one]

/-- Claim C8, evaluated on the code: at the nonzero state `12165231662994148584` the next
output is `2 ^ 64 - 1`; the numerator `NextOutput() - 1 = 2 ^ 64 - 2` lies in
`[0, 2 ^ 64 - 2]` and the exact quotient by `2 ^ 64 - 1` is below `1`, but the conversion to
`double` rounds the numerator and the divisor both to `2 ^ 64`, and `Rand<double>()` returns
`1`, which is not in `[0, 1)`. -/
theorem RandDouble_reaches_one :
    (⟨outputMaxState⟩ : Random).state_ ≠ 0 ∧ (⟨outputMaxState⟩ : Random).state_ < 2 ^ 64 ∧
    (⟨outputMaxState⟩ : Random).NextOutput.1 = 2 ^ 64 - 1 ∧
    (⟨outputMaxState⟩ : Random).doubleNumerator = 2 ^ 64 - 2 ∧
    (((⟨outputMaxState⟩ : Random).doubleNumerator : ℚ) / 0xFFFFFFFFFFFFFFFF < 1) ∧
    toDouble (⟨outputMaxState⟩ : Random).doubleNumerator = 2 ^ 64 ∧
    toDouble 0xFFFFFFFFFFFFFFFF = 2 ^ 64 ∧
    (⟨outputMaxState⟩ : Random).RandDouble.1 = 1 := by
  have hn : (⟨outputMaxState⟩ : Random).doubleNumerator = 2 ^ 64 - 2 := by decide
  refine ⟨by decide, by decide, by decide, hn, ?_, ?_, toDouble_max, ?_⟩
  · rw [hn]; norm_num
  · rw [hn]; exact toDouble_top (by norm_num) (by norm_num)
  · exact RandDouble_eq_one _ (by rw [hn]; norm_num)

theorem filter_mul_div_eq_Ico (N m k : Nat) (hm : 0 < m) (hk : k < m) :
    (Finset.range N).filter (fun x => x * m / N = k) =
      Finset.Ico ((k * N + m - 1) / m) (((k + 1) * N + m - 1) / m) := by
  rcases Nat.eq_zero_or_pos N with h0 | hN
  · subst h0
    ext x
    simp
  ext x
  simp only [Finset.mem_filter, Finset.mem_range, Finset.mem_Ico]
  have hx1 : (x + 1) * m = x * m + m := Nat.succ_mul x m
  have hk1 : (k + 1) * N = k * N + N := Nat.succ_mul k N
  constructor
  · rintro ⟨_, hdiv⟩
    have h1 : k * N ≤ x * m := (Nat.le_div_iff_mul_le hN).1 (le_of_eq hdiv.symm)
    have h2 : x * m < (k + 1) * N := (Nat.div_lt_iff_lt_mul hN).1 (by omega)
    constructor
    · have : (k * N + m - 1) / m < x + 1 := (Nat.div_lt_iff_lt_mul hm).2 (by omega)
      omega
    · have : x + 1 ≤ ((k + 1) * N + m - 1) / m := (Nat.le_div_iff_mul_le hm).2 (by omega)
      omega
  · rintro ⟨ha, hb⟩
    have h1 : k * N + m - 1 < (x + 1) * m := (Nat.div_lt_iff_lt_mul hm).1 (by omega)
    have h2 : (x + 1) * m ≤ (k + 1) * N + m - 1 := (Nat.le_div_iff_mul_le hm).1 (by omega)
    have h3 : k * N ≤ x * m := by omega
    have h4 : x * m < (k + 1) * N := by omega
    have h5 : (k + 1) * N ≤ m * N := Nat.mul_le_mul_right N hk
    have h6 : x * m < N * m := by rw [Nat.mul_comm N m]; omega
    refine ⟨Nat.lt_of_mul_lt_mul_right h6, ?_⟩
    have h7 : k ≤ x * m / N := (Nat.le_div_iff_mul_le hN).2 h3
    have h8 : x * m / N < k + 1 := (Nat.div_lt_iff_lt_mul hN).2 h4
    omega

theorem ceil_mul_div (N m j : Nat) (hm : 0 < m) :
    (j * N + m - 1) / m = (j * (N % m) + m - 1) / m + j * (N / m) := by
  have hN : j * N = j * (N % m) + j * (N / m) * m := by
    conv_lhs => rw [← Nat.mod_add_div N m]
    ring
  have : j * N + m - 1 = (j * (N % m) + m - 1) + j * (N / m) * m := by omega
  rw [this, Nat.add_mul_div_right _ _ hm]

theorem ceil_step (r m k : Nat) (hm : 0 < m) (hr : r < m) :
    (k * r + m - 1) / m ≤ ((k + 1) * r + m - 1) / m ∧
    ((k + 1) * r + m - 1) / m ≤ (k * r + m - 1) / m + 1 := by
  have hk1 : (k + 1) * r = k * r + r := Nat.succ_mul k r
  constructor
  · exact Nat.div_le_div_right (by omega)
  · have h : ((k + 1) * r + m - 1) / m ≤ (k * r + m - 1 + m) / m :=
      Nat.div_le_div_right (by omega)
    rwa [Nat.add_div_right _ hm] at h

theorem ceil_zero_rem (r m j : Nat) (hm : 0 < m) (h0 : r = 0) : (j * r + m - 1) / m = 0 := by
  subst h0
  exact Nat.div_eq_of_lt (by simp only [Nat.mul_zero, Nat.zero_add]; omega)

theorem ceil_diff (N m k : Nat) (hm : 0 < m) :
    (((k + 1) * N + m - 1) / m - (k * N + m - 1) / m = N / m ∨
      ((k + 1) * N + m - 1) / m - (k * N + m - 1) / m = (N + m - 1) / m) ∧
    (m ∣ N → ((k + 1) * N + m - 1) / m - (k * N + m - 1) / m = N / m) := by
  have hr : N % m < m := Nat.mod_lt N hm
  have hs := ceil_step (N % m) m k hm hr
  have hq1 : (k + 1) * (N / m) = k * (N / m) + N / m := Nat.succ_mul _ _
  have hc : (N + m - 1) / m = (N % m + m - 1) / m + N / m := by
    have := ceil_mul_div N m 1 hm
    simpa using this
  have e1 := ceil_mul_div N m (k + 1) hm
  have e0 := ceil_mul_div N m k hm
  have z1 := ceil_zero_rem (N % m) m (k + 1) hm
  have z0 := ceil_zero_rem (N % m) m k hm
  have h1 : 0 < N % m → (N % m + m - 1) / m = 1 := by
    intro hpos
    have : N % m + m - 1 = (N % m - 1) + m := by omega
    rw [this, Nat.add_div_right _ hm, Nat.div_eq_of_lt (by omega)]
  have hdvd : m ∣ N → N % m = 0 := Nat.mod_eq_zero_of_dvd
  generalize ((k + 1) * N + m - 1) / m = A1 at *
  generalize (k * N + m - 1) / m = A0 at *
  generalize ((k + 1) * (N % m) + m - 1) / m = c1 at *
  generalize (k * (N % m) + m - 1) / m = c0 at *
  generalize (k + 1) * (N / m) = q1 at *
  generalize k * (N / m) = q0 at *
  generalize (N + m - 1) / m = C at *
  generalize (N % m + m - 1) / m = f at *
  generalize N / m = Q at *
  generalize N % m = r at *
  constructor
  · rcases Nat.eq_zero_or_pos r with h0 | hpos
    · have := z1 h0
      have := z0 h0
      omega
    · have := h1 hpos
      omega
  · intro hd
    have h0 := hdvd hd
    have := z1 h0
    have := z0 h0
    omega

theorem bucketCount_eq (t k : Nat) (ht : t < 2 ^ 32) (hk : k ≤ t) :
    bucketCount t k =
      ((k + 1) * 2 ^ 32 + (t + 1) - 1) / (t + 1) - (k * 2 ^ 32 + (t + 1) - 1) / (t + 1) := by
  unfold bucketCount
  have hf : (Finset.range (2 ^ 32)).filter (fun x => scale32 x t = k) =
      (Finset.range (2 ^ 32)).filter (fun x => x * (t + 1) / 2 ^ 32 = k) := by
    apply Finset.filter_congr
    intro x hx
    rw [(scale32_eq (Finset.mem_range.1 hx) ht).1]
  rw [hf, filter_mul_div_eq_Ico (2 ^ 32) (t + 1) k (Nat.succ_pos t) (by omega), Nat.card_Ico]

/-- Claim C7: for every 32-bit unsigned `t` and every `k ≤ t`, the number of 32-bit words `x`
that `Rand(t)` maps to `k` is `⌊2 ^ 32 / (t + 1)⌋` or `⌈2 ^ 32 / (t + 1)⌉` (the latter written
`(2 ^ 32 + t) / (t + 1)`), it is positive, and it is exactly `2 ^ 32 / (t + 1)` when `t + 1`
divides `2 ^ 32`. -/
theorem Rand_near_uniform (t k : Nat) (ht : t < 2 ^ 32) (hk : k ≤ t) :
    (bucketCount t k = 2 ^ 32 / (t + 1) ∨ bucketCount t k = (2 ^ 32 + t) / (t + 1)) ∧
    0 < bucketCount t k ∧
    ((t + 1) ∣ 2 ^ 32 → bucketCount t k = 2 ^ 32 / (t + 1)) := by
  have hd := ceil_diff (2 ^ 32) (t + 1) k (Nat.succ_pos t)
  rw [← bucketCount_eq t k ht hk] at hd
  have hpos : 0 < 2 ^ 32 / (t + 1) := Nat.div_pos (by omega) (Nat.succ_pos t)
  have hmono : 2 ^ 32 / (t + 1) ≤ (2 ^ 32 + t) / (t + 1) := Nat.div_le_div_right (by omega)
  have hc : 2 ^ 32 + (t + 1) - 1 = 2 ^ 32 + t := by omega
  rw [hc] at hd
  refine ⟨hd.1, ?_, hd.2⟩
  rcases hd.1 with h | h <;> omega

/-! ## The link simulator: lemmas and theorems -/

theorem ceilDiv_eq_ceil (a b : Int) (hb : 0 < b) : ceilDiv a b = ⌈(a : ℚ) / (b : ℚ)⌉ := by
  unfold ceilDiv
  rw [Int.fdiv_eq_ediv _ (le_of_lt hb)]
  have hbn : ((b.toNat : ℕ) : ℤ) = b := Int.toNat_of_nonneg (le_of_lt hb)
  have h := Rat.floor_intCast_div_natCast (-a) b.toNat
  have hq : (a : ℚ) / (b : ℚ) = -((((-a : ℤ)) : ℚ) / ((b.toNat : ℕ) : ℚ)) := by
    have : ((b.toNat : ℕ) : ℚ) = (b : ℚ) := by exact_mod_cast hbn
    rw [this]
    push_cast
    ring
  rw [hq, Int.ceil_neg, h, hbn]

theorem ceilDiv_nonneg {a b : Int} (ha : 0 ≤ a) (hb : 0 < b) : 0 ≤ ceilDiv a b := by
  rw [ceilDiv_eq_ceil a b hb]
  apply Int.ceil_nonneg
  exact div_nonneg (by exact_mod_cast ha) (by exact_mod_cast (le_of_lt hb))

theorem RandDouble_nonneg (r : Random) : 0 ≤ r.RandDouble.1 :=
  roundDouble_nonneg (div_nonneg (roundDouble_nonneg (Nat.cast_nonneg _))
    (roundDouble_nonneg (Nat.cast_nonneg _)))

theorem makeConfigState_some {config : Config} {pause : Int} {state : ConfigState}
    (h : makeConfigState config pause = some state) :
    state.config = config ∧ state.pause_transmission_until_us = pause ∧
    config.avg_burst_loss_length ≠ 0 ∧
    (config.loss_percent = 0 → state.prob_start_bursting = 0) := by
  unfold makeConfigState at h
  split_ifs at h with h0 h1
  · cases h
    refine ⟨rfl, rfl, h0, ?_⟩
    intro hl
    simp [hl]
  · cases h
    refine ⟨rfl, rfl, h0, ?_⟩
    intro hl
    simp [hl, clamp01]

theorem makeConfigState_isSome (config : Config) (pause : Int)
    (h : config.avg_burst_loss_length ≠ 0) :
    ∃ state, makeConfigState config pause = some state := by
  unfold makeConfigState
  rw [if_neg h]
  split_ifs
  · exact ⟨_, rfl⟩
  · exact ⟨_, rfl⟩

theorem lossDecision_no_loss (state : ConfigState) (random : Random)
    (hl : state.config.loss_percent = 0) (hp : state.prob_start_bursting = 0) :
    (lossDecision state false random).1 = false ∧ (lossDecision state false random).2.1 = false := by
  have hd := RandDouble_nonneg random
  unfold lossDecision
  by_cases h1 : state.config.avg_burst_loss_length = -1
  · simp [h1, hl, hd]
  · simp [h1, hp, hd]

theorem extraDelayUs_zero (boxMuller : Nat → Nat → ℚ) (state : ConfigState) (random : Random)
    (hd : state.config.queue_delay_ms = 0) (hs : state.config.delay_standard_deviation_ms = 0) :
    (extraDelayUs boxMuller state random).1 = 0 := by
  simp [extraDelayUs, Random.Gaussian, hd, hs]

theorem promote_single (boxMuller : Nat → Nat → ℚ) (state : ConfigState) (p : PacketInfo)
    (random : Random) (now : Int) (hnow : p.arrival_time_us ≤ now)
    (hl : state.config.loss_percent = 0) (hp : state.prob_start_bursting = 0)
    (hd : state.config.queue_delay_ms = 0) (hs : state.config.delay_standard_deviation_ms = 0) :
    ∃ random1, promote boxMuller state now [p] [] random false = ([], [p], random1, false) := by
  have h1 := lossDecision_no_loss state random hl hp
  have h2 := extraDelayUs_zero boxMuller state (lossDecision state false random).2.2 hd hs
  refine ⟨(extraDelayUs boxMuller state (lossDecision state false random).2.2).2, ?_⟩
  simp [promote, hnow, h1.1, h1.2, h2, orderedDelivery, greatestArrival]

/-- Claim C1: a single packet of `s` bytes sent at `t ≥ 0` into a freshly constructed
simulator with `link_capacity_kbps = C > 0`, `queue_length_packets ≥ 1`, no loss, no extra
delay, no jitter and no overhead: `EnqueuePacket` returns `true`, `NextDeliveryTimeUs` is then
`t + ⌈s * 8 * 1000 / C⌉`, and `DequeueDeliverablePackets` at that time returns exactly one
delivery, with that packet's id and that receive time. -/
theorem single_packet_finite_capacity (boxMuller : Nat → Nat → ℚ) (config : Config)
    (random_seed : Nat) (net : SimulatedNetwork) (s : Nat) (t : Int) (packet_id : Nat)
    (hnew : SimulatedNetwork.new config random_seed = some net)
    (hC : 0 < config.link_capacity_kbps) (_hq : 1 ≤ config.queue_length_packets)
    (hloss : config.loss_percent = 0) (hdelay : config.queue_delay_ms = 0)
    (hsd : config.delay_standard_deviation_ms = 0) (hov : config.packet_overhead = 0)
    (ht : 0 ≤ t) :
    ∃ net1 : SimulatedNetwork,
      net.EnqueuePacket boxMuller ⟨s, t, packet_id⟩ = some (true, net1) ∧
      net1.NextDeliveryTimeUs =
        some (t + ⌈((s : ℚ) * 8 * 1000) / (config.link_capacity_kbps : ℚ)⌉) ∧
      (net1.DequeueDeliverablePackets boxMuller
          (t + ⌈((s : ℚ) * 8 * 1000) / (config.link_capacity_kbps : ℚ)⌉)).1 =
        [⟨t + ⌈((s : ℚ) * 8 * 1000) / (config.link_capacity_kbps : ℚ)⌉, packet_id⟩] := by
  simp only [SimulatedNetwork.new, Option.map_eq_some'] at hnew
  obtain ⟨state, hst, rfl⟩ := hnew
  obtain ⟨hcfg, hpause, -, hps⟩ := makeConfigState_some hst
  have hexit : capacityExitTime state t s =
      t + ⌈((s : ℚ) * 8 * 1000) / (config.link_capacity_kbps : ℚ)⌉ := by
    unfold capacityExitTime
    simp only [hcfg, hov]
    rw [if_neg (ne_of_gt hC), ceilDiv_eq_ceil _ _ hC]
    push_cast
    ring_nf
  have hps0 := hps hloss
  obtain ⟨random1, hprom⟩ := promote_single boxMuller state ⟨⟨s, t, packet_id⟩, capacityExitTime state t s⟩
    (Random.new random_seed) (capacityExitTime state t s) le_rfl (by rw [hcfg]; exact hloss) hps0
    (by rw [hcfg]; exact hdelay) (by rw [hcfg]; exact hsd)
  have hqs : ¬ (0 < state.config.queue_length_packets ∧ state.config.queue_length_packets ≤ 0) := by
    omega
  have hstart : max t (max 0 state.pause_transmission_until_us) = t := by
    rw [hpause]; omega
  refine ⟨SimulatedNetwork.recomputeNextProcessTime
    { capacity_link_ := [⟨⟨s, t, packet_id⟩, capacityExitTime state t s⟩]
      delay_link_ := []
      next_process_time_us_ := none
      config_state_ := state
      random_ := Random.new random_seed
      bursting_ := false
      last_enqueue_time_us_ := t
      last_capacity_link_exit_time_ := 0 }, ?_, ?_, ?_⟩
  · simp only [SimulatedNetwork.EnqueuePacket, SimulatedNetwork.UpdateCapacityQueue,
      SimulatedNetwork.GetConfigState, SimulatedNetwork.lastCapacityExitTime, lastExitTime,
      promote, List.length_nil, List.nil_append, List.getLast?_nil, hstart]
    rw [if_neg (not_lt.2 ht), if_neg hqs]
  · simp [SimulatedNetwork.recomputeNextProcessTime, SimulatedNetwork.NextDeliveryTimeUs,
      leastArrival, hexit]
  · rw [← hexit]
    simp [SimulatedNetwork.DequeueDeliverablePackets, SimulatedNetwork.UpdateCapacityQueue,
      SimulatedNetwork.GetConfigState, SimulatedNetwork.recomputeNextProcessTime, hprom,
      PacketDeliveryInfo.ofSource]

theorem extraDelayUs_nonneg (boxMuller : Nat → Nat → ℚ) (state : ConfigState) (random : Random) :
    0 ≤ (extraDelayUs boxMuller state random).1 :=
  le_max_left _ _

theorem capacityExitTime_ge (state : ConfigState) (hv : state.config.nonnegative) (start : Int)
    (size : Nat) : start ≤ capacityExitTime state start size := by
  unfold capacityExitTime
  by_cases h0 : state.config.link_capacity_kbps = 0
  · simp [h0]
  · simp only [h0, if_false]
    have hpos : 0 < state.config.link_capacity_kbps := lt_of_le_of_ne hv.1 (Ne.symm h0)
    have hb : (0 : Int) ≤ ((size : Int) + state.config.packet_overhead) * 8 * 1000 := by
      have := hv.2
      have hs : (0 : Int) ≤ (size : Int) := Int.ofNat_nonneg _
      positivity
    have := ceilDiv_nonneg hb hpos
    omega

theorem orderedDelivery_ge (state : ConfigState) (delay : List PacketInfo) (delivery : Int) :
    delivery ≤ orderedDelivery state delay delivery := by
  unfold orderedDelivery
  split_ifs
  · exact le_rfl
  · cases greatestArrival delay with
    | none => exact le_rfl
    | some a => exact le_max_left _ _

theorem promote_spec (boxMuller : Nat → Nat → ℚ) (state : ConfigState) (now : Int)
    (G : PacketInfo → Prop)
    (hmono : ∀ (pk : PacketInFlightInfo) (a b : Int), G ⟨pk, a⟩ → a ≤ b → G ⟨pk, b⟩)
    (cap delay : List PacketInfo) (random : Random) (bursting : Bool)
    (hc : ∀ q ∈ cap, G q) (hd : ∀ q ∈ delay, G q) :
    (∀ q ∈ (promote boxMuller state now cap delay random bursting).1, G q) ∧
    (∀ q ∈ (promote boxMuller state now cap delay random bursting).2.1, G q) ∧
    (promote boxMuller state now cap delay random bursting).1.length ≤ cap.length := by
  induction cap generalizing delay random bursting with
  | nil => exact ⟨by simp [promote], by simpa [promote] using hd, by simp [promote]⟩
  | cons p rest ih =>
    have hrest : ∀ q ∈ rest, G q := fun q hq => hc q (List.mem_cons_of_mem _ hq)
    have hp : G p := hc p (List.mem_cons_self _ _)
    unfold promote
    by_cases hnow : p.arrival_time_us ≤ now
    · rw [if_pos hnow]
      by_cases hloss : (lossDecision state bursting random).1 = true
      · simp only [hloss, if_true]
        obtain ⟨h1, h2, h3⟩ := ih delay (lossDecision state bursting random).2.2
          (lossDecision state bursting random).2.1 hrest hd
        exact ⟨h1, h2, by simp only [List.length_cons]; omega⟩
      · simp only [hloss, Bool.false_eq_true, if_false]
        have hj := extraDelayUs_nonneg boxMuller state (lossDecision state bursting random).2.2
        have hge := orderedDelivery_ge state delay (p.arrival_time_us +
          (extraDelayUs boxMuller state (lossDecision state bursting random).2.2).1)
        have key : ∀ q ∈ delay ++ [PacketInfo.mk p.packet (orderedDelivery state delay
            (p.arrival_time_us +
              (extraDelayUs boxMuller state (lossDecision state bursting random).2.2).1))],
            G q := by
          intro q hq
          rcases List.mem_append.1 hq with h | h
          · exact hd q h
          · rw [List.mem_singleton] at h
            subst h
            exact hmono p.packet p.arrival_time_us _ hp (by omega)
        obtain ⟨h1, h2, h3⟩ := ih _
          (extraDelayUs boxMuller state (lossDecision state bursting random).2.2).2
          (lossDecision state bursting random).2.1 hrest key
        exact ⟨h1, h2, by simp only [List.length_cons]; omega⟩
    · rw [if_neg hnow]
      exact ⟨hc, hd, le_rfl⟩

theorem reclock_length (state : ConfigState) (prior : Int) (cap : List PacketInfo) :
    (reclock state prior cap).length = cap.length := by
  induction cap generalizing prior with
  | nil => rfl
  | cons p rest ih => simp [reclock, ih]

theorem reclock_spec (state : ConfigState) (hv : state.config.nonnegative) (prior : Int)
    (cap : List PacketInfo) :
    ∀ q ∈ reclock state prior cap,
      (∃ p ∈ cap, q.packet = p.packet) ∧ q.packet.send_time_us ≤ q.arrival_time_us := by
  induction cap generalizing prior with
  | nil => simp [reclock]
  | cons p rest ih =>
    intro q hq
    simp only [reclock, List.mem_cons] at hq
    rcases hq with rfl | hq
    · refine ⟨⟨p, List.mem_cons_self _ _, rfl⟩, ?_⟩
      simp only
      exact le_trans (le_max_left _ _) (capacityExitTime_ge state hv _ _)
    · obtain ⟨⟨p1, hp1, he⟩, hle⟩ := ih _ q hq
      exact ⟨⟨p1, List.mem_cons_of_mem _ hp1, he⟩, hle⟩

theorem good_mono_time (E : List PacketInFlightInfo) (pk : PacketInFlightInfo) (a b : Int)
    (h : PacketInfo.good E ⟨pk, a⟩) (hab : a ≤ b) : PacketInfo.good E ⟨pk, b⟩ :=
  ⟨h.1, le_trans h.2 hab⟩

theorem good_mono_set {E F : List PacketInFlightInfo} (hEF : ∀ p ∈ E, p ∈ F) {q : PacketInfo}
    (h : q.good E) : q.good F :=
  ⟨hEF _ h.1, h.2⟩

theorem install_good (net : SimulatedNetwork) (state : ConfigState) (E : List PacketInFlightInfo)
    (hv : state.config.nonnegative)
    (hc : ∀ q ∈ net.capacity_link_, q.good E) (hd : ∀ q ∈ net.delay_link_, q.good E) :
    (net.install state).config_state_.config.nonnegative ∧
    (∀ q ∈ (net.install state).capacity_link_, q.good E) ∧
    (∀ q ∈ (net.install state).delay_link_, q.good E) := by
  refine ⟨hv, ?_, hd⟩
  intro q hq
  have hq1 : q ∈ reclock state net.last_capacity_link_exit_time_ net.capacity_link_ := hq
  obtain ⟨⟨p, hp, he⟩, hle⟩ := reclock_spec state hv _ net.capacity_link_ q hq1
  exact ⟨by rw [he]; exact (hc p hp).1, hle⟩

/-- The shape of the result of `EnqueuePacket`: the capacity link is the promoted one, with
the new packet behind it when it is accepted; its exit time is computed from the exit time of
the packet ahead. -/
theorem enqueue_result (boxMuller : Nat → Nat → ℚ) (net net1 : SimulatedNetwork)
    (packet : PacketInFlightInfo) (b : Bool)
    (h : net.EnqueuePacket boxMuller packet = some (b, net1)) :
    net.last_enqueue_time_us_ ≤ packet.send_time_us ∧
    net1.config_state_ = net.config_state_ ∧
    net1.delay_link_ = (promote boxMuller net.config_state_ packet.send_time_us
      net.capacity_link_ net.delay_link_ net.random_ net.bursting_).2.1 ∧
    net1.last_capacity_link_exit_time_ =
      lastExitTime packet.send_time_us net.capacity_link_ net.last_capacity_link_exit_time_ ∧
    ((b = false ∧ net1.capacity_link_ = (promote boxMuller net.config_state_
        packet.send_time_us net.capacity_link_ net.delay_link_ net.random_ net.bursting_).1) ∨
     (b = true ∧ ∃ ahead : Int,
        (match (promote boxMuller net.config_state_ packet.send_time_us net.capacity_link_
            net.delay_link_ net.random_ net.bursting_).1.getLast? with
          | some tail => ahead = tail.arrival_time_us
          | none => ahead = lastExitTime packet.send_time_us net.capacity_link_
              net.last_capacity_link_exit_time_) ∧
        net1.capacity_link_ = (promote boxMuller net.config_state_ packet.send_time_us
          net.capacity_link_ net.delay_link_ net.random_ net.bursting_).1 ++
          [PacketInfo.mk packet (capacityExitTime net.config_state_
            (max packet.send_time_us
              (max ahead net.config_state_.pause_transmission_until_us)) packet.size)])) := by
  simp only [SimulatedNetwork.EnqueuePacket] at h
  split_ifs at h with ha hb
  · cases h
    exact ⟨not_lt.1 ha, rfl, rfl, rfl, Or.inl ⟨rfl, rfl⟩⟩
  · cases h
    refine ⟨not_lt.1 ha, rfl, rfl, rfl, Or.inr ⟨rfl, ?_⟩⟩
    refine ⟨(SimulatedNetwork.UpdateCapacityQueue boxMuller
      { net with last_enqueue_time_us_ := packet.send_time_us } net.config_state_
      packet.send_time_us).lastCapacityExitTime, ?_, rfl⟩
    simp only [SimulatedNetwork.lastCapacityExitTime, SimulatedNetwork.UpdateCapacityQueue]
    cases (promote boxMuller net.config_state_ packet.send_time_us net.capacity_link_
      net.delay_link_ net.random_ net.bursting_).1.getLast? <;> rfl

/-- Step 5 of section 4.2.1: after an accepted `EnqueuePacket` the new packet is the tail of
the capacity link and `lastCapacityExitTime` is its exit time. -/
theorem enqueue_lastCapacityExitTime (boxMuller : Nat → Nat → ℚ) (net net1 : SimulatedNetwork)
    (packet : PacketInFlightInfo)
    (h : net.EnqueuePacket boxMuller packet = some (true, net1)) :
    ∃ exit : Int, net1.capacity_link_.getLast? = some ⟨packet, exit⟩ ∧
      net1.lastCapacityExitTime = exit := by
  obtain ⟨-, -, -, -, e5⟩ := enqueue_result boxMuller net net1 packet true h
  rcases e5 with ⟨e, -⟩ | ⟨-, ahead, -, e5⟩
  · cases e
  · refine ⟨_, by rw [e5, List.getLast?_append]; rfl, ?_⟩
    unfold SimulatedNetwork.lastCapacityExitTime
    rw [e5, List.getLast?_append]
    rfl

theorem call_good (boxMuller : Nat → Nat → ℚ) (net net1 : SimulatedNetwork)
    (E : List PacketInFlightInfo) (c : Call) (ds : List PacketDeliveryInfo)
    (hv : net.config_state_.config.nonnegative)
    (hc : ∀ q ∈ net.capacity_link_, q.good E) (hd : ∀ q ∈ net.delay_link_, q.good E)
    (hcall : c.nonnegative) (h : net.call boxMuller c = some (net1, ds)) :
    net1.config_state_.config.nonnegative ∧
    (∀ q ∈ net1.capacity_link_, q.good (E ++ enqueuedPackets [c])) ∧
    (∀ q ∈ net1.delay_link_, q.good (E ++ enqueuedPackets [c])) ∧
    (∀ q ∈ net.sourcesOfCall boxMuller c, q.good (E ++ enqueuedPackets [c])) ∧
    ds = (net.sourcesOfCall boxMuller c).map PacketInfo.delivery := by
  cases c with
  | enqueue packet =>
    have hsub : ∀ p ∈ E, p ∈ E ++ enqueuedPackets [Call.enqueue packet] :=
      fun p hp => List.mem_append_left _ hp
    have hpk : packet ∈ E ++ enqueuedPackets [Call.enqueue packet] := by
      simp [enqueuedPackets]
    obtain ⟨h1, h2, -⟩ := promote_spec boxMuller net.config_state_ packet.send_time_us
      (PacketInfo.good (E ++ enqueuedPackets [Call.enqueue packet]))
      (good_mono_time _) net.capacity_link_ net.delay_link_ net.random_ net.bursting_
      (fun q hq => good_mono_set hsub (hc q hq)) (fun q hq => good_mono_set hsub (hd q hq))
    simp only [SimulatedNetwork.call, Option.map_eq_some'] at h
    obtain ⟨⟨b, n⟩, hr, he⟩ := h
    simp only [Prod.mk.injEq] at he
    obtain ⟨rfl, rfl⟩ := he
    obtain ⟨-, e2, e3, -, e5⟩ := enqueue_result boxMuller net n packet b hr
    refine ⟨by rw [e2]; exact hv, ?_, by rw [e3]; exact h2, by simp [SimulatedNetwork.sourcesOfCall],
      by simp [SimulatedNetwork.sourcesOfCall]⟩
    rcases e5 with ⟨-, e5⟩ | ⟨-, ahead, -, e5⟩
    · rw [e5]; exact h1
    · rw [e5]
      intro q hq
      rcases List.mem_append.1 hq with hm | hm
      · exact h1 q hm
      · rw [List.mem_singleton] at hm
        subst hm
        exact ⟨hpk, le_trans (le_max_left _ _) (capacityExitTime_ge _ hv _ _)⟩
  | setConfig config =>
    simp only [SimulatedNetwork.call, SimulatedNetwork.SetConfig, Option.map_eq_some'] at h
    obtain ⟨n, ⟨state, hst, hn⟩, he⟩ := h
    cases he
    subst hn
    have hcfg := (makeConfigState_some hst).1
    have := install_good net state E (by rw [hcfg]; exact hcall) hc hd
    simpa [enqueuedPackets, SimulatedNetwork.sourcesOfCall] using this
  | updateConfig config_modifier =>
    simp only [SimulatedNetwork.call, SimulatedNetwork.UpdateConfig, SimulatedNetwork.SetConfig,
      Option.map_eq_some'] at h
    obtain ⟨n, ⟨state, hst, hn⟩, he⟩ := h
    cases he
    subst hn
    have hcfg := (makeConfigState_some hst).1
    have := install_good net state E (by rw [hcfg]; exact hcall _ hv) hc hd
    simpa [enqueuedPackets, SimulatedNetwork.sourcesOfCall] using this
  | pauseTransmissionUntil until_us =>
    simp only [SimulatedNetwork.call, SimulatedNetwork.PauseTransmissionUntil] at h
    cases h
    have := install_good net { net.config_state_ with pause_transmission_until_us := until_us } E
      hv hc hd
    simpa [enqueuedPackets, SimulatedNetwork.sourcesOfCall] using this
  | dequeue receive_time_us =>
    simp only [SimulatedNetwork.call, SimulatedNetwork.DequeueDeliverablePackets] at h
    cases h
    obtain ⟨h1, h2, -⟩ := promote_spec boxMuller net.config_state_ receive_time_us
      (PacketInfo.good E) (good_mono_time _) net.capacity_link_ net.delay_link_ net.random_
      net.bursting_ hc hd
    simp only [enqueuedPackets, List.append_nil]
    refine ⟨hv, h1, ?_, ?_, rfl⟩
    · intro q hq
      exact h2 q (List.mem_filter.1 hq).1
    · intro q hq
      have hq1 := (List.perm_insertionSort _ _).mem_iff.1 hq
      exact h2 q (List.mem_filter.1 hq1).1

theorem enqueuedPackets_cons (c : Call) (cs : List Call) :
    enqueuedPackets (c :: cs) = enqueuedPackets [c] ++ enqueuedPackets cs := by
  cases c <;> simp [enqueuedPackets]

theorem run_good (boxMuller : Nat → Nat → ℚ) (calls : List Call) :
    ∀ (net net1 : SimulatedNetwork) (E : List PacketInFlightInfo) (ds : List PacketDeliveryInfo),
    net.config_state_.config.nonnegative →
    (∀ q ∈ net.capacity_link_, q.good E) → (∀ q ∈ net.delay_link_, q.good E) →
    (∀ c ∈ calls, c.nonnegative) →
    SimulatedNetwork.run boxMuller net calls = some (net1, ds) →
    ∃ qs : List PacketInfo, SimulatedNetwork.runSources boxMuller net calls = some qs ∧
      ds = qs.map PacketInfo.delivery ∧
      ∀ q ∈ qs, q.good (E ++ enqueuedPackets calls) := by
  induction calls with
  | nil =>
    intro net net1 E ds _ _ _ _ h
    simp only [SimulatedNetwork.run, Option.some.injEq, Prod.mk.injEq] at h
    obtain ⟨-, rfl⟩ := h
    exact ⟨[], rfl, rfl, by simp⟩
  | cons c cs ih =>
    intro net net1 E ds hv hc hd hcalls h
    unfold SimulatedNetwork.run at h
    cases hcall : net.call boxMuller c with
    | none => simp [hcall] at h
    | some r =>
      obtain ⟨netA, dsA⟩ := r
      simp only [hcall] at h
      cases hrun : SimulatedNetwork.run boxMuller netA cs with
      | none => simp [hrun] at h
      | some r2 =>
        obtain ⟨netB, dsB⟩ := r2
        simp only [hrun, Option.some.injEq, Prod.mk.injEq] at h
        obtain ⟨-, rfl⟩ := h
        obtain ⟨g1, g2, g3, g4, g5⟩ := call_good boxMuller net netA E c dsA hv hc hd
          (hcalls c (List.mem_cons_self _ _)) hcall
        obtain ⟨qs, hqs, hds, hgood⟩ := ih netA netB (E ++ enqueuedPackets [c]) dsB g1 g2 g3
          (fun c1 hc1 => hcalls c1 (List.mem_cons_of_mem _ hc1)) hrun
        refine ⟨net.sourcesOfCall boxMuller c ++ qs, ?_, ?_, ?_⟩
        · simp only [SimulatedNetwork.runSources, hcall, hqs, Option.map_some']
        · rw [List.map_append, ← g5, ← hds]
        · intro q hq
          rw [enqueuedPackets_cons, ← List.append_assoc]
          rcases List.mem_append.1 hq with hm | hm
          · exact good_mono_set (fun p hp => List.mem_append_left _ hp) (g4 q hm)
          · exact hgood q hm

theorem promote_nothing (boxMuller : Nat → Nat → ℚ) (state : ConfigState) (now : Int)
    (cap delay : List PacketInfo) (random : Random) (bursting : Bool)
    (h : ∀ p, cap.head? = some p → now < p.arrival_time_us) :
    promote boxMuller state now cap delay random bursting = (cap, delay, random, bursting) := by
  cases cap with
  | nil => rfl
  | cons p rest =>
    have := h p rfl
    unfold promote
    rw [if_neg (not_le.2 this)]

theorem lossDecision_random (state : ConfigState) (bursting : Bool) (random : Random) :
    (lossDecision state bursting random).2.2 = random.NextOutput.2 := by
  unfold lossDecision
  split_ifs <;> rfl

theorem extraDelayUs_eq (boxMuller : Nat → Nat → ℚ) (state : ConfigState) (random : Random) :
    extraDelayUs boxMuller state random =
      (max 0 (round ((state.config.queue_delay_ms : ℚ) +
        (state.config.delay_standard_deviation_ms : ℚ) *
          boxMuller random.NextOutput.1 random.NextOutput.2.NextOutput.1) * 1000),
        random.NextOutput.2.NextOutput.2) := rfl

theorem lastExitTime_nothing (now : Int) (cap : List PacketInfo) (last : Int)
    (h : ∀ p, cap.head? = some p → now < p.arrival_time_us) :
    lastExitTime now cap last = last := by
  cases cap with
  | nil => rfl
  | cons p rest =>
    have := h p rfl
    unfold lastExitTime
    rw [if_neg (not_le.2 this)]

/-- An `EnqueuePacket` that finds nothing to promote and room in the queue. -/
theorem enqueue_quiet (boxMuller : Nat → Nat → ℚ) (net : SimulatedNetwork)
    (packet : PacketInFlightInfo)
    (hhead : ∀ p, net.capacity_link_.head? = some p → packet.send_time_us < p.arrival_time_us)
    (hsend : net.last_enqueue_time_us_ ≤ packet.send_time_us)
    (hroom : ¬ (0 < net.config_state_.config.queue_length_packets ∧
      net.config_state_.config.queue_length_packets ≤ net.capacity_link_.length)) :
    net.EnqueuePacket boxMuller packet = some (true, SimulatedNetwork.recomputeNextProcessTime
      { net with
        last_enqueue_time_us_ := packet.send_time_us
        capacity_link_ := net.capacity_link_ ++ [PacketInfo.mk packet
          (capacityExitTime net.config_state_ (max packet.send_time_us
            (max net.lastCapacityExitTime net.config_state_.pause_transmission_until_us))
            packet.size)] }) := by
  have hp := promote_nothing boxMuller net.config_state_ packet.send_time_us net.capacity_link_
    net.delay_link_ net.random_ net.bursting_ hhead
  have hl := lastExitTime_nothing packet.send_time_us net.capacity_link_
    net.last_capacity_link_exit_time_ hhead
  simp only [SimulatedNetwork.EnqueuePacket, SimulatedNetwork.UpdateCapacityQueue,
    SimulatedNetwork.GetConfigState, SimulatedNetwork.lastCapacityExitTime, hp, hl]
  rw [if_neg (not_lt.2 hsend), if_neg hroom]

/-- A `DequeueDeliverablePackets` that promotes exactly the head of the capacity link, without
loss, into an empty delay link, and delivers it. -/
theorem dequeue_head (boxMuller : Nat → Nat → ℚ) (net : SimulatedNetwork) (p : PacketInfo)
    (rest : List PacketInfo) (now : Int) (hcap : net.capacity_link_ = p :: rest)
    (hrest : ∀ q, rest.head? = some q → now < q.arrival_time_us)
    (hdel : net.delay_link_ = []) (hb : net.bursting_ = false)
    (hnow : p.arrival_time_us ≤ now)
    (hl : net.config_state_.config.loss_percent = 0)
    (hp : net.config_state_.prob_start_bursting = 0)
    (hj : p.arrival_time_us +
      (extraDelayUs boxMuller net.config_state_ net.random_.NextOutput.2).1 ≤ now) :
    net.DequeueDeliverablePackets boxMuller now =
      ([⟨p.arrival_time_us +
          (extraDelayUs boxMuller net.config_state_ net.random_.NextOutput.2).1,
          p.packet.packet_id⟩],
        SimulatedNetwork.recomputeNextProcessTime
          { net with
            capacity_link_ := rest
            delay_link_ := []
            random_ := (extraDelayUs boxMuller net.config_state_ net.random_.NextOutput.2).2
            bursting_ := false
            last_capacity_link_exit_time_ := p.arrival_time_us }) ∧
    net.deliveredPackets boxMuller now =
      [⟨p.packet, p.arrival_time_us +
        (extraDelayUs boxMuller net.config_state_ net.random_.NextOutput.2).1⟩] := by
  have h1 := lossDecision_no_loss net.config_state_ net.random_ hl hp
  have h2 := lossDecision_random net.config_state_ false net.random_
  have hod : ∀ d : Int, orderedDelivery net.config_state_ [] d = d := by
    intro d
    unfold orderedDelivery
    split_ifs <;> simp [greatestArrival]
  have hprom : promote boxMuller net.config_state_ now net.capacity_link_ net.delay_link_
      net.random_ net.bursting_ = (rest, [PacketInfo.mk p.packet (p.arrival_time_us +
        (extraDelayUs boxMuller net.config_state_ net.random_.NextOutput.2).1)],
        (extraDelayUs boxMuller net.config_state_ net.random_.NextOutput.2).2, false) := by
    rw [hcap, hdel, hb]
    simp only [promote, if_pos hnow, h1.1, h1.2, h2, Bool.false_eq_true, if_false, hod,
      List.nil_append]
    exact promote_nothing _ _ _ _ _ _ _ hrest
  have hlast : lastExitTime now net.capacity_link_ net.last_capacity_link_exit_time_ =
      p.arrival_time_us := by
    rw [hcap]
    simp only [lastExitTime, if_pos hnow]
    exact lastExitTime_nothing _ _ _ hrest
  constructor
  · simp only [SimulatedNetwork.DequeueDeliverablePackets, SimulatedNetwork.UpdateCapacityQueue,
      SimulatedNetwork.GetConfigState, hprom, hlast, SimulatedNetwork.recomputeNextProcessTime]
    simp [hj, PacketDeliveryInfo.ofSource]
  · simp only [SimulatedNetwork.deliveredPackets, SimulatedNetwork.UpdateCapacityQueue,
      SimulatedNetwork.GetConfigState, hprom]
    simp [hj]

theorem run_append (boxMuller : Nat → Nat → ℚ) (cs1 cs2 : List Call) :
    ∀ (net net1 net2 : SimulatedNetwork) (ds1 ds2 : List PacketDeliveryInfo),
    SimulatedNetwork.run boxMuller net cs1 = some (net1, ds1) →
    SimulatedNetwork.run boxMuller net1 cs2 = some (net2, ds2) →
    SimulatedNetwork.run boxMuller net (cs1 ++ cs2) = some (net2, ds1 ++ ds2) := by
  induction cs1 with
  | nil =>
    intro net net1 net2 ds1 ds2 h1 h2
    simp only [SimulatedNetwork.run, Option.some.injEq, Prod.mk.injEq] at h1
    obtain ⟨rfl, rfl⟩ := h1
    simpa using h2
  | cons c cs ih =>
    intro net net1 net2 ds1 ds2 h1 h2
    unfold SimulatedNetwork.run at h1
    cases hcall : net.call boxMuller c with
    | none => simp [hcall] at h1
    | some r =>
      obtain ⟨netA, dsA⟩ := r
      simp only [hcall] at h1
      cases hrun : SimulatedNetwork.run boxMuller netA cs with
      | none => simp [hrun] at h1
      | some r2 =>
        obtain ⟨netB, dsB⟩ := r2
        simp only [hrun, Option.some.injEq, Prod.mk.injEq] at h1
        obtain ⟨rfl, rfl⟩ := h1
        have := ih netA netB net2 dsB ds2 hrun h2
        rw [List.cons_append]
        unfold SimulatedNetwork.run
        simp only [hcall, this, List.append_assoc]

/-- One packet through an idle simulator without loss: `EnqueuePacket` followed by a
`DequeueDeliverablePackets` late enough to deliver it. The simulator is idle again. -/
theorem idle_round (boxMuller : Nat → Nat → ℚ) (net : SimulatedNetwork)
    (packet : PacketInFlightInfo) (now exit jitter : Int)
    (hcap : net.capacity_link_ = []) (hdel : net.delay_link_ = []) (hb : net.bursting_ = false)
    (hsend : net.last_enqueue_time_us_ ≤ packet.send_time_us)
    (hl : net.config_state_.config.loss_percent = 0)
    (hp : net.config_state_.prob_start_bursting = 0)
    (hexit : capacityExitTime net.config_state_ (max packet.send_time_us
      (max net.last_capacity_link_exit_time_ net.config_state_.pause_transmission_until_us))
      packet.size = exit)
    (hjitter : (extraDelayUs boxMuller net.config_state_ net.random_.NextOutput.2).1 = jitter)
    (hnow : exit ≤ now) (hj : exit + jitter ≤ now) :
    ∃ net2 : SimulatedNetwork,
      SimulatedNetwork.run boxMuller net [Call.enqueue packet, Call.dequeue now] =
        some (net2, [⟨exit + jitter, packet.packet_id⟩]) ∧
      net2.capacity_link_ = [] ∧ net2.delay_link_ = [] ∧ net2.bursting_ = false ∧
      net2.config_state_ = net.config_state_ ∧
      net2.last_enqueue_time_us_ = packet.send_time_us ∧
      net2.last_capacity_link_exit_time_ = exit ∧
      net2.random_ = net.random_.NextOutput.2.NextOutput.2.NextOutput.2 ∧
      SimulatedNetwork.runSources boxMuller net [Call.enqueue packet, Call.dequeue now] =
        some [⟨packet, exit + jitter⟩] := by
  have e1 := enqueue_quiet boxMuller net packet (by simp [hcap]) hsend
    (by rw [hcap]; simp only [List.length_nil]; omega)
  have hlast : net.lastCapacityExitTime = net.last_capacity_link_exit_time_ := by
    simp [SimulatedNetwork.lastCapacityExitTime, hcap]
  rw [hlast, hexit, hcap, List.nil_append] at e1
  obtain ⟨e2, e3⟩ := dequeue_head boxMuller (SimulatedNetwork.recomputeNextProcessTime
      { net with
        last_enqueue_time_us_ := packet.send_time_us
        capacity_link_ := [PacketInfo.mk packet exit] })
    ⟨packet, exit⟩ [] now rfl (by simp) hdel hb hnow hl hp (by
      show exit + (extraDelayUs boxMuller net.config_state_ net.random_.NextOutput.2).1 ≤ now
      rw [hjitter]; exact hj)
  refine ⟨((SimulatedNetwork.recomputeNextProcessTime
      { net with
        last_enqueue_time_us_ := packet.send_time_us
        capacity_link_ := [PacketInfo.mk packet exit] }).DequeueDeliverablePackets
      boxMuller now).2, ?_, ?_⟩
  · simp only [SimulatedNetwork.run, SimulatedNetwork.call, e1, Option.map_some']
    rw [e2]
    simp only [List.append_nil]
    rw [← hjitter]
    rfl
  · rw [e2]
    refine ⟨rfl, rfl, rfl, rfl, rfl, rfl, ?_, ?_⟩
    · show (extraDelayUs boxMuller net.config_state_ net.random_.NextOutput.2).2 = _
      rw [extraDelayUs_eq]
    · simp only [SimulatedNetwork.runSources, SimulatedNetwork.call, e1, Option.map_some',
        SimulatedNetwork.sourcesOfCall, e3, List.nil_append, List.append_nil]
      rw [← hjitter]
      rfl

theorem runSources_append (boxMuller : Nat → Nat → ℚ) (cs1 cs2 : List Call) :
    ∀ (net net1 : SimulatedNetwork) (ds1 : List PacketDeliveryInfo) (qs1 qs2 : List PacketInfo),
    SimulatedNetwork.run boxMuller net cs1 = some (net1, ds1) →
    SimulatedNetwork.runSources boxMuller net cs1 = some qs1 →
    SimulatedNetwork.runSources boxMuller net1 cs2 = some qs2 →
    SimulatedNetwork.runSources boxMuller net (cs1 ++ cs2) = some (qs1 ++ qs2) := by
  induction cs1 with
  | nil =>
    intro net net1 ds1 qs1 qs2 h1 h2 h3
    simp only [SimulatedNetwork.run, Option.some.injEq, Prod.mk.injEq] at h1
    simp only [SimulatedNetwork.runSources, Option.some.injEq] at h2
    obtain ⟨rfl, -⟩ := h1
    subst h2
    simpa using h3
  | cons c cs ih =>
    intro net net1 ds1 qs1 qs2 h1 h2 h3
    unfold SimulatedNetwork.run at h1
    unfold SimulatedNetwork.runSources at h2
    cases hcall : net.call boxMuller c with
    | none => simp [hcall] at h1
    | some r =>
      obtain ⟨netA, dsA⟩ := r
      simp only [hcall] at h1 h2
      cases hrun : SimulatedNetwork.run boxMuller netA cs with
      | none => simp [hrun] at h1
      | some r2 =>
        obtain ⟨netB, dsB⟩ := r2
        simp only [hrun, Option.some.injEq, Prod.mk.injEq] at h1
        obtain ⟨rfl, -⟩ := h1
        simp only [Option.map_eq_some'] at h2
        obtain ⟨qsA, hA, rfl⟩ := h2
        have := ih netA netB dsB qsA qs2 hrun hA h3
        rw [List.cons_append]
        unfold SimulatedNetwork.runSources
        simp only [hcall, this, Option.map_some', List.append_assoc]

theorem install_queue (net : SimulatedNetwork) (state : ConfigState) :
    (net.install state).config_state_ = state ∧
    (net.install state).capacity_link_.length = net.capacity_link_.length := by
  refine ⟨rfl, ?_⟩
  show (reclock state net.last_capacity_link_exit_time_ net.capacity_link_).length = _
  exact reclock_length _ _ _

theorem enqueue_queue (boxMuller : Nat → Nat → ℚ) (net : SimulatedNetwork)
    (packet : PacketInFlightInfo) (N : Nat) (hN : 0 < N)
    (hcfg : net.config_state_.config.queue_length_packets = N)
    (hlen : net.capacity_link_.length ≤ N)
    (hsend : net.last_enqueue_time_us_ ≤ packet.send_time_us) :
    ∃ (b : Bool) (net1 : SimulatedNetwork),
      net.EnqueuePacket boxMuller packet = some (b, net1) ∧
      (b = false ↔
        (net.UpdateCapacityQueue boxMuller net.GetConfigState
          packet.send_time_us).capacity_link_.length = N) ∧
      (b = false →
        net1 = { net.UpdateCapacityQueue boxMuller net.GetConfigState packet.send_time_us with
                 last_enqueue_time_us_ := packet.send_time_us }) ∧
      (b = true → ∃ exit : Int, net1.capacity_link_ =
        (net.UpdateCapacityQueue boxMuller net.GetConfigState
          packet.send_time_us).capacity_link_ ++ [⟨packet, exit⟩]) ∧
      net1.config_state_ = net.config_state_ ∧
      net1.capacity_link_.length ≤ N := by
  have hp := (promote_spec boxMuller net.config_state_ packet.send_time_us (fun _ => True)
    (fun _ _ _ _ _ => trivial) net.capacity_link_ net.delay_link_ net.random_ net.bursting_
    (fun _ _ => trivial) (fun _ _ => trivial)).2.2
  unfold SimulatedNetwork.EnqueuePacket
  rw [if_neg (not_lt.2 hsend)]
  simp only [SimulatedNetwork.UpdateCapacityQueue, SimulatedNetwork.GetConfigState, hcfg]
  by_cases hfull : 0 < N ∧ N ≤ (promote boxMuller net.config_state_ packet.send_time_us
      net.capacity_link_ net.delay_link_ net.random_ net.bursting_).1.length
  · rw [if_pos hfull]
    refine ⟨false, _, rfl, ?_, fun _ => rfl, ?_, rfl, ?_⟩
    · simp only [true_iff]; omega
    · intro h; cases h
    · show (promote boxMuller net.config_state_ packet.send_time_us
        net.capacity_link_ net.delay_link_ net.random_ net.bursting_).1.length ≤ N
      omega
  · rw [if_neg hfull]
    refine ⟨true, _, rfl, ?_, ?_, fun _ => ⟨_, rfl⟩, rfl, ?_⟩
    · simp only [Bool.true_eq_false, false_iff]
      omega
    · intro h; cases h
    · show ((promote boxMuller net.config_state_ packet.send_time_us
        net.capacity_link_ net.delay_link_ net.random_ net.bursting_).1 ++ [_]).length ≤ N
      simp only [List.length_append, List.length_singleton]
      omega

theorem call_queue (boxMuller : Nat → Nat → ℚ) (net net1 : SimulatedNetwork) (N : Nat)
    (hN : 0 < N) (c : Call) (ds : List PacketDeliveryInfo)
    (hcfg : net.config_state_.config.queue_length_packets = N)
    (hlen : net.capacity_link_.length ≤ N)
    (hcall : c.keepsQueueLength N) (h : net.call boxMuller c = some (net1, ds)) :
    net1.config_state_.config.queue_length_packets = N ∧ net1.capacity_link_.length ≤ N := by
  cases c with
  | enqueue packet =>
    simp only [SimulatedNetwork.call, Option.map_eq_some'] at h
    obtain ⟨r, hr, he⟩ := h
    cases he
    by_cases hsend : net.last_enqueue_time_us_ ≤ packet.send_time_us
    · obtain ⟨b, n1, h1, -, -, -, h5, h6⟩ := enqueue_queue boxMuller net packet N hN hcfg hlen hsend
      rw [h1] at hr
      cases hr
      exact ⟨by rw [h5]; exact hcfg, h6⟩
    · simp [SimulatedNetwork.EnqueuePacket, not_le.1 hsend] at hr
  | setConfig config =>
    simp only [SimulatedNetwork.call, SimulatedNetwork.SetConfig, Option.map_eq_some'] at h
    obtain ⟨n, ⟨state, hst, hn⟩, he⟩ := h
    cases he
    subst hn
    obtain ⟨h1, h2⟩ := install_queue net state
    rw [h1, h2, (makeConfigState_some hst).1]
    exact ⟨hcall, hlen⟩
  | updateConfig config_modifier =>
    simp only [SimulatedNetwork.call, SimulatedNetwork.UpdateConfig, SimulatedNetwork.SetConfig,
      Option.map_eq_some'] at h
    obtain ⟨n, ⟨state, hst, hn⟩, he⟩ := h
    cases he
    subst hn
    obtain ⟨h1, h2⟩ := install_queue net state
    rw [h1, h2, (makeConfigState_some hst).1]
    exact ⟨hcall _ hcfg, hlen⟩
  | pauseTransmissionUntil until_us =>
    simp only [SimulatedNetwork.call, SimulatedNetwork.PauseTransmissionUntil] at h
    cases h
    obtain ⟨h1, h2⟩ := install_queue net
      { net.config_state_ with pause_transmission_until_us := until_us }
    rw [h1, h2]
    exact ⟨hcfg, hlen⟩
  | dequeue receive_time_us =>
    simp only [SimulatedNetwork.call, SimulatedNetwork.DequeueDeliverablePackets] at h
    cases h
    have hp := (promote_spec boxMuller net.config_state_ receive_time_us (fun _ => True)
      (fun _ _ _ _ _ => trivial) net.capacity_link_ net.delay_link_ net.random_ net.bursting_
      (fun _ _ => trivial) (fun _ _ => trivial)).2.2
    refine ⟨hcfg, ?_⟩
    show (promote boxMuller net.config_state_ receive_time_us
        net.capacity_link_ net.delay_link_ net.random_ net.bursting_).1.length ≤ N
    omega

theorem run_queue (boxMuller : Nat → Nat → ℚ) (N : Nat) (hN : 0 < N) (calls : List Call) :
    ∀ (net net1 : SimulatedNetwork) (ds : List PacketDeliveryInfo),
    net.config_state_.config.queue_length_packets = N → net.capacity_link_.length ≤ N →
    (∀ c ∈ calls, c.keepsQueueLength N) →
    SimulatedNetwork.run boxMuller net calls = some (net1, ds) →
    net1.config_state_.config.queue_length_packets = N ∧ net1.capacity_link_.length ≤ N := by
  induction calls with
  | nil =>
    intro net net1 ds hcfg hlen _ h
    simp only [SimulatedNetwork.run, Option.some.injEq, Prod.mk.injEq] at h
    obtain ⟨rfl, -⟩ := h
    exact ⟨hcfg, hlen⟩
  | cons c cs ih =>
    intro net net1 ds hcfg hlen hcalls h
    unfold SimulatedNetwork.run at h
    cases hcall : net.call boxMuller c with
    | none => simp [hcall] at h
    | some r =>
      obtain ⟨netA, dsA⟩ := r
      simp only [hcall] at h
      cases hrun : SimulatedNetwork.run boxMuller netA cs with
      | none => simp [hrun] at h
      | some r2 =>
        obtain ⟨netB, dsB⟩ := r2
        simp only [hrun, Option.some.injEq, Prod.mk.injEq] at h
        obtain ⟨rfl, -⟩ := h
        obtain ⟨g1, g2⟩ := call_queue boxMuller net netA N hN c dsA hcfg hlen
          (hcalls c (List.mem_cons_self _ _)) hcall
        exact ih netA netB dsB g1 g2 (fun c1 hc1 => hcalls c1 (List.mem_cons_of_mem _ hc1)) hrun

theorem steps_zero_state (n : Nat) : Random.steps n ⟨0⟩ = ⟨0⟩ := by
  induction n with
  | zero => rfl
  | succ n ih =>
    rw [steps_succ, ih]
    decide

/-- Claim C3, evaluated on the code: the constructor keeps seed `0` as it is, so the
generator built from seed `0` has state `0`, and every later state and every output is `0`. -/
theorem seed_zero_accepted :
    (Random.new 0).state_ = 0 ∧
    ∀ n : Nat, ((Random.new 0).steps n).state_ = 0 ∧ (Random.new 0).nthOutput n = 0 := by
  have h0 : Random.new 0 = ⟨0⟩ := by decide
  refine ⟨by decide, fun n => ?_⟩
  rw [h0]
  refine ⟨by rw [steps_zero_state], ?_⟩
  cases n with
  | zero => rfl
  | succ n =>
    show (Random.steps n ⟨0⟩).NextOutput.1 = 0
    rw [steps_zero_state]
    decide

theorem new_idle (config : Config) (random_seed : Nat)
    (h : config.avg_burst_loss_length ≠ 0) :
    ∃ net : SimulatedNetwork, SimulatedNetwork.new config random_seed = some net ∧
      net.capacity_link_ = [] ∧ net.delay_link_ = [] ∧ net.bursting_ = false ∧
      net.last_enqueue_time_us_ = 0 ∧ net.last_capacity_link_exit_time_ = 0 ∧
      net.config_state_.config = config ∧ net.config_state_.pause_transmission_until_us = 0 ∧
      net.random_ = Random.new random_seed ∧
      (config.loss_percent = 0 → net.config_state_.prob_start_bursting = 0) := by
  obtain ⟨state, hst⟩ := makeConfigState_isSome config 0 h
  obtain ⟨hcfg, hpause, -, hps⟩ := makeConfigState_some hst
  refine ⟨SimulatedNetwork.mk [] [] none state (Random.new random_seed) false 0 0, ?_, rfl, rfl,
    rfl, rfl, rfl, hcfg, hpause, rfl, hps⟩
  simp only [SimulatedNetwork.new, hst, Option.map_some']

theorem deliveriesOf_eq (boxMuller : Nat → Nat → ℚ) (config : Config) (random_seed : Nat)
    (calls : List Call) (net0 net1 : SimulatedNetwork) (ds : List PacketDeliveryInfo)
    (hnew : SimulatedNetwork.new config random_seed = some net0)
    (hrun : SimulatedNetwork.run boxMuller net0 calls = some (net1, ds)) :
    SimulatedNetwork.runFresh boxMuller config random_seed calls = some (net1, ds) ∧
    deliveriesOf boxMuller config random_seed calls = some ds := by
  simp [deliveriesOf, SimulatedNetwork.runFresh, hnew, hrun]

theorem sourcesOf_eq (boxMuller : Nat → Nat → ℚ) (config : Config) (random_seed : Nat)
    (calls : List Call) (net0 : SimulatedNetwork) (qs : List PacketInfo)
    (hnew : SimulatedNetwork.new config random_seed = some net0)
    (hrun : SimulatedNetwork.runSources boxMuller net0 calls = some qs) :
    sourcesOf boxMuller config random_seed calls = some qs := by
  simp [sourcesOf, hnew, hrun]

theorem overflow_first_enqueue :
    SimulatedNetwork.runFresh noJitter overflowConfig 1 [Call.enqueue ⟨1000, 0, 1⟩] =
      some (overflowNetwork, []) := by
  have hc : ceilDiv 8000000 100 = 80000 := by decide
  have hr : Random.new 1 = ⟨1⟩ := by decide
  simp [SimulatedNetwork.runFresh, SimulatedNetwork.new, makeConfigState, SimulatedNetwork.run,
    SimulatedNetwork.call, SimulatedNetwork.EnqueuePacket, SimulatedNetwork.UpdateCapacityQueue,
    SimulatedNetwork.GetConfigState, SimulatedNetwork.lastCapacityExitTime, lastExitTime,
    promote, capacityExitTime, overflowConfig, overflowNetwork,
    SimulatedNetwork.recomputeNextProcessTime, SimulatedNetwork.NextDeliveryTimeUs, leastArrival,
    hc, hr]

theorem overflow_first_enqueue_accepted :
    (SimulatedNetwork.new overflowConfig 1).bind
        (fun net0 => net0.EnqueuePacket noJitter ⟨1000, 0, 1⟩) =
      some (true, overflowNetwork) := by
  have hc : ceilDiv 8000000 100 = 80000 := by decide
  have hr : Random.new 1 = ⟨1⟩ := by decide
  simp [SimulatedNetwork.new, makeConfigState, SimulatedNetwork.EnqueuePacket,
    SimulatedNetwork.UpdateCapacityQueue, SimulatedNetwork.GetConfigState,
    SimulatedNetwork.lastCapacityExitTime, lastExitTime, promote,
    capacityExitTime, overflowConfig, overflowNetwork, SimulatedNetwork.recomputeNextProcessTime,
    SimulatedNetwork.NextDeliveryTimeUs, leastArrival, hc, hr]

theorem overflow_second_enqueue :
    ∃ net2, overflowNetwork.EnqueuePacket noJitter ⟨1000, 0, 2⟩ = some (false, net2) ∧
      net2.capacity_link_ = overflowNetwork.capacity_link_ := by
  refine ⟨overflowNetwork, ?_, rfl⟩
  simp [SimulatedNetwork.EnqueuePacket, SimulatedNetwork.UpdateCapacityQueue,
    SimulatedNetwork.GetConfigState, lastExitTime, promote, overflowConfig, overflowNetwork]

/-- One packet through a fresh simulator without loss and without extra delay. -/
theorem fresh_round (boxMuller : Nat → Nat → ℚ) (config : Config) (random_seed : Nat)
    (packet : PacketInFlightInfo) (now exit : Int)
    (h : config.avg_burst_loss_length ≠ 0) (hsend : 0 ≤ packet.send_time_us)
    (hl : config.loss_percent = 0) (hd : config.queue_delay_ms = 0)
    (hs : config.delay_standard_deviation_ms = 0)
    (hexit : (if config.link_capacity_kbps = 0 then packet.send_time_us
      else packet.send_time_us + ceilDiv (((packet.size : Int) + config.packet_overhead) * 8 * 1000)
        config.link_capacity_kbps) = exit)
    (hnow : exit ≤ now) :
    ∃ net0 net2 : SimulatedNetwork, SimulatedNetwork.new config random_seed = some net0 ∧
      SimulatedNetwork.run boxMuller net0 [Call.enqueue packet, Call.dequeue now] =
        some (net2, [⟨exit, packet.packet_id⟩]) ∧
      net2.capacity_link_ = [] ∧ net2.delay_link_ = [] ∧ net2.bursting_ = false ∧
      net2.config_state_ = net0.config_state_ ∧ net2.config_state_.config = config ∧
      net2.config_state_.pause_transmission_until_us = 0 ∧
      net2.config_state_.prob_start_bursting = 0 ∧
      net2.last_enqueue_time_us_ = packet.send_time_us ∧
      net2.last_capacity_link_exit_time_ = exit ∧
      SimulatedNetwork.runSources boxMuller net0 [Call.enqueue packet, Call.dequeue now] =
        some [⟨packet, exit⟩] := by
  obtain ⟨net0, h0, h1, h2, h3, h4, h5, h6, h7, -, h9⟩ := new_idle config random_seed h
  have hstart : max packet.send_time_us (max net0.last_capacity_link_exit_time_
      net0.config_state_.pause_transmission_until_us) = packet.send_time_us := by
    rw [h5, h7]; omega
  obtain ⟨net2, r1, r2, r3, r4, r5, r6, r7, -, r9⟩ := idle_round boxMuller net0 packet now exit 0
    h1 h2 h3 (by rw [h4]; exact hsend) (by rw [h6]; exact hl) (h9 hl)
    (by rw [hstart]; unfold capacityExitTime; rw [h6]; exact hexit)
    (extraDelayUs_zero boxMuller _ _ (by rw [h6]; exact hd) (by rw [h6]; exact hs))
    hnow (by omega)
  rw [add_zero] at r1 r9
  exact ⟨net0, net2, h0, r1, r2, r3, r4, r5, by rw [r5]; exact h6, by rw [r5]; exact h7,
    by rw [r5]; exact h9 hl, r6, r7, r9⟩

theorem negativeCapacity_deliveries :
    deliveriesOf noJitter negativeCapacityConfig 1 [Call.enqueue ⟨1, 0, 7⟩, Call.dequeue 0] =
      some [⟨-1000, 7⟩] := by
  obtain ⟨net0, net2, h0, h1, -⟩ := fresh_round noJitter negativeCapacityConfig 1 ⟨1, 0, 7⟩ 0
    (-1000) (by decide) (by decide) rfl rfl rfl (by decide) (by decide)
  exact (deliveriesOf_eq _ _ _ _ _ _ _ h0 h1).2

theorem basicTest_deliveries :
    deliveriesOf noJitter basicTestConfig 1 [Call.enqueue ⟨1000, 0, 1⟩, Call.dequeue 16000] =
      some [⟨16000, 1⟩] := by
  obtain ⟨net0, net2, h0, h1, -⟩ := fresh_round noJitter basicTestConfig 1 ⟨1000, 0, 1⟩ 16000
    16000 (by decide) (by decide) rfl rfl rfl (by decide) (by decide)
  exact (deliveriesOf_eq _ _ _ _ _ _ _ h0 h1).2

/-- Two 1000-byte packets through the simulator of `SimulatedNetworkTest.BasicTest`
(500 kbps), one after the other: sent at `0` and `16000`, received at `16000` and `32000`. -/
theorem twoPacket_run (id1 id2 : Nat) :
    deliveriesOf noJitter basicTestConfig 1
      [Call.enqueue ⟨1000, 0, id1⟩, Call.dequeue 16000, Call.enqueue ⟨1000, 16000, id2⟩,
        Call.dequeue 32000] = some [⟨16000, id1⟩, ⟨32000, id2⟩] ∧
    sourcesOf noJitter basicTestConfig 1
      [Call.enqueue ⟨1000, 0, id1⟩, Call.dequeue 16000, Call.enqueue ⟨1000, 16000, id2⟩,
        Call.dequeue 32000] = some [⟨⟨1000, 0, id1⟩, 16000⟩, ⟨⟨1000, 16000, id2⟩, 32000⟩] := by
  have hc : (if basicTestConfig.link_capacity_kbps = 0 then (0 : Int)
      else 0 + ceilDiv ((((1000 : Nat) : Int) + basicTestConfig.packet_overhead) * 8 * 1000)
        basicTestConfig.link_capacity_kbps) = 16000 := by decide
  obtain ⟨net0, net2, h0, h1, a1, a2, a3, -, a5, a6, a7, a8, a9, a10⟩ := fresh_round noJitter
    basicTestConfig 1 ⟨1000, 0, id1⟩ 16000 16000 (by decide) (le_refl (0 : Int)) rfl rfl rfl hc
    (by decide)
  have hexit : capacityExitTime net2.config_state_ (max (16000 : Int)
      (max net2.last_capacity_link_exit_time_ net2.config_state_.pause_transmission_until_us))
      1000 = 32000 := by
    rw [a9, a6]
    unfold capacityExitTime
    rw [a5]
    decide
  obtain ⟨net4, b1, -, -, -, -, -, -, -, b9⟩ := idle_round noJitter net2 ⟨1000, 16000, id2⟩ 32000
    32000 0 a1 a2 a3 (by rw [a8]; show (0 : Int) ≤ 16000; decide) (by rw [a5]; rfl) a7 hexit
    (extraDelayUs_zero noJitter _ _ (by rw [a5]; rfl) (by rw [a5]; rfl)) (by decide) (by decide)
  have hrun := run_append noJitter _ _ _ _ _ _ _ h1 b1
  have hsrc := runSources_append noJitter _ _ _ _ _ _ _ h1 a10 b9
  exact ⟨(deliveriesOf_eq _ _ _ _ _ _ _ h0 hrun).2, sourcesOf_eq _ _ _ _ _ _ h0 hsrc⟩

/-- Claim C10 as amended: when the initial configuration and every configuration installed
by `SetConfig` or `UpdateConfig` has `link_capacity_kbps ≥ 0` and `packet_overhead ≥ 0`, every
delivery returned by `DequeueDeliverablePackets` along a sequence of public calls is made from
an enqueued packet (`sourcesOf` lists the deliveries next to the packets they are made from)
whose send time is not after the receive time of the delivery; and when the packet ids of the
enqueued packets are distinct, the receive time of a delivery is not before the send time of
the enqueued packet with the same `packet_id`. -/
theorem no_time_travel (boxMuller : Nat → Nat → ℚ) (config : Config) (random_seed : Nat)
    (calls : List Call) (ds : List PacketDeliveryInfo)
    (hconfig : config.nonnegative) (hcalls : ∀ c ∈ calls, c.nonnegative)
    (hrun : deliveriesOf boxMuller config random_seed calls = some ds) :
    ∃ qs : List PacketInfo, sourcesOf boxMuller config random_seed calls = some qs ∧
      ds = qs.map PacketInfo.delivery ∧
      (∀ q ∈ qs, q.packet ∈ enqueuedPackets calls ∧
        q.packet.send_time_us ≤ q.delivery.receive_time_us) ∧
      (((enqueuedPackets calls).map (fun p => p.packet_id)).Nodup →
        ∀ d ∈ ds, ∀ p ∈ enqueuedPackets calls, p.packet_id = d.packet_id →
          p.send_time_us ≤ d.receive_time_us) := by
  simp only [deliveriesOf, SimulatedNetwork.runFresh, SimulatedNetwork.new, Option.map_eq_some',
    Option.bind_eq_some] at hrun
  obtain ⟨⟨net, ds1⟩, ⟨net0, ⟨state, hst, rfl⟩, hrun⟩, rfl⟩ := hrun
  have hcfg := (makeConfigState_some hst).1
  obtain ⟨qs, hqs, hds, hgood⟩ := run_good boxMuller calls _ net [] ds1
    (by rw [hcfg]; exact hconfig) (by simp) (by simp) hcalls hrun
  simp only [List.nil_append] at hgood
  refine ⟨qs, ?_, hds, hgood, ?_⟩
  · simp only [sourcesOf, SimulatedNetwork.new, hst, Option.map_some', Option.some_bind, hqs]
  · intro hnodup d hd p hp hid
    simp only at hd
    rw [hds, List.mem_map] at hd
    obtain ⟨q, hq, rfl⟩ := hd
    obtain ⟨hmem, hle⟩ := hgood q hq
    have hpq : p = q.packet := List.inj_on_of_nodup_map hnodup hp hmem hid
    rw [hpq]
    exact hle

/-- Claim C10 as stated fails: with `link_capacity_kbps = -8`, a one-byte packet sent at time
`0` and dequeued at time `0` is delivered with receive time `-1000`, before its send time. It
is the only packet enqueued. -/
theorem no_time_travel_counterexample :
    deliveriesOf noJitter negativeCapacityConfig 1 [Call.enqueue ⟨1, 0, 7⟩, Call.dequeue 0] =
      some [⟨-1000, 7⟩] ∧
    enqueuedPackets [Call.enqueue ⟨1, 0, 7⟩, Call.dequeue 0] = [⟨1, 0, 7⟩] ∧
    ¬ ∀ d ∈ [(⟨-1000, 7⟩ : PacketDeliveryInfo)],
        ∃ p ∈ enqueuedPackets [Call.enqueue ⟨1, 0, 7⟩, Call.dequeue 0],
          p.packet_id = d.packet_id ∧ p.send_time_us ≤ d.receive_time_us := by
  refine ⟨negativeCapacity_deliveries, rfl, ?_⟩
  intro h
  obtain ⟨p, hp, -, hle⟩ := h _ (List.mem_singleton_self _)
  simp only [enqueuedPackets, List.mem_singleton] at hp
  subst hp
  exact absurd hle (by decide)

/-- Witness of `no_time_travel`: two packets through the simulator of
`SimulatedNetworkTest.BasicTest`, the second one carrying the id of the first again. The
delivery at `32000` is made from the packet sent at `16000`, the delivery at `16000` from
the packet sent at `0`. -/
theorem no_time_travel_witness :
    (basicTestConfig.nonnegative ∧
      (∀ c ∈ [Call.enqueue ⟨1000, 0, 1⟩, Call.dequeue 16000, Call.enqueue ⟨1000, 16000, 1⟩,
        Call.dequeue 32000], c.nonnegative) ∧
      deliveriesOf noJitter basicTestConfig 1
        [Call.enqueue ⟨1000, 0, 1⟩, Call.dequeue 16000, Call.enqueue ⟨1000, 16000, 1⟩,
          Call.dequeue 32000] = some [⟨16000, 1⟩, ⟨32000, 1⟩]) ∧
    sourcesOf noJitter basicTestConfig 1
        [Call.enqueue ⟨1000, 0, 1⟩, Call.dequeue 16000, Call.enqueue ⟨1000, 16000, 1⟩,
          Call.dequeue 32000] = some [⟨⟨1000, 0, 1⟩, 16000⟩, ⟨⟨1000, 16000, 1⟩, 32000⟩] ∧
    ∃ qs : List PacketInfo,
      sourcesOf noJitter basicTestConfig 1
        [Call.enqueue ⟨1000, 0, 1⟩, Call.dequeue 16000, Call.enqueue ⟨1000, 16000, 1⟩,
          Call.dequeue 32000] = some qs ∧
      ([⟨16000, 1⟩, ⟨32000, 1⟩] : List PacketDeliveryInfo) = qs.map PacketInfo.delivery ∧
      (∀ q ∈ qs, q.packet ∈ enqueuedPackets
          [Call.enqueue ⟨1000, 0, 1⟩, Call.dequeue 16000, Call.enqueue ⟨1000, 16000, 1⟩,
            Call.dequeue 32000] ∧
        q.packet.send_time_us ≤ q.delivery.receive_time_us) :=
  have h1 : basicTestConfig.nonnegative := by
    constructor <;> decide
  have h2 : ∀ c ∈ [Call.enqueue ⟨1000, 0, 1⟩, Call.dequeue 16000,
      Call.enqueue ⟨1000, 16000, 1⟩, Call.dequeue 32000], c.nonnegative := by
    intro c hc
    simp only [List.mem_cons, List.mem_singleton, List.not_mem_nil, or_false] at hc
    rcases hc with rfl | rfl | rfl | rfl <;> trivial
  have h := no_time_travel noJitter basicTestConfig 1 _ _ h1 h2 (twoPacket_run 1 1).1
  ⟨⟨h1, h2, (twoPacket_run 1 1).1⟩, (twoPacket_run 1 1).2,
    h.imp fun _ hq => ⟨hq.1, hq.2.1, hq.2.2.1⟩⟩

/-- Claim C9: with `queue_length_packets = N > 0` kept by every call, in every state reached
from a fresh simulator the capacity queue holds at most `N` packets, and an `EnqueuePacket`
with an admissible send time returns `false` exactly when the capacity queue, after the
promotion of the packets whose exit time has passed, holds `N` packets; the rejected packet
is not stored (the simulator is the promoted one with only the last enqueue time updated),
and the queue holds at most `N` packets afterwards. -/
theorem queue_bound (boxMuller : Nat → Nat → ℚ) (config : Config) (random_seed : Nat)
    (calls : List Call) (net : SimulatedNetwork) (ds : List PacketDeliveryInfo)
    (hN : 0 < config.queue_length_packets)
    (hcalls : ∀ c ∈ calls, c.keepsQueueLength config.queue_length_packets)
    (hrun : SimulatedNetwork.runFresh boxMuller config random_seed calls = some (net, ds)) :
    net.capacity_link_.length ≤ config.queue_length_packets ∧
    ∀ packet : PacketInFlightInfo, net.last_enqueue_time_us_ ≤ packet.send_time_us →
      ∃ (b : Bool) (net1 : SimulatedNetwork),
        net.EnqueuePacket boxMuller packet = some (b, net1) ∧
        (b = false ↔
          (net.UpdateCapacityQueue boxMuller net.GetConfigState
            packet.send_time_us).capacity_link_.length = config.queue_length_packets) ∧
        (b = false →
          net1 = { net.UpdateCapacityQueue boxMuller net.GetConfigState packet.send_time_us with
                   last_enqueue_time_us_ := packet.send_time_us }) ∧
        net1.capacity_link_.length ≤ config.queue_length_packets := by
  simp only [SimulatedNetwork.runFresh, SimulatedNetwork.new, Option.bind_eq_some,
    Option.map_eq_some'] at hrun
  obtain ⟨net0, ⟨state, hst, rfl⟩, hrun⟩ := hrun
  have hcfg := (makeConfigState_some hst).1
  obtain ⟨h1, h2⟩ := run_queue boxMuller config.queue_length_packets hN calls _ net ds
    (by rw [hcfg]) (Nat.zero_le _) hcalls hrun
  refine ⟨h2, ?_⟩
  intro packet hsend
  obtain ⟨b, net1, e1, e2, e3, -, -, e6⟩ := enqueue_queue boxMuller net packet
    config.queue_length_packets hN h1 h2 hsend
  exact ⟨b, net1, e1, e2, e3, e6⟩


/-- Witness of `queue_bound`: the queue-overflow scenario (`N = 1`, 100 kbps) after its first
1000-byte packet; a second packet at send time `0` is admissible. The first enqueue returned
`true`, the second returns `false`. -/
theorem queue_bound_witness :
    (0 < overflowConfig.queue_length_packets ∧
      (∀ c ∈ [Call.enqueue ⟨1000, 0, 1⟩],
        c.keepsQueueLength overflowConfig.queue_length_packets) ∧
      SimulatedNetwork.runFresh noJitter overflowConfig 1 [Call.enqueue ⟨1000, 0, 1⟩] =
        some (overflowNetwork, [])) ∧
    overflowNetwork.capacity_link_.length ≤ overflowConfig.queue_length_packets ∧
    ∃ (b : Bool) (net1 : SimulatedNetwork),
      overflowNetwork.EnqueuePacket noJitter ⟨1000, 0, 2⟩ = some (b, net1) ∧
      (b = false ↔
        (overflowNetwork.UpdateCapacityQueue noJitter overflowNetwork.GetConfigState
          0).capacity_link_.length = overflowConfig.queue_length_packets) ∧
      (b = false →
        net1 = { overflowNetwork.UpdateCapacityQueue noJitter overflowNetwork.GetConfigState 0 with
                 last_enqueue_time_us_ := 0 }) ∧
      net1.capacity_link_.length ≤ overflowConfig.queue_length_packets ∧
      (SimulatedNetwork.new overflowConfig 1).bind
          (fun net0 => net0.EnqueuePacket noJitter ⟨1000, 0, 1⟩) =
        some (true, overflowNetwork) ∧
      ∃ net2, overflowNetwork.EnqueuePacket noJitter ⟨1000, 0, 2⟩ = some (false, net2) ∧
        net2.capacity_link_ = overflowNetwork.capacity_link_ :=
  have h1 : 0 < overflowConfig.queue_length_packets := by decide
  have h2 : ∀ c ∈ [Call.enqueue ⟨1000, 0, 1⟩],
      c.keepsQueueLength overflowConfig.queue_length_packets := by
    intro c hc
    rw [List.mem_singleton] at hc
    subst hc
    trivial
  have h := queue_bound noJitter overflowConfig 1 _ _ _ h1 h2 overflow_first_enqueue
  ⟨⟨h1, h2, overflow_first_enqueue⟩, h.1,
    (h.2 ⟨1000, 0, 2⟩ (by decide)).imp fun _ hb => hb.imp fun _ hn =>
      ⟨hn.1, hn.2.1, hn.2.2.1, hn.2.2.2, overflow_first_enqueue_accepted,
        overflow_second_enqueue⟩⟩

/-- Witness of `single_packet_finite_capacity`: `s = 1000`, `t = 0`, `C = 500` gives `16000`
and packet id `1`. -/
theorem single_packet_finite_capacity_witness :
    ∃ net0 net1 : SimulatedNetwork,
      SimulatedNetwork.new basicTestConfig 1 = some net0 ∧
      net0.EnqueuePacket noJitter ⟨1000, 0, 1⟩ = some (true, net1) ∧
      net1.NextDeliveryTimeUs = some 16000 ∧
      (net1.DequeueDeliverablePackets noJitter 16000).1 = [⟨16000, 1⟩] := by
  cases hnew : SimulatedNetwork.new basicTestConfig 1 with
  | none => simp [SimulatedNetwork.new, makeConfigState, basicTestConfig] at hnew
  | some net0 =>
    obtain ⟨net1, e1, e2, e3⟩ := single_packet_finite_capacity noJitter basicTestConfig 1 net0
      1000 0 1 hnew (by decide) (by decide) rfl rfl rfl rfl (le_refl 0)
    have hceil : (0 : Int) + ⌈(((1000 : Nat) : ℚ) * 8 * 1000) /
        ((basicTestConfig.link_capacity_kbps : Int) : ℚ)⌉ = 16000 := by
      have : (((1000 : Nat) : ℚ) * 8 * 1000) / ((basicTestConfig.link_capacity_kbps : Int) : ℚ) =
          ((16000 : Int) : ℚ) := by
        simp only [basicTestConfig]
        norm_num
      rw [this, Int.ceil_intCast]
      rfl
    rw [hceil] at e2 e3
    exact ⟨net0, net1, rfl, e1, e2, e3⟩

/-- Witness of `NextOutput_nonzero`: seed `1`, first output. -/
theorem NextOutput_nonzero_witness :
    ((1 : Nat) ≠ 0 ∧ (1 : Nat) < 2 ^ 64 ∧ 1 ≤ 1) ∧
    ((Random.new 1).steps 1).state_ ≠ 0 ∧
    (Random.new 1).nthOutput 1 =
      (((Random.new 1).steps 1).state_ * 2685821657736338717) % 2 ^ 64 ∧
    (Random.new 1).nthOutput 1 ≠ 0 :=
  ⟨⟨by decide, by decide, le_refl 1⟩,
    NextOutput_nonzero 1 1 (by decide) (by decide) (le_refl 1)⟩

/-- Witness of `Rand_in_range`: the largest argument, `t = 2 ^ 32 - 1`. -/
theorem Rand_in_range_witness :
    (4294967295 : Nat) < 2 ^ 32 ∧
    ((⟨1⟩ : Random).Rand 4294967295).1 =
      (((⟨1⟩ : Random).NextOutput.1 % 2 ^ 32) * (4294967295 + 1)) >>> 32 ∧
    ((⟨1⟩ : Random).NextOutput.1 % 2 ^ 32) * (4294967295 + 1) < 2 ^ 64 ∧
    ((⟨1⟩ : Random).Rand 4294967295).1 ≤ 4294967295 :=
  ⟨by decide, Rand_in_range ⟨1⟩ 4294967295 (by decide)⟩

/-- Witness of `RandU32_in_range`: the full range `[0, 2 ^ 32 - 1]`. -/
theorem RandU32_in_range_witness :
    ((0 : Nat) ≤ 4294967295 ∧ (4294967295 : Nat) < 2 ^ 32) ∧
    ((⟨1⟩ : Random).RandU32 0 4294967295).1 = ((⟨1⟩ : Random).Rand (4294967295 - 0)).1 + 0 ∧
    ((⟨1⟩ : Random).Rand (4294967295 - 0)).1 + 0 < 2 ^ 32 ∧
    0 ≤ ((⟨1⟩ : Random).RandU32 0 4294967295).1 ∧
    ((⟨1⟩ : Random).RandU32 0 4294967295).1 ≤ 4294967295 :=
  ⟨⟨by decide, by decide⟩, RandU32_in_range ⟨1⟩ 0 4294967295 (by decide) (by decide)⟩

/-- Witness of `RandI32_in_range`: `low = INT32_MIN`, `high = INT32_MAX`. -/
theorem RandI32_in_range_witness :
    ((-2 ^ 31 : Int) ≤ -2147483648 ∧ (-2147483648 : Int) ≤ 2147483647 ∧
      (2147483647 : Int) < 2 ^ 31) ∧
    wrapI64 (2147483647 - -2147483648) = 2147483647 - -2147483648 ∧
    ((toU32 (wrapI64 (2147483647 - -2147483648)) : Nat) : Int) = 2147483647 - -2147483648 ∧
    ((⟨1⟩ : Random).RandI32 (-2147483648) 2147483647).1 =
      (((⟨1⟩ : Random).Rand (2147483647 - -2147483648 : Int).toNat).1 : Int) + -2147483648 ∧
    -2147483648 ≤ ((⟨1⟩ : Random).RandI32 (-2147483648) 2147483647).1 ∧
    ((⟨1⟩ : Random).RandI32 (-2147483648) 2147483647).1 ≤ 2147483647 :=
  ⟨⟨by decide, by decide, by decide⟩,
    RandI32_in_range ⟨1⟩ (-2147483648) 2147483647 (by decide) (by decide) (by decide)⟩

/-- Witness of `Rand_near_uniform`: three buckets, `t = 2`, `k = 1`. -/
theorem Rand_near_uniform_witness :
    ((2 : Nat) < 2 ^ 32 ∧ (1 : Nat) ≤ 2) ∧
    (bucketCount 2 1 = 2 ^ 32 / (2 + 1) ∨ bucketCount 2 1 = (2 ^ 32 + 2) / (2 + 1)) ∧
    0 < bucketCount 2 1 ∧
    ((2 + 1) ∣ 2 ^ 32 → bucketCount 2 1 = 2 ^ 32 / (2 + 1)) :=
  ⟨⟨by decide, by decide⟩, Rand_near_uniform 2 1 (by decide) (by decide)⟩

/-! ## Further lemmas and theorems -/

theorem shiftRight_xor (x y k : Nat) : (x ^^^ y) >>> k = (x >>> k) ^^^ (y >>> k) := by
  apply Nat.eq_of_testBit_eq
  intro i
  simp only [Nat.testBit_xor, Nat.testBit_shiftRight]

theorem shiftLeft_mod_xor (x y k : Nat) :
    ((x ^^^ y) <<< k) % 2 ^ 64 = ((x <<< k) % 2 ^ 64) ^^^ ((y <<< k) % 2 ^ 64) := by
  apply Nat.eq_of_testBit_eq
  intro i
  simp only [Nat.testBit_xor, Nat.testBit_mod_two_pow, Nat.testBit_shiftLeft]
  cases decide (i < 64) <;> cases decide (i ≥ k) <;> simp

theorem xor_xor_xor_comm (a b c d : Nat) : (a ^^^ b) ^^^ (c ^^^ d) = (a ^^^ c) ^^^ (b ^^^ d) := by
  apply Nat.eq_of_testBit_eq
  intro i
  simp only [Nat.testBit_xor]
  cases a.testBit i <;> cases b.testBit i <;> cases c.testBit i <;> cases d.testBit i <;> rfl

theorem xorshift12_injective {x y : Nat} (h : xorshift12 x = xorshift12 y) : x = y := by
  have h0 : xorshift12 (x ^^^ y) = 0 := by
    unfold xorshift12 at h ⊢
    rw [shiftRight_xor, xor_xor_xor_comm, h, Nat.xor_self]
  exact Nat.xor_eq_zero.1 (xorshift12_eq_zero h0)

theorem xorshift27_injective {x y : Nat} (h : xorshift27 x = xorshift27 y) : x = y := by
  have h0 : xorshift27 (x ^^^ y) = 0 := by
    unfold xorshift27 at h ⊢
    rw [shiftRight_xor, xor_xor_xor_comm, h, Nat.xor_self]
  exact Nat.xor_eq_zero.1 (xorshift27_eq_zero h0)

theorem xorshift25_injective {x y : Nat} (hx : x < 2 ^ 64) (hy : y < 2 ^ 64)
    (h : xorshift25 x = xorshift25 y) : x = y := by
  have h0 : xorshift25 (x ^^^ y) = 0 := by
    unfold xorshift25 at h ⊢
    rw [shiftLeft_mod_xor, xor_xor_xor_comm, h, Nat.xor_self]
  exact Nat.xor_eq_zero.1 (xorshift25_eq_zero (Nat.xor_lt_two_pow hx hy) h0)

theorem nextState_injective {x y : Nat} (hx : x < 2 ^ 64) (hy : y < 2 ^ 64)
    (h : nextState x = nextState y) : x = y :=
  xorshift12_injective
    (xorshift25_injective (xorshift12_lt hx) (xorshift12_lt hy) (xorshift27_injective h))

theorem mul_kMultiplier_injective {a b : Nat} (ha : a < 2 ^ 64) (hb : b < 2 ^ 64)
    (h : (a * kMultiplier) % 2 ^ 64 = (b * kMultiplier) % 2 ^ 64) : a = b := by
  have hk : Nat.Coprime 2 kMultiplier := by decide
  have hc : Nat.gcd (2 ^ 64) kMultiplier = 1 := Nat.Coprime.pow_left 64 hk
  have hm : a ≡ b [MOD 2 ^ 64] := Nat.ModEq.cancel_right_of_coprime hc h
  have := hm
  unfold Nat.ModEq at this
  rwa [Nat.mod_eq_of_lt ha, Nat.mod_eq_of_lt hb] at this

theorem output_injective {x y : Nat} (hx : x < 2 ^ 64) (hy : y < 2 ^ 64)
    (h : (⟨x⟩ : Random).NextOutput.1 = (⟨y⟩ : Random).NextOutput.1) : x = y :=
  nextState_injective hx hy (mul_kMultiplier_injective (nextState_lt hx) (nextState_lt hy) h)

theorem output_surjective (v : Nat) (hv : v < 2 ^ 64) :
    ∃ s, s < 2 ^ 64 ∧ (⟨s⟩ : Random).NextOutput.1 = v := by
  let f : Fin (2 ^ 64) → Fin (2 ^ 64) :=
    fun s => ⟨(⟨s.1⟩ : Random).NextOutput.1, Nat.mod_lt _ (by norm_num)⟩
  have hinj : Function.Injective f := by
    intro a b hab
    have : (⟨a.1⟩ : Random).NextOutput.1 = (⟨b.1⟩ : Random).NextOutput.1 :=
      congrArg Fin.val hab
    exact Fin.ext (output_injective a.2 b.2 this)
  obtain ⟨s, hs⟩ := Finite.surjective_of_injective hinj ⟨v, hv⟩
  exact ⟨s.1, s.2, congrArg Fin.val hs⟩

theorem output_zero : (⟨0⟩ : Random).NextOutput.1 = 0 := by decide

theorem nextState_surjective (w : Nat) (hw : w < 2 ^ 64) :
    ∃ s, s < 2 ^ 64 ∧ nextState s = w := by
  let f : Fin (2 ^ 64) → Fin (2 ^ 64) := fun s => ⟨nextState s.1, nextState_lt s.2⟩
  have hinj : Function.Injective f := by
    intro a b hab
    have : nextState a.1 = nextState b.1 := congrArg Fin.val hab
    exact Fin.ext (nextState_injective a.2 b.2 this)
  obtain ⟨s, hs⟩ := Finite.surjective_of_injective hinj ⟨w, hw⟩
  exact ⟨s.1, s.2, congrArg Fin.val hs⟩

/-- Claim C19: the core step is injective on 64-bit states. Two distinct states have
distinct successor states and distinct outputs, the three xorshifts map only `0` to `0`, they
and the multiplication by `2685821657736338717` modulo `2 ^ 64` reach every 64-bit value, and
every nonzero 64-bit value `v` is the output of exactly one nonzero 64-bit state. -/
theorem NextOutput_injective (s1 s2 v : Nat) (h1 : s1 < 2 ^ 64) (h2 : s2 < 2 ^ 64)
    (hne : s1 ≠ s2) (hv0 : v ≠ 0) (hv : v < 2 ^ 64) :
    (⟨s1⟩ : Random).NextOutput.2 ≠ (⟨s2⟩ : Random).NextOutput.2 ∧
    (⟨s1⟩ : Random).NextOutput.1 ≠ (⟨s2⟩ : Random).NextOutput.1 ∧
    (nextState 0 = 0 ∧ ∀ s, s < 2 ^ 64 → nextState s = 0 → s = 0) ∧
    (∃ s, s < 2 ^ 64 ∧ nextState s = v) ∧
    (∃ m, m < 2 ^ 64 ∧ (m * 2685821657736338717) % 2 ^ 64 = v) ∧
    ∃! s, (s ≠ 0 ∧ s < 2 ^ 64) ∧ (⟨s⟩ : Random).NextOutput.1 = v := by
  refine ⟨?_, fun h => hne (output_injective h1 h2 h), ⟨by decide, ?_⟩,
    nextState_surjective v hv, ?_, ?_⟩
  · intro h
    have : nextState s1 = nextState s2 := congrArg Random.state_ h
    exact hne (nextState_injective h1 h2 this)
  · intro s hs h0
    by_contra hs0
    exact nextState_ne_zero hs hs0 h0
  · obtain ⟨s, hs, hsv⟩ := output_surjective v hv
    exact ⟨nextState s, nextState_lt hs, hsv⟩
  · obtain ⟨s, hs, hsv⟩ := output_surjective v hv
    refine ⟨s, ⟨⟨?_, hs⟩, hsv⟩, ?_⟩
    · rintro rfl
      rw [output_zero] at hsv
      exact hv0 hsv.symm
    · rintro t ⟨⟨-, ht⟩, htv⟩
      exact output_injective ht hs (htv.trans hsv.symm)

theorem Rand_one (r : Random) :
    (r.Rand 1).1 = r.NextOutput.1 % 2 ^ 32 / 2 ^ 31 ∧ (r.Rand 1).1 ≤ 1 := by
  have hx : r.NextOutput.1 % 2 ^ 32 < 2 ^ 32 := Nat.mod_lt _ (by norm_num)
  have h := (scale32_eq hx (show 1 < 2 ^ 32 by norm_num)).1
  have h1 : (r.Rand 1).1 = r.NextOutput.1 % 2 ^ 32 * (1 + 1) / 2 ^ 32 := h
  constructor
  · rw [h1]; omega
  · rw [h1]; omega

theorem RandI32_zero_one (r : Random) : r.RandI32 0 1 = (((r.Rand 1).1 : Int), r.NextOutput.2) := by
  have h := (Rand_one r).2
  have hw : wrapI64 (1 - 0) = 1 := by decide
  have hu : toU32 1 = 1 := by decide
  unfold Random.RandI32
  simp only [hw, hu]
  have : wrapI32 (wrapI64 (((r.Rand 1).1 : Int) + 0)) = ((r.Rand 1).1 : Int) := by
    unfold wrapI32 wrapI64
    omega
  rw [this]
  rfl

theorem RandU32_zero_one (r : Random) : r.RandU32 0 1 = ((r.Rand 1).1, r.NextOutput.2) := by
  have h := (Rand_one r).2
  unfold Random.RandU32
  have ht : (1 + 2 ^ 32 - 0) % 2 ^ 32 = 1 := by decide
  simp only [ht]
  have : ((r.Rand 1).1 + 0) % 2 ^ 32 = (r.Rand 1).1 := by omega
  rw [this]
  rfl

/-- Claim C17: `Rand<bool>()`, which goes through the signed `Rand(0, 1)`, equals the
specification's `rand_u32(0, 1) == 1` on every generator state: it is `true` exactly when the
unsigned `Rand(0, 1)` returns `1`, that is exactly when bit 31 of the next output is set, and
both leave the successor state of one `NextOutput` step. -/
theorem RandBool_refines_spec (r : Random) :
    r.RandBool = r.randBoolSpec ∧
    (r.RandBool.1 = true ↔ (r.RandU32 0 1).1 = 1) ∧
    (r.RandBool.1 = true ↔ r.NextOutput.1.testBit 31 = true) ∧
    r.RandBool.2 = r.NextOutput.2 ∧ (r.RandU32 0 1).2 = r.NextOutput.2 := by
  have hI := RandI32_zero_one r
  have hU := RandU32_zero_one r
  have h1 := Rand_one r
  have hB : r.RandBool = (decide ((r.Rand 1).1 = 1), r.NextOutput.2) := by
    unfold Random.RandBool
    rw [hI]
    simp only
    congr 1
    rw [decide_eq_decide]
    omega
  have hS : r.randBoolSpec = (decide ((r.Rand 1).1 = 1), r.NextOutput.2) := by
    unfold Random.randBoolSpec
    rw [hU]
  refine ⟨hB.trans hS.symm, ?_, ?_, ?_, ?_⟩
  · rw [hB, hU]; simp
  · rw [hB, Nat.testBit_to_div_mod]
    simp only [decide_eq_true_eq]
    rw [h1.1]
    omega
  · rw [hB]
  · rw [hU]

/-- Claim C20: whatever the arguments, `Rand(t)`, both range samplers, `Rand<bool>()` and
`Rand<double>()` leave the generator one `NextOutput` step after the starting state, and
`Gaussian` leaves it exactly two steps after. -/
theorem sampler_core_steps (boxMuller : Nat → Nat → ℚ) (r : Random) (t low high : Nat)
    (lowI highI : Int) (mean standard_deviation : ℚ) :
    (r.Rand t).2 = r.steps 1 ∧ (r.RandU32 low high).2 = r.steps 1 ∧
    (r.RandI32 lowI highI).2 = r.steps 1 ∧ r.RandBool.2 = r.steps 1 ∧
    r.RandDouble.2 = r.steps 1 ∧
    (r.Gaussian boxMuller mean standard_deviation).2 = r.steps 2 ∧
    r.steps 1 = r.NextOutput.2 ∧ r.steps 2 = r.NextOutput.2.NextOutput.2 :=
  ⟨rfl, rfl, rfl, rfl, rfl, rfl, rfl, rfl⟩

theorem outputStream_succ (r : Random) (n : Nat) :
    r.outputStream (n + 1) = r.NextOutput.1 :: r.NextOutput.2.outputStream n := by
  unfold Random.outputStream
  rw [List.range_succ_eq_map, List.map_cons, List.map_map]
  rfl

theorem sample_spec (boxMuller : Nat → Nat → ℚ) (r : Random) (c : SamplerCall) :
    (r.sample boxMuller c).2.1 = r.outputStream c.coreSteps ∧
    (r.sample boxMuller c).2.2 = r.steps c.coreSteps := by
  cases c <;> exact ⟨rfl, rfl⟩

theorem outputStream_add (r : Random) (m n : Nat) :
    r.outputStream (m + n) = r.outputStream m ++ (r.steps m).outputStream n := by
  induction m generalizing r with
  | zero => simp [Random.outputStream, Random.steps]
  | succ m ih =>
    rw [Nat.succ_add, outputStream_succ, outputStream_succ, ih]
    rfl

theorem steps_add (r : Random) (m n : Nat) : r.steps (m + n) = (r.steps m).steps n := by
  induction m generalizing r with
  | zero => simp [Random.steps]
  | succ m ih =>
    rw [Nat.succ_add]
    exact ih r.NextOutput.2

theorem sampleAll_spec (boxMuller : Nat → Nat → ℚ) (calls : List SamplerCall) (r : Random) :
    (r.sampleAll boxMuller calls).outputs = r.outputStream (totalCoreSteps calls) ∧
    (r.sampleAll boxMuller calls).final = r.steps (totalCoreSteps calls) ∧
    (r.sampleAll boxMuller calls).results.length = calls.length := by
  induction calls generalizing r with
  | nil => exact ⟨rfl, rfl, rfl⟩
  | cons c cs ih =>
    obtain ⟨h1, h2⟩ := sample_spec boxMuller r c
    obtain ⟨i1, i2, i3⟩ := ih (r.sample boxMuller c).2.2
    simp only [Random.sampleAll, totalCoreSteps, List.length_cons]
    refine ⟨?_, ?_, by rw [i3]⟩
    · rw [i1, h1, h2, outputStream_add]
    · rw [i2, h2, steps_add]

/-- Claim C16: two generators constructed with the same seed and driven by the same sequence
of sampler calls draw the same `NextOutput` values, return the same results and end in the
same state; the values drawn are the output stream of the seed, as long as the number of core
steps of the calls, and the final state is the seed's state that many steps on. -/
theorem rng_reproducible (boxMuller : Nat → Nat → ℚ) (seed : Nat) (calls : List SamplerCall)
    (r1 r2 : Random) (h1 : r1 = Random.new seed) (h2 : r2 = Random.new seed) :
    (r1.sampleAll boxMuller calls).outputs = (r2.sampleAll boxMuller calls).outputs ∧
    (r1.sampleAll boxMuller calls).results = (r2.sampleAll boxMuller calls).results ∧
    (r1.sampleAll boxMuller calls).final = (r2.sampleAll boxMuller calls).final ∧
    (r1.sampleAll boxMuller calls).outputs =
      (Random.new seed).outputStream (totalCoreSteps calls) ∧
    (r1.sampleAll boxMuller calls).final = (Random.new seed).steps (totalCoreSteps calls) := by
  subst h1 h2
  obtain ⟨e1, e2, -⟩ := sampleAll_spec boxMuller calls (Random.new seed)
  exact ⟨rfl, rfl, rfl, e1, e2⟩

theorem outputOneState_output : (⟨outputOneState⟩ : Random).NextOutput.1 = 1 := by decide

theorem doubleNumerator_eq_zero_iff (r : Random) :
    r.doubleNumerator = 0 ↔ r.NextOutput.1 = 1 := by
  have hlt : r.NextOutput.1 < 2 ^ 64 := Nat.mod_lt _ (by norm_num)
  unfold Random.doubleNumerator
  omega

/-- Away from numerator `0` the value of `Rand<double>()` is at least `2 ^ (-64)`. -/
theorem RandDouble_lower_bound (r : Random) (hn : r.doubleNumerator ≠ 0) :
    (2 : ℚ) ^ (-64 : Int) ≤ r.RandDouble.1 := by
  have h1 : (1 : ℚ) ≤ (r.doubleNumerator : ℚ) := by
    exact_mod_cast Nat.pos_of_ne_zero hn
  have hpos : (0 : ℚ) < (r.doubleNumerator : ℚ) := lt_of_lt_of_le one_pos h1
  have hlog : (0 : Int) ≤ Int.log 2 (r.doubleNumerator : ℚ) := by
    rw [← Int.zpow_le_iff_le_log (by norm_num) hpos]
    simpa using h1
  have hd : (1 : ℚ) ≤ toDouble r.doubleNumerator := by
    refine le_trans ?_ (le_roundDouble hpos)
    exact one_le_zpow₀ (by norm_num) hlog
  have hx : (2 : ℚ) ^ (-64 : Int) ≤ toDouble r.doubleNumerator / toDouble 0xFFFFFFFFFFFFFFFF := by
    rw [toDouble_max, le_div_iff₀ (by norm_num)]
    refine le_trans ?_ hd
    norm_num
  have hxpos : (0 : ℚ) < toDouble r.doubleNumerator / toDouble 0xFFFFFFFFFFFFFFFF :=
    lt_of_lt_of_le (zpow_pos (by norm_num) _) hx
  have hlog2 : (-64 : Int) ≤
      Int.log 2 (toDouble r.doubleNumerator / toDouble 0xFFFFFFFFFFFFFFFF) := by
    rw [← Int.zpow_le_iff_le_log (by norm_num) hxpos]
    exact_mod_cast hx
  show (2 : ℚ) ^ (-64 : Int) ≤
    roundDouble (toDouble r.doubleNumerator / toDouble 0xFFFFFFFFFFFFFFFF)
  refine le_trans ?_ (le_roundDouble hxpos)
  exact zpow_le_zpow_right₀ (by norm_num) hlog2

/-- Claim C18 as amended: for a nonzero 64-bit generator state, the numerator
`NextOutput() - 1` of `Rand<double>()` is zero exactly at the state `outputOneState`, whose
next output is `1`; at every other nonzero state the numerator is nonzero and the value drawn
is at least `2 ^ (-64)`. -/
theorem doubleNumerator_zero_only_at (r : Random) (hs : r.state_ < 2 ^ 64)
    (h0 : r.state_ ≠ 0) :
    (r.doubleNumerator = 0 ↔ r.state_ = outputOneState) ∧
    (r.state_ ≠ outputOneState →
      r.doubleNumerator ≠ 0 ∧ (2 : ℚ) ^ (-64 : Int) ≤ r.RandDouble.1) := by
  have hiff : r.doubleNumerator = 0 ↔ r.state_ = outputOneState := by
    rw [doubleNumerator_eq_zero_iff r]
    constructor
    · intro h
      have : (⟨r.state_⟩ : Random).NextOutput.1 = (⟨outputOneState⟩ : Random).NextOutput.1 := by
        rw [outputOneState_output]; exact h
      exact output_injective hs (by decide) this
    · intro h
      have : r = ⟨outputOneState⟩ := by cases r; simp only at h; rw [h]
      rw [this]; exact outputOneState_output
  refine ⟨hiff, fun hne => ?_⟩
  have hn : r.doubleNumerator ≠ 0 := fun h => hne (hiff.1 h)
  exact ⟨hn, RandDouble_lower_bound r hn⟩

/-- Claim C18 as stated fails: the nonzero state `11013388057781577488` has next output `1`,
so the numerator `NextOutput() - 1` is `0` and `Rand<double>()` draws `0`. -/
theorem doubleNumerator_zero_counterexample :
    (⟨outputOneState⟩ : Random).state_ ≠ 0 ∧ (⟨outputOneState⟩ : Random).state_ < 2 ^ 64 ∧
    (⟨outputOneState⟩ : Random).NextOutput.1 = 1 ∧
    (⟨outputOneState⟩ : Random).doubleNumerator = 0 ∧
    (⟨outputOneState⟩ : Random).RandDouble.1 = 0 := by
  refine ⟨by decide, by decide, by decide, by decide, ?_⟩
  have h : (⟨outputOneState⟩ : Random).doubleNumerator = 0 := by decide
  show roundDouble (toDouble (⟨outputOneState⟩ : Random).doubleNumerator /
    toDouble 0xFFFFFFFFFFFFFFFF) = 0
  rw [h]
  simp [toDouble, roundDouble_zero]

/-- Claim C15 as stated fails: with `high = 0 < low = 1` and the generator state `1`, both
range samplers return a value. -/
theorem range_sampler_bad_bounds_counterexample :
    (0 : Nat) < 1 ∧ ((⟨1⟩ : Random).RandU32 1 0).1 = 2305613086 ∧
    (0 : Int) < 1 ∧ ((⟨1⟩ : Random).RandI32 1 0).1 = -1989354210 := by
  refine ⟨by decide, by decide, by decide, by decide⟩

/-- Claim C15 as amended: with `high < low` the range samplers do not fail. The unsigned one
returns `(Rand(high - low + 2 ^ 32) + low) mod 2 ^ 32`, the signed one returns
`Rand(high - low + 2 ^ 32) + low` converted to `int32_t`, and each leaves the generator one
`NextOutput` step on. -/
theorem range_sampler_bad_bounds (r : Random) (low high : Nat) (lowI highI : Int)
    (hlow : low < 2 ^ 32) (hlt : high < low)
    (hlowI : lowI < 2 ^ 31) (hhighI : -2 ^ 31 ≤ highI) (hltI : highI < lowI) :
    r.RandU32 low high =
      (((r.Rand (high + 2 ^ 32 - low)).1 + low) % 2 ^ 32, r.NextOutput.2) ∧
    r.RandI32 lowI highI =
      (wrapI32 (((r.Rand (highI - lowI + 2 ^ 32).toNat).1 : Int) + lowI), r.NextOutput.2) := by
  constructor
  · unfold Random.RandU32
    have ht : (high + 2 ^ 32 - low) % 2 ^ 32 = high + 2 ^ 32 - low := by omega
    simp only [ht]
    rfl
  · unfold Random.RandI32
    have hw : wrapI64 (highI - lowI) = highI - lowI := by unfold wrapI64; omega
    have hu : toU32 (highI - lowI) = (highI - lowI + 2 ^ 32).toNat := by unfold toU32; omega
    have hr := Rand_le r (show (highI - lowI + 2 ^ 32).toNat < 2 ^ 32 by omega)
    simp only [hw, hu]
    have : wrapI64 (((r.Rand (highI - lowI + 2 ^ 32).toNat).1 : Int) + lowI) =
        ((r.Rand (highI - lowI + 2 ^ 32).toNat).1 : Int) + lowI := by
      unfold wrapI64; omega
    rw [this]
    rfl

theorem reclock_packets (state : ConfigState) (prior : Int) (cap : List PacketInfo) :
    (reclock state prior cap).map (fun q => q.packet) = cap.map (fun q => q.packet) := by
  induction cap generalizing prior with
  | nil => rfl
  | cons p rest ih => simp [reclock, ih]

theorem reclock_head (state : ConfigState) (prior : Int) (cap : List PacketInfo)
    (q : PacketInfo) (h : (reclock state prior cap).head? = some q) :
    q.arrival_time_us =
      capacityExitTime state
        (max q.packet.send_time_us (max prior state.pause_transmission_until_us))
        q.packet.size := by
  cases cap with
  | nil => simp [reclock] at h
  | cons p rest =>
    simp only [reclock, List.head?_cons, Option.some.injEq] at h
    subst h
    rfl

theorem reclock_chain (state : ConfigState) (prior : Int) (cap : List PacketInfo) :
    ∀ (i : Nat) (q0 q1 : PacketInfo), (reclock state prior cap)[i]? = some q0 →
      (reclock state prior cap)[i + 1]? = some q1 →
      q1.arrival_time_us = capacityExitTime state
        (max q1.packet.send_time_us (max q0.arrival_time_us state.pause_transmission_until_us))
        q1.packet.size := by
  induction cap generalizing prior with
  | nil => intro i q0 q1 h; simp [reclock] at h
  | cons p rest ih =>
    intro i q0 q1 h0 h1
    cases i with
    | zero =>
      simp only [reclock, List.getElem?_cons_zero, Option.some.injEq] at h0
      simp only [reclock, List.getElem?_cons_succ] at h1
      have hh : (reclock state q0.arrival_time_us rest).head? = some q1 := by
        rw [List.head?_eq_getElem?, ← h0]
        exact h1
      exact reclock_head state q0.arrival_time_us rest q1 hh
    | succ i =>
      simp only [reclock, List.getElem?_cons_succ] at h0 h1
      exact ih _ i q0 q1 h0 h1

theorem NextDeliveryTimeUs_recompute (net : SimulatedNetwork) :
    net.recomputeNextProcessTime.NextDeliveryTimeUs = net.NextDeliveryTimeUs ∧
    net.recomputeNextProcessTime.next_process_time_us_ = net.NextDeliveryTimeUs :=
  ⟨rfl, rfl⟩

/-- The member `last_capacity_link_exit_time_` after `UpdateCapacityQueue`: the exit time of
the last packet taken off the capacity link, or the value before when none was taken. -/
theorem lastExitTime_spec (boxMuller : Nat → Nat → ℚ) (state : ConfigState) (now : Int)
    (cap delay : List PacketInfo) (random : Random) (bursting : Bool) (last : Int) :
    ∃ taken : List PacketInfo,
      cap = taken ++ (promote boxMuller state now cap delay random bursting).1 ∧
      lastExitTime now cap last =
        match taken.getLast? with
        | some p => p.arrival_time_us
        | none => last := by
  induction cap generalizing delay random bursting last with
  | nil => exact ⟨[], by simp [promote], rfl⟩
  | cons p rest ih =>
    unfold promote lastExitTime
    by_cases hnow : p.arrival_time_us ≤ now
    · rw [if_pos hnow, if_pos hnow]
      have key : ∀ (taken : List PacketInfo),
          (match taken.getLast? with
            | some q => q.arrival_time_us
            | none => p.arrival_time_us) =
          (match (p :: taken).getLast? with
            | some q => q.arrival_time_us
            | none => last) := by
        intro taken
        cases taken with
        | nil => rfl
        | cons a l =>
          rw [List.getLast?_cons_cons]
          cases h : (a :: l).getLast? with
          | none => simp at h
          | some q => rfl
      by_cases hloss : (lossDecision state bursting random).1 = true
      · simp only [hloss, if_true]
        obtain ⟨taken, h1, h2⟩ := ih delay (lossDecision state bursting random).2.2
          (lossDecision state bursting random).2.1 p.arrival_time_us
        exact ⟨p :: taken, by rw [List.cons_append, ← h1], by rw [h2, key]⟩
      · simp only [hloss, Bool.false_eq_true, if_false]
        obtain ⟨taken, h1, h2⟩ := ih
          (delay ++ [PacketInfo.mk p.packet (orderedDelivery state delay (p.arrival_time_us +
            (extraDelayUs boxMuller state (lossDecision state bursting random).2.2).1))])
          (extraDelayUs boxMuller state (lossDecision state bursting random).2.2).2
          (lossDecision state bursting random).2.1 p.arrival_time_us
        exact ⟨p :: taken, by rw [List.cons_append, ← h1], by rw [h2, key]⟩
    · rw [if_neg hnow, if_neg hnow]
      exact ⟨[], rfl, rfl⟩

/-- Claim C13: `SetConfig` with a new configuration keeps the packets of the capacity queue in
order and recomputes every exit time from head to tail under the new `link_capacity_kbps` and
`packet_overhead`: every packet starts at `max(send_time_us, exit time of the packet ahead,
pause_transmission_until_us)`, where the packet ahead of the head is the last packet that left
the capacity link (its exit time is the member `last_capacity_link_exit_time_`, which
`SetConfig` leaves as it is) and the packet ahead of every other packet is the one before it
in the queue, with its recomputed exit time; and `NextDeliveryTimeUs` is the new head exit
time (or a smaller delay-link arrival). -/
theorem SetConfig_reclocks (net : SimulatedNetwork) (config : Config)
    (havg : config.avg_burst_loss_length ≠ 0) :
    ∃ net1 : SimulatedNetwork, net.SetConfig config = some net1 ∧
      net1.config_state_.config = config ∧
      net1.config_state_.pause_transmission_until_us =
        net.config_state_.pause_transmission_until_us ∧
      net1.last_capacity_link_exit_time_ = net.last_capacity_link_exit_time_ ∧
      net1.capacity_link_.map (fun q => q.packet) = net.capacity_link_.map (fun q => q.packet) ∧
      (∀ q, net1.capacity_link_.head? = some q →
        q.arrival_time_us = capacityExitTime net1.config_state_
          (max q.packet.send_time_us (max net.last_capacity_link_exit_time_
            net1.config_state_.pause_transmission_until_us))
          q.packet.size) ∧
      (∀ (i : Nat) (q0 q1 : PacketInfo), net1.capacity_link_[i]? = some q0 →
        net1.capacity_link_[i + 1]? = some q1 →
        q1.arrival_time_us = capacityExitTime net1.config_state_
          (max q1.packet.send_time_us (max q0.arrival_time_us
            net1.config_state_.pause_transmission_until_us)) q1.packet.size) ∧
      (∀ (start : Int) (size : Nat), capacityExitTime net1.config_state_ start size =
        if config.link_capacity_kbps = 0 then start
        else start + ceilDiv (((size : Int) + config.packet_overhead) * 8 * 1000)
          config.link_capacity_kbps) ∧
      (∀ q, net1.capacity_link_.head? = some q →
        net1.NextDeliveryTimeUs =
          match leastArrival net.delay_link_ with
          | none => some q.arrival_time_us
          | some d => some (min q.arrival_time_us d)) ∧
      net1.next_process_time_us_ = net1.NextDeliveryTimeUs := by
  obtain ⟨state, hst⟩ := makeConfigState_isSome config
    net.config_state_.pause_transmission_until_us havg
  obtain ⟨hcfg, hpause, -, -⟩ := makeConfigState_some hst
  refine ⟨net.install state, ?_, hcfg, hpause, rfl, ?_, ?_, ?_, ?_, ?_, rfl⟩
  · simp [SimulatedNetwork.SetConfig, hst]
  · exact reclock_packets state _ net.capacity_link_
  · intro q hq
    exact reclock_head state _ net.capacity_link_ q hq
  · exact reclock_chain state _ net.capacity_link_
  · intro start size
    show capacityExitTime state start size = _
    unfold capacityExitTime
    rw [hcfg]
  · intro q hq
    have hq1 : (reclock state net.last_capacity_link_exit_time_ net.capacity_link_).head? =
      some q := hq
    have e1 : (net.install state).capacity_link_ =
      reclock state net.last_capacity_link_exit_time_ net.capacity_link_ := rfl
    have e2 : (net.install state).delay_link_ = net.delay_link_ := rfl
    unfold SimulatedNetwork.NextDeliveryTimeUs
    rw [e1, e2, hq1]
    cases leastArrival net.delay_link_ <;> rfl

theorem reconfig_first_enqueue :
    SimulatedNetwork.runFresh noJitter reconfigConfig 1 [Call.enqueue ⟨10000, 0, 1⟩] =
      some (reconfigNetwork, []) := by
  have hc : ceilDiv 80000000 100 = 800000 := by decide
  have hr : Random.new 1 = ⟨1⟩ := by decide
  simp [SimulatedNetwork.runFresh, SimulatedNetwork.new, makeConfigState, SimulatedNetwork.run,
    SimulatedNetwork.call, SimulatedNetwork.EnqueuePacket, SimulatedNetwork.UpdateCapacityQueue,
    SimulatedNetwork.GetConfigState, SimulatedNetwork.lastCapacityExitTime, lastExitTime,
    promote, capacityExitTime, reconfigConfig, reconfigNetwork,
    SimulatedNetwork.recomputeNextProcessTime, SimulatedNetwork.NextDeliveryTimeUs, leastArrival,
    hc, hr]

/-- The two enqueues of the backlog scenario: the second packet waits behind the first. -/
theorem backlog_enqueues :
    SimulatedNetwork.runFresh noJitter reconfigConfig 1
        [Call.enqueue ⟨1000, 0, 1⟩, Call.enqueue ⟨1000, 0, 2⟩] =
      some ({ capacity_link_ := [⟨⟨1000, 0, 1⟩, 80000⟩, ⟨⟨1000, 0, 2⟩, 160000⟩]
              delay_link_ := []
              next_process_time_us_ := some 80000
              config_state_ := ⟨reconfigConfig, 0, 0, 0⟩
              random_ := ⟨1⟩
              bursting_ := false
              last_enqueue_time_us_ := 0
              last_capacity_link_exit_time_ := 0 }, []) := by
  have hc : ceilDiv 8000000 100 = 80000 := by decide
  have hr : Random.new 1 = ⟨1⟩ := by decide
  simp [SimulatedNetwork.runFresh, SimulatedNetwork.new, makeConfigState, SimulatedNetwork.run,
    SimulatedNetwork.call, SimulatedNetwork.EnqueuePacket, SimulatedNetwork.UpdateCapacityQueue,
    SimulatedNetwork.GetConfigState, SimulatedNetwork.lastCapacityExitTime, lastExitTime,
    promote, capacityExitTime, reconfigConfig,
    SimulatedNetwork.recomputeNextProcessTime, SimulatedNetwork.NextDeliveryTimeUs, leastArrival,
    hc, hr]

theorem runFresh_append (boxMuller : Nat → Nat → ℚ) (config : Config) (random_seed : Nat)
    (cs1 cs2 : List Call) (net1 net2 : SimulatedNetwork) (ds1 ds2 : List PacketDeliveryInfo)
    (h1 : SimulatedNetwork.runFresh boxMuller config random_seed cs1 = some (net1, ds1))
    (h2 : SimulatedNetwork.run boxMuller net1 cs2 = some (net2, ds2)) :
    SimulatedNetwork.runFresh boxMuller config random_seed (cs1 ++ cs2) =
      some (net2, ds1 ++ ds2) := by
  unfold SimulatedNetwork.runFresh at h1 ⊢
  cases hnew : SimulatedNetwork.new config random_seed with
  | none => simp [hnew] at h1
  | some net0 =>
    simp only [hnew, Option.some_bind] at h1 ⊢
    exact run_append boxMuller cs1 cs2 net0 net1 net2 ds1 ds2 h1 h2

/-- The backlog scenario: after the dequeue at `80000` the first packet is delivered, the
second is still in the capacity link with exit time `160000`, and the last exit time is
`80000`. -/
theorem backlog_run :
    SimulatedNetwork.runFresh noJitter reconfigConfig 1
        [Call.enqueue ⟨1000, 0, 1⟩, Call.enqueue ⟨1000, 0, 2⟩, Call.dequeue 80000] =
      some (backlogNetwork, [⟨80000, 1⟩]) := by
  have hz : ∀ (state : ConfigState) (random : Random), state.config = reconfigConfig →
      (extraDelayUs noJitter state random).1 = 0 :=
    fun state random h => extraDelayUs_zero noJitter state random (by rw [h]; rfl) (by rw [h]; rfl)
  have hr : (⟨1⟩ : Random).NextOutput.2.NextOutput.2.NextOutput.2 = ⟨3659449627584515⟩ := by
    decide
  obtain ⟨e2, -⟩ := dequeue_head noJitter
    (SimulatedNetwork.mk [⟨⟨1000, 0, 1⟩, 80000⟩, ⟨⟨1000, 0, 2⟩, 160000⟩] [] (some 80000)
      ⟨reconfigConfig, 0, 0, 0⟩ ⟨1⟩ false 0 0)
    ⟨⟨1000, 0, 1⟩, 80000⟩ [⟨⟨1000, 0, 2⟩, 160000⟩] 80000 rfl (by simp) rfl rfl (by decide) rfl rfl
    (by rw [hz _ _ rfl]; decide)
  rw [hz _ _ rfl, extraDelayUs_eq] at e2
  simp only [hr] at e2
  have hstep : SimulatedNetwork.run noJitter
      (SimulatedNetwork.mk [⟨⟨1000, 0, 1⟩, 80000⟩, ⟨⟨1000, 0, 2⟩, 160000⟩] [] (some 80000)
        ⟨reconfigConfig, 0, 0, 0⟩ ⟨1⟩ false 0 0) [Call.dequeue 80000] =
      some (backlogNetwork, [⟨80000, 1⟩]) := by
    simp only [SimulatedNetwork.run, SimulatedNetwork.call, e2, List.append_nil]
    simp [backlogNetwork, SimulatedNetwork.recomputeNextProcessTime,
      SimulatedNetwork.NextDeliveryTimeUs, leastArrival]
  exact runFresh_append noJitter reconfigConfig 1 _ _ _ _ _ _ backlog_enqueues hstep

/-- In the backlog scenario `PauseTransmissionUntil(0)` leaves the exit time of the waiting
packet at `160000`. -/
theorem backlog_pause :
    (backlogNetwork.PauseTransmissionUntil 0).capacity_link_ = [⟨⟨1000, 0, 2⟩, 160000⟩] := by
  have hc : ceilDiv 8000000 100 = 80000 := by decide
  simp [SimulatedNetwork.PauseTransmissionUntil, SimulatedNetwork.install, backlogNetwork,
    SimulatedNetwork.recomputeNextProcessTime, reclock, capacityExitTime, reconfigConfig, hc]

theorem reclocked_single (net1 : SimulatedNetwork) (config : Config) (pk : PacketInFlightInfo)
    (ahead pause t : Int)
    (hmap : net1.capacity_link_.map (fun q => q.packet) = [pk])
    (hpause : net1.config_state_.pause_transmission_until_us = pause)
    (hhead : ∀ q, net1.capacity_link_.head? = some q →
      q.arrival_time_us = capacityExitTime net1.config_state_
        (max q.packet.send_time_us (max ahead net1.config_state_.pause_transmission_until_us))
        q.packet.size)
    (hform : ∀ (start : Int) (size : Nat), capacityExitTime net1.config_state_ start size =
      if config.link_capacity_kbps = 0 then start
      else start + ceilDiv (((size : Int) + config.packet_overhead) * 8 * 1000)
        config.link_capacity_kbps)
    (hval : (if config.link_capacity_kbps = 0 then max pk.send_time_us (max ahead pause)
      else max pk.send_time_us (max ahead pause) +
        ceilDiv (((pk.size : Int) + config.packet_overhead) * 8 * 1000)
          config.link_capacity_kbps) = t) :
    net1.capacity_link_ = [⟨pk, t⟩] := by
  obtain ⟨q, hq⟩ : ∃ q, net1.capacity_link_ = [q] := by
    cases hc : net1.capacity_link_ with
    | nil => rw [hc] at hmap; simp at hmap
    | cons a l =>
      rw [hc] at hmap
      simp only [List.map_cons, List.cons.injEq, List.map_eq_nil_iff] at hmap
      exact ⟨a, by rw [hmap.2]⟩
  have hexit := hhead q (by rw [hq]; rfl)
  rw [hq] at hmap
  simp only [List.map_cons, List.map_nil, List.cons.injEq, and_true] at hmap
  rw [hform, hmap, hpause, hval] at hexit
  rw [hq]
  cases q
  simp only at hmap hexit
  rw [hmap, hexit]

/-- Witness of `SetConfig_reclocks`. Scenario 6: a 10000-byte packet sent at `0` at 100 kbps
has exit `800000`; after `SetConfig` to 1000 kbps the exit and `NextDeliveryTimeUs` are
`80000`. The backlog scenario: with the first of two 1000-byte packets delivered at `80000`,
the second keeps its exit `160000` when the same configuration is installed again, and gets
the exit `88000` under 1000 kbps: it starts when the packet ahead has left. -/
theorem SetConfig_reclocks_witness :
    (reconfigFastConfig.avg_burst_loss_length ≠ 0 ∧ reconfigConfig.avg_burst_loss_length ≠ 0) ∧
    (SimulatedNetwork.runFresh noJitter reconfigConfig 1 [Call.enqueue ⟨10000, 0, 1⟩] =
        some (reconfigNetwork, []) ∧
      reconfigNetwork.NextDeliveryTimeUs = some 800000 ∧
      ∃ net1 : SimulatedNetwork, reconfigNetwork.SetConfig reconfigFastConfig = some net1 ∧
        net1.capacity_link_ = [⟨⟨10000, 0, 1⟩, 80000⟩] ∧
        net1.NextDeliveryTimeUs = some 80000) ∧
    (SimulatedNetwork.runFresh noJitter reconfigConfig 1
        [Call.enqueue ⟨1000, 0, 1⟩, Call.enqueue ⟨1000, 0, 2⟩, Call.dequeue 80000] =
        some (backlogNetwork, [⟨80000, 1⟩]) ∧
      (∃ net2 : SimulatedNetwork, backlogNetwork.SetConfig reconfigConfig = some net2 ∧
        net2.capacity_link_ = [⟨⟨1000, 0, 2⟩, 160000⟩] ∧
        net2.NextDeliveryTimeUs = some 160000) ∧
      ∃ net3 : SimulatedNetwork, backlogNetwork.SetConfig reconfigFastConfig = some net3 ∧
        net3.capacity_link_ = [⟨⟨1000, 0, 2⟩, 88000⟩] ∧
        net3.NextDeliveryTimeUs = some 88000) := by
  have havg : reconfigFastConfig.avg_burst_loss_length ≠ 0 := by decide
  have havg0 : reconfigConfig.avg_burst_loss_length ≠ 0 := by decide
  refine ⟨⟨havg, havg0⟩, ⟨reconfig_first_enqueue, rfl, ?_⟩, ⟨backlog_run, ?_, ?_⟩⟩
  · obtain ⟨net1, h1, -, h3, -, h4, h5, -, h7, h8, -⟩ :=
      SetConfig_reclocks reconfigNetwork reconfigFastConfig havg
    have hc := reclocked_single net1 reconfigFastConfig ⟨10000, 0, 1⟩ 0 0 80000 h4 h3 h5 h7
      (by decide)
    refine ⟨net1, h1, hc, ?_⟩
    rw [h8 ⟨⟨10000, 0, 1⟩, 80000⟩ (by rw [hc]; rfl)]
    rfl
  · obtain ⟨net2, h1, -, h3, -, h4, h5, -, h7, h8, -⟩ :=
      SetConfig_reclocks backlogNetwork reconfigConfig havg0
    have hc := reclocked_single net2 reconfigConfig ⟨1000, 0, 2⟩ 80000 0 160000 h4 h3 h5 h7
      (by decide)
    refine ⟨net2, h1, hc, ?_⟩
    rw [h8 ⟨⟨1000, 0, 2⟩, 160000⟩ (by rw [hc]; rfl)]
    rfl
  · obtain ⟨net3, h1, -, h3, -, h4, h5, -, h7, h8, -⟩ :=
      SetConfig_reclocks backlogNetwork reconfigFastConfig havg
    have hc := reclocked_single net3 reconfigFastConfig ⟨1000, 0, 2⟩ 80000 0 88000 h4 h3 h5 h7
      (by decide)
    refine ⟨net3, h1, hc, ?_⟩
    rw [h8 ⟨⟨1000, 0, 2⟩, 88000⟩ (by rw [hc]; rfl)]
    rfl

theorem exitOfTail_cons (prior : Int) (p : PacketInfo) (l : List PacketInfo) :
    exitOfTail prior (p :: l) = exitOfTail p.arrival_time_us l := by
  unfold exitOfTail
  cases l with
  | nil => rfl
  | cons a t =>
    rw [List.getLast?_cons_cons]
    cases h : (a :: t).getLast? with
    | none => simp at h
    | some q => rfl

theorem reclock_append (state : ConfigState) (a b : List PacketInfo) :
    ∀ prior : Int, reclock state prior (a ++ b) =
      reclock state prior a ++ reclock state (exitOfTail prior (reclock state prior a)) b := by
  induction a with
  | nil => intro prior; rfl
  | cons p a ih =>
    intro prior
    simp only [List.cons_append, reclock]
    rw [exitOfTail_cons]
    exact congrArg _ (ih _)

theorem reclock_split (state : ConfigState) (prior : Int) (a b : List PacketInfo)
    (h : reclock state prior (a ++ b) = a ++ b) :
    reclock state prior a = a ∧ reclock state (exitOfTail prior a) b = b := by
  rw [reclock_append] at h
  have hlen : (reclock state prior a).length = a.length := reclock_length _ _ _
  obtain ⟨h1, h2⟩ := List.append_inj h hlen
  rw [h1] at h2
  exact ⟨h1, h2⟩

theorem reclock_idem (state : ConfigState) (cap : List PacketInfo) :
    ∀ prior : Int, reclock state prior (reclock state prior cap) = reclock state prior cap := by
  induction cap with
  | nil => intro prior; rfl
  | cons p rest ih =>
    intro prior
    simp only [reclock]
    rw [ih]

theorem lastExitTime_eq (boxMuller : Nat → Nat → ℚ) (state : ConfigState) (now : Int)
    (cap delay : List PacketInfo) (random : Random) (bursting : Bool) (last : Int) :
    ∃ taken : List PacketInfo,
      cap = taken ++ (promote boxMuller state now cap delay random bursting).1 ∧
      lastExitTime now cap last = exitOfTail last taken :=
  lastExitTime_spec boxMuller state now cap delay random bursting last

theorem update_clocked (boxMuller : Nat → Nat → ℚ) (net : SimulatedNetwork) (now : Int)
    (h : net.clocked) :
    reclock net.config_state_
      (lastExitTime now net.capacity_link_ net.last_capacity_link_exit_time_)
      (promote boxMuller net.config_state_ now net.capacity_link_ net.delay_link_ net.random_
        net.bursting_).1 =
      (promote boxMuller net.config_state_ now net.capacity_link_ net.delay_link_ net.random_
        net.bursting_).1 := by
  obtain ⟨taken, h1, h2⟩ := lastExitTime_eq boxMuller net.config_state_ now net.capacity_link_
    net.delay_link_ net.random_ net.bursting_ net.last_capacity_link_exit_time_
  unfold SimulatedNetwork.clocked at h
  rw [h2]
  have h3 := h
  rw [h1] at h3
  exact (reclock_split _ _ _ _ (by
    have e : taken ++ (promote boxMuller net.config_state_ now net.capacity_link_
      net.delay_link_ net.random_ net.bursting_).1 = net.capacity_link_ := h1.symm
    rw [e]; exact h)).2

theorem enqueue_clocked (boxMuller : Nat → Nat → ℚ) (net net1 : SimulatedNetwork)
    (packet : PacketInFlightInfo) (b : Bool) (hc : net.clocked)
    (h : net.EnqueuePacket boxMuller packet = some (b, net1)) : net1.clocked := by
  obtain ⟨-, e1, -, e4, e5⟩ := enqueue_result boxMuller net net1 packet b h
  have hu := update_clocked boxMuller net packet.send_time_us hc
  unfold SimulatedNetwork.clocked
  rw [e1, e4]
  rcases e5 with ⟨-, e5⟩ | ⟨-, ahead, hahead, e5⟩
  · rw [e5]; exact hu
  · rw [e5, reclock_append, hu]
    congr 1
    have ha : exitOfTail (lastExitTime packet.send_time_us net.capacity_link_
        net.last_capacity_link_exit_time_)
        (promote boxMuller net.config_state_ packet.send_time_us net.capacity_link_
          net.delay_link_ net.random_ net.bursting_).1 = ahead := by
      unfold exitOfTail
      cases hl : (promote boxMuller net.config_state_ packet.send_time_us net.capacity_link_
          net.delay_link_ net.random_ net.bursting_).1.getLast? with
      | none => rw [hl] at hahead; exact hahead.symm
      | some tail => rw [hl] at hahead; exact hahead.symm
    simp only [reclock, ha]

theorem install_clocked (net : SimulatedNetwork) (state : ConfigState) :
    (net.install state).clocked :=
  reclock_idem state net.capacity_link_ net.last_capacity_link_exit_time_

theorem install_cached (net : SimulatedNetwork) (state : ConfigState)
    (h : makeConfigState state.config state.pause_transmission_until_us = some state) :
    (net.install state).cached := h

theorem makeConfigState_cached {config : Config} {pause : Int} {state : ConfigState}
    (h : makeConfigState config pause = some state) :
    makeConfigState state.config state.pause_transmission_until_us = some state := by
  obtain ⟨h1, h2, -, -⟩ := makeConfigState_some h
  rw [h1, h2]
  exact h

theorem makeConfigState_pause (state : ConfigState) (until_us : Int)
    (h : makeConfigState state.config state.pause_transmission_until_us = some state) :
    makeConfigState state.config until_us =
      some { state with pause_transmission_until_us := until_us } := by
  unfold makeConfigState at h ⊢
  split_ifs at h ⊢ with h0 h1
  · simp only [Option.some.injEq] at h ⊢
    rw [← h]
  · simp only [Option.some.injEq] at h ⊢
    rw [← h]

theorem call_clocked (boxMuller : Nat → Nat → ℚ) (net net1 : SimulatedNetwork) (c : Call)
    (ds : List PacketDeliveryInfo) (hc : net.clocked) (hk : net.cached)
    (h : net.call boxMuller c = some (net1, ds)) : net1.clocked ∧ net1.cached := by
  cases c with
  | enqueue packet =>
    simp only [SimulatedNetwork.call, Option.map_eq_some'] at h
    obtain ⟨⟨b, n⟩, hr, he⟩ := h
    simp only [Prod.mk.injEq] at he
    obtain ⟨rfl, rfl⟩ := he
    refine ⟨enqueue_clocked boxMuller net n packet b hc hr, ?_⟩
    obtain ⟨-, e1, -⟩ := enqueue_result boxMuller net n packet b hr
    unfold SimulatedNetwork.cached
    rw [e1]
    exact hk
  | setConfig config =>
    simp only [SimulatedNetwork.call, SimulatedNetwork.SetConfig, Option.map_eq_some'] at h
    obtain ⟨n, ⟨state, hst, hn⟩, he⟩ := h
    cases he
    subst hn
    exact ⟨install_clocked net state, install_cached net state (makeConfigState_cached hst)⟩
  | updateConfig config_modifier =>
    simp only [SimulatedNetwork.call, SimulatedNetwork.UpdateConfig, SimulatedNetwork.SetConfig,
      Option.map_eq_some'] at h
    obtain ⟨n, ⟨state, hst, hn⟩, he⟩ := h
    cases he
    subst hn
    exact ⟨install_clocked net state, install_cached net state (makeConfigState_cached hst)⟩
  | pauseTransmissionUntil until_us =>
    simp only [SimulatedNetwork.call, SimulatedNetwork.PauseTransmissionUntil,
      Option.some.injEq, Prod.mk.injEq] at h
    obtain ⟨rfl, rfl⟩ := h
    refine ⟨install_clocked net _, install_cached net _ ?_⟩
    exact makeConfigState_pause net.config_state_ until_us hk
  | dequeue receive_time_us =>
    simp only [SimulatedNetwork.call, Option.some.injEq, Prod.mk.injEq] at h
    obtain ⟨rfl, rfl⟩ := h
    exact ⟨update_clocked boxMuller net receive_time_us hc, hk⟩

theorem run_clocked (boxMuller : Nat → Nat → ℚ) (calls : List Call) :
    ∀ (net net1 : SimulatedNetwork) (ds : List PacketDeliveryInfo), net.clocked → net.cached →
    SimulatedNetwork.run boxMuller net calls = some (net1, ds) → net1.clocked ∧ net1.cached := by
  induction calls with
  | nil =>
    intro net net1 ds hc hk h
    simp only [SimulatedNetwork.run, Option.some.injEq, Prod.mk.injEq] at h
    obtain ⟨rfl, -⟩ := h
    exact ⟨hc, hk⟩
  | cons c cs ih =>
    intro net net1 ds hc hk h
    unfold SimulatedNetwork.run at h
    cases hcall : net.call boxMuller c with
    | none => simp [hcall] at h
    | some r =>
      obtain ⟨netA, dsA⟩ := r
      simp only [hcall] at h
      cases hrun : SimulatedNetwork.run boxMuller netA cs with
      | none => simp [hrun] at h
      | some r2 =>
        obtain ⟨netB, dsB⟩ := r2
        simp only [hrun, Option.some.injEq, Prod.mk.injEq] at h
        obtain ⟨rfl, -⟩ := h
        obtain ⟨g1, g2⟩ := call_clocked boxMuller net netA c dsA hc hk hcall
        exact ih netA netB dsB g1 g2 hrun

/-- In every state reached from a fresh simulator the capacity link is clocked (invariants I2
and I3 of the specification): the head has the exit time computed from the last time a packet
left the link, every other packet the one computed from the exit of the packet before it; and
installing the current configuration again, or the current pause, changes no exit time. -/
theorem reachable_clocked (boxMuller : Nat → Nat → ℚ) (config : Config) (random_seed : Nat)
    (calls : List Call) (net : SimulatedNetwork) (ds : List PacketDeliveryInfo)
    (hrun : SimulatedNetwork.runFresh boxMuller config random_seed calls = some (net, ds)) :
    (∀ q, net.capacity_link_.head? = some q →
      q.arrival_time_us = capacityExitTime net.config_state_
        (max q.packet.send_time_us (max net.last_capacity_link_exit_time_
          net.config_state_.pause_transmission_until_us)) q.packet.size) ∧
    (∀ (i : Nat) (q0 q1 : PacketInfo), net.capacity_link_[i]? = some q0 →
      net.capacity_link_[i + 1]? = some q1 →
      q1.arrival_time_us = capacityExitTime net.config_state_
        (max q1.packet.send_time_us (max q0.arrival_time_us
          net.config_state_.pause_transmission_until_us)) q1.packet.size) ∧
    (∃ net1 : SimulatedNetwork, net.SetConfig net.config_state_.config = some net1 ∧
      net1.capacity_link_ = net.capacity_link_ ∧ net1.config_state_ = net.config_state_) ∧
    (net.PauseTransmissionUntil
      net.config_state_.pause_transmission_until_us).capacity_link_ = net.capacity_link_ := by
  simp only [SimulatedNetwork.runFresh, SimulatedNetwork.new, Option.bind_eq_some,
    Option.map_eq_some'] at hrun
  obtain ⟨net0, ⟨state, hst, rfl⟩, hrun⟩ := hrun
  obtain ⟨hc, hk⟩ := run_clocked boxMuller calls
    (SimulatedNetwork.mk [] [] none state (Random.new random_seed) false 0 0) net ds rfl
    (makeConfigState_cached hst) hrun
  have hc1 : reclock net.config_state_ net.last_capacity_link_exit_time_ net.capacity_link_ =
    net.capacity_link_ := hc
  refine ⟨?_, ?_, ?_, ?_⟩
  · intro q hq
    rw [← hc1] at hq
    exact reclock_head _ _ _ q hq
  · intro i q0 q1 h0 h1
    rw [← hc1] at h0 h1
    exact reclock_chain _ _ _ i q0 q1 h0 h1
  · refine ⟨net.install net.config_state_, ?_, hc1, rfl⟩
    unfold SimulatedNetwork.cached at hk
    simp only [SimulatedNetwork.SetConfig, hk, Option.map_some']
  · exact hc1

theorem promote_shape (boxMuller : Nat → Nat → ℚ) (state : ConfigState) (now : Int)
    (cap delay : List PacketInfo) (random : Random) (bursting : Bool) :
    ∃ taken added : List PacketInfo,
      cap = taken ++ (promote boxMuller state now cap delay random bursting).1 ∧
      (promote boxMuller state now cap delay random bursting).2.1 = delay ++ added ∧
      (∀ p ∈ taken, p.arrival_time_us ≤ now) ∧
      (∀ p, (promote boxMuller state now cap delay random bursting).1.head? = some p →
        now < p.arrival_time_us) ∧
      List.Sublist (added.map (fun q => q.packet)) (taken.map (fun q => q.packet)) := by
  induction cap generalizing delay random bursting with
  | nil => exact ⟨[], [], by simp [promote], by simp [promote], by simp, by simp [promote], by simp⟩
  | cons p rest ih =>
    unfold promote
    by_cases hnow : p.arrival_time_us ≤ now
    · rw [if_pos hnow]
      by_cases hloss : (lossDecision state bursting random).1 = true
      · simp only [hloss, if_true]
        obtain ⟨taken, added, h1, h2, h3, h4, h5⟩ := ih delay (lossDecision state bursting random).2.2
          (lossDecision state bursting random).2.1
        refine ⟨p :: taken, added, by rw [List.cons_append, ← h1], h2, ?_, h4, ?_⟩
        · intro q hq
          rcases List.mem_cons.1 hq with rfl | hq
          · exact hnow
          · exact h3 q hq
        · exact List.Sublist.cons _ h5
      · simp only [hloss, Bool.false_eq_true, if_false]
        obtain ⟨taken, added, h1, h2, h3, h4, h5⟩ := ih
          (delay ++ [PacketInfo.mk p.packet (orderedDelivery state delay (p.arrival_time_us +
            (extraDelayUs boxMuller state (lossDecision state bursting random).2.2).1))])
          (extraDelayUs boxMuller state (lossDecision state bursting random).2.2).2
          (lossDecision state bursting random).2.1
        refine ⟨p :: taken, PacketInfo.mk p.packet (orderedDelivery state delay (p.arrival_time_us +
            (extraDelayUs boxMuller state (lossDecision state bursting random).2.2).1)) :: added,
          by rw [List.cons_append, ← h1], ?_, ?_, h4, ?_⟩
        · rw [h2, List.append_assoc]; rfl
        · intro q hq
          rcases List.mem_cons.1 hq with rfl | hq
          · exact hnow
          · exact h3 q hq
        · simp only [List.map_cons]
          exact List.Sublist.cons₂ _ h5
    · rw [if_neg hnow]
      refine ⟨[], [], rfl, by simp, by simp, ?_, by simp⟩
      intro q hq
      simp only [List.head?_cons, Option.some.injEq] at hq
      subst hq
      exact not_le.1 hnow

theorem leastArrival_le (delay : List PacketInfo) :
    ∀ d, leastArrival delay = some d → ∀ q ∈ delay, d ≤ q.arrival_time_us := by
  induction delay with
  | nil => intro d h; simp [leastArrival] at h
  | cons p rest ih =>
    intro d h q hq
    unfold leastArrival at h
    cases hr : leastArrival rest with
    | none =>
      rw [hr] at h
      simp only [Option.some.injEq] at h
      cases rest with
      | nil =>
        simp only [List.mem_singleton] at hq
        subst hq
        omega
      | cons a l =>
        unfold leastArrival at hr
        cases hl : leastArrival l <;> rw [hl] at hr <;> simp at hr
    | some a =>
      rw [hr] at h
      simp only [Option.some.injEq] at h
      rcases List.mem_cons.1 hq with rfl | hq
      · omega
      · have := ih a hr q hq
        omega

theorem leastArrival_none (delay : List PacketInfo) (h : leastArrival delay = none) :
    delay = [] := by
  cases delay with
  | nil => rfl
  | cons p rest =>
    unfold leastArrival at h
    cases hl : leastArrival rest <;> rw [hl] at h <;> simp at h

theorem NextDeliveryTimeUs_bounds (net : SimulatedNetwork) (t : Int)
    (h : net.NextDeliveryTimeUs = some t) :
    (∀ p, net.capacity_link_.head? = some p → t ≤ p.arrival_time_us) ∧
    (∀ q ∈ net.delay_link_, t ≤ q.arrival_time_us) := by
  unfold SimulatedNetwork.NextDeliveryTimeUs at h
  cases hc : net.capacity_link_.head? with
  | none =>
    cases hd : leastArrival net.delay_link_ with
    | none => rw [hc, hd] at h; simp at h
    | some d =>
      rw [hc, hd] at h
      simp only [Option.some.injEq] at h
      subst h
      exact ⟨by simp, leastArrival_le _ _ hd⟩
  | some p =>
    cases hd : leastArrival net.delay_link_ with
    | none =>
      rw [hc, hd] at h
      simp only [Option.some.injEq] at h
      have := leastArrival_none _ hd
      refine ⟨?_, by rw [this]; simp⟩
      intro p1 hp1
      simp only [Option.some.injEq] at hp1
      subst hp1
      omega
    | some d =>
      rw [hc, hd] at h
      simp only [Option.some.injEq] at h
      have hl := leastArrival_le _ _ hd
      refine ⟨?_, ?_⟩
      · intro p1 hp1
        simp only [Option.some.injEq] at hp1
        subst hp1
        omega
      · intro q hq
        have := hl q hq
        omega

theorem dequeue_delivers (boxMuller : Nat → Nat → ℚ) (net : SimulatedNetwork) (now : Int)
    (q : PacketInfo) (hq : q ∈ net.delay_link_) (hnow : q.arrival_time_us ≤ now) :
    PacketDeliveryInfo.ofSource q.packet q.arrival_time_us ∈
      (net.DequeueDeliverablePackets boxMuller now).1 := by
  obtain ⟨taken, added, -, h2, -⟩ := promote_shape boxMuller net.config_state_ now
    net.capacity_link_ net.delay_link_ net.random_ net.bursting_
  simp only [SimulatedNetwork.DequeueDeliverablePackets, SimulatedNetwork.UpdateCapacityQueue,
    SimulatedNetwork.GetConfigState, List.mem_map]
  refine ⟨q, ?_, rfl⟩
  rw [(List.perm_insertionSort _ _).mem_iff, List.mem_filter, h2]
  exact ⟨List.mem_append_left _ hq, by simpa using hnow⟩

theorem dequeue_early_empty (boxMuller : Nat → Nat → ℚ) (net : SimulatedNetwork) (now : Int)
    (hc : ∀ p, net.capacity_link_.head? = some p → now < p.arrival_time_us)
    (hd : ∀ q ∈ net.delay_link_, now < q.arrival_time_us) :
    (net.DequeueDeliverablePackets boxMuller now).1 = [] := by
  have hp := promote_nothing boxMuller net.config_state_ now net.capacity_link_ net.delay_link_
    net.random_ net.bursting_ hc
  simp only [SimulatedNetwork.DequeueDeliverablePackets, SimulatedNetwork.UpdateCapacityQueue,
    SimulatedNetwork.GetConfigState, hp]
  have : net.delay_link_.filter (fun p => decide (p.arrival_time_us ≤ now)) = [] := by
    rw [List.filter_eq_nil_iff]
    intro q hq
    have := hd q hq
    simp only [decide_eq_true_eq, not_le]
    exact this
  rw [this]
  rfl

theorem dequeue_head_no_loss (boxMuller : Nat → Nat → ℚ) (net : SimulatedNetwork) (now : Int)
    (p : PacketInfo) (rest : List PacketInfo) (hcap : net.capacity_link_ = p :: rest)
    (hdel : net.delay_link_ = []) (hb : net.bursting_ = false) (hnow : p.arrival_time_us ≤ now)
    (hl : net.config_state_.config.loss_percent = 0)
    (hp : net.config_state_.prob_start_bursting = 0)
    (hd : net.config_state_.config.queue_delay_ms = 0)
    (hs : net.config_state_.config.delay_standard_deviation_ms = 0) :
    PacketDeliveryInfo.ofSource p.packet p.arrival_time_us ∈
      (net.DequeueDeliverablePackets boxMuller now).1 := by
  have h1 := lossDecision_no_loss net.config_state_ net.random_ hl hp
  have h2 := extraDelayUs_zero boxMuller net.config_state_
    (lossDecision net.config_state_ false net.random_).2.2 hd hs
  have hod : orderedDelivery net.config_state_ [] (p.arrival_time_us + 0) = p.arrival_time_us := by
    unfold orderedDelivery
    split_ifs <;> simp [greatestArrival]
  obtain ⟨taken, added, -, h3, -⟩ := promote_shape boxMuller net.config_state_ now rest
    ([] ++ [PacketInfo.mk p.packet p.arrival_time_us])
    (extraDelayUs boxMuller net.config_state_
      (lossDecision net.config_state_ false net.random_).2.2).2
    (lossDecision net.config_state_ false net.random_).2.1
  have hprom : (promote boxMuller net.config_state_ now net.capacity_link_ net.delay_link_
      net.random_ net.bursting_).2.1 = [PacketInfo.mk p.packet p.arrival_time_us] ++ added := by
    rw [hcap, hdel, hb]
    unfold promote
    rw [if_pos hnow]
    simp only [h1.1, Bool.false_eq_true, if_false, h2, hod]
    exact h3
  simp only [SimulatedNetwork.DequeueDeliverablePackets, SimulatedNetwork.UpdateCapacityQueue,
    SimulatedNetwork.GetConfigState, List.mem_map]
  refine ⟨PacketInfo.mk p.packet p.arrival_time_us, ?_, rfl⟩
  rw [(List.perm_insertionSort _ _).mem_iff, List.mem_filter, hprom]
  exact ⟨by simp, by simpa using hnow⟩

/-- Claim C12 as amended: if `NextDeliveryTimeUs()` holds `t`, then
`DequeueDeliverablePackets(t - 1)` returns nothing; `DequeueDeliverablePackets(t)` returns at
least one packet when `t` is the arrival time of a packet in the delay queue, and also when
the delay queue is empty, the loss model is in state Normal and the configuration has no loss
and no extra delay (then `t` is the exit time of the head of the capacity queue, which is
promoted and delivered at `t`). -/
theorem next_delivery_oracle (boxMuller : Nat → Nat → ℚ) (net : SimulatedNetwork) (t : Int)
    (h : net.NextDeliveryTimeUs = some t) :
    (net.DequeueDeliverablePackets boxMuller (t - 1)).1 = [] ∧
    ((∃ q ∈ net.delay_link_, q.arrival_time_us = t) →
      (net.DequeueDeliverablePackets boxMuller t).1 ≠ []) ∧
    (net.delay_link_ = [] → net.bursting_ = false →
      net.config_state_.config.loss_percent = 0 → net.config_state_.prob_start_bursting = 0 →
      net.config_state_.config.queue_delay_ms = 0 →
      net.config_state_.config.delay_standard_deviation_ms = 0 →
      (net.DequeueDeliverablePackets boxMuller t).1 ≠ []) := by
  obtain ⟨hc, hd⟩ := NextDeliveryTimeUs_bounds net t h
  refine ⟨?_, ?_, ?_⟩
  · apply dequeue_early_empty
    · intro p hp
      have := hc p hp
      omega
    · intro q hq
      have := hd q hq
      omega
  · rintro ⟨q, hq, rfl⟩
    exact List.ne_nil_of_mem (dequeue_delivers boxMuller net _ q hq le_rfl)
  · intro hdel hb hl hp hqd hs
    cases hcap : net.capacity_link_ with
    | nil =>
      unfold SimulatedNetwork.NextDeliveryTimeUs at h
      rw [hcap, hdel] at h
      simp [leastArrival] at h
    | cons p rest =>
      have ht : p.arrival_time_us = t := by
        unfold SimulatedNetwork.NextDeliveryTimeUs at h
        rw [hcap, hdel] at h
        simpa [leastArrival] using h
      exact List.ne_nil_of_mem
        (dequeue_head_no_loss boxMuller net t p rest hcap hdel hb (le_of_eq ht) hl hp hqd hs)

theorem delay_first_enqueue :
    SimulatedNetwork.runFresh noJitter delayConfig 1 [Call.enqueue ⟨1000, 0, 1⟩] =
      some (delayNetwork, []) := by
  have hr : Random.new 1 = ⟨1⟩ := by decide
  simp [SimulatedNetwork.runFresh, SimulatedNetwork.new, makeConfigState, SimulatedNetwork.run,
    SimulatedNetwork.call, SimulatedNetwork.EnqueuePacket, SimulatedNetwork.UpdateCapacityQueue,
    SimulatedNetwork.GetConfigState, SimulatedNetwork.lastCapacityExitTime, lastExitTime,
    promote, capacityExitTime, delayConfig, delayNetwork,
    SimulatedNetwork.recomputeNextProcessTime, SimulatedNetwork.NextDeliveryTimeUs, leastArrival,
    hr]

theorem extraDelayUs_no_jitter (boxMuller : Nat → Nat → ℚ) (state : ConfigState)
    (random : Random) (hs : state.config.delay_standard_deviation_ms = 0) :
    (extraDelayUs boxMuller state random).1 = max 0 (state.config.queue_delay_ms * 1000) := by
  simp [extraDelayUs, Random.Gaussian, hs]

theorem dequeue_single_delayed (boxMuller : Nat → Nat → ℚ) (net : SimulatedNetwork)
    (p : PacketInfo) (now : Int) (hcap : net.capacity_link_ = [p]) (hdel : net.delay_link_ = [])
    (hb : net.bursting_ = false) (hnow : p.arrival_time_us ≤ now)
    (hl : net.config_state_.config.loss_percent = 0)
    (hp : net.config_state_.prob_start_bursting = 0)
    (hs : net.config_state_.config.delay_standard_deviation_ms = 0) :
    (net.DequeueDeliverablePackets boxMuller now).1 =
      if p.arrival_time_us + max 0 (net.config_state_.config.queue_delay_ms * 1000) ≤ now then
        [PacketDeliveryInfo.ofSource p.packet
          (p.arrival_time_us + max 0 (net.config_state_.config.queue_delay_ms * 1000))]
      else [] := by
  have h1 := lossDecision_no_loss net.config_state_ net.random_ hl hp
  have h2 := extraDelayUs_no_jitter boxMuller net.config_state_
    (lossDecision net.config_state_ false net.random_).2.2 hs
  have hod : ∀ d : Int, orderedDelivery net.config_state_ [] d = d := by
    intro d
    unfold orderedDelivery
    split_ifs <;> simp [greatestArrival]
  have hprom : (promote boxMuller net.config_state_ now net.capacity_link_ net.delay_link_
      net.random_ net.bursting_).2.1 = [PacketInfo.mk p.packet
        (p.arrival_time_us + max 0 (net.config_state_.config.queue_delay_ms * 1000))] := by
    rw [hcap, hdel, hb]
    simp only [promote, if_pos hnow, h1.1, Bool.false_eq_true, if_false, h2, hod,
      List.nil_append]
  simp only [SimulatedNetwork.DequeueDeliverablePackets, SimulatedNetwork.UpdateCapacityQueue,
    SimulatedNetwork.GetConfigState, hprom]
  by_cases hle : p.arrival_time_us + max 0 (net.config_state_.config.queue_delay_ms * 1000) ≤ now
  · simp [hle]
  · simp [hle]

theorem delay_dequeue_at_zero :
    (delayNetwork.DequeueDeliverablePackets noJitter 0).1 = [] := by
  rw [dequeue_single_delayed noJitter delayNetwork ⟨⟨1000, 0, 1⟩, 0⟩ 0 rfl rfl rfl (le_refl 0)
    rfl rfl rfl]
  decide

/-- Claim C12 as stated fails: with infinite capacity and `queue_delay_ms = 10`, after one
packet sent at `0` the next delivery time is `0`, but `DequeueDeliverablePackets(0)` returns
nothing, because the packet promoted at `0` is scheduled for `10000`. -/
theorem next_delivery_oracle_counterexample :
    SimulatedNetwork.runFresh noJitter delayConfig 1 [Call.enqueue ⟨1000, 0, 1⟩] =
      some (delayNetwork, []) ∧
    delayNetwork.NextDeliveryTimeUs = some 0 ∧
    (delayNetwork.DequeueDeliverablePackets noJitter 0).1 = [] :=
  ⟨delay_first_enqueue, rfl, delay_dequeue_at_zero⟩

/-- Witness of `next_delivery_oracle`: the queue-overflow simulator, whose next delivery
time is `80000`. -/
theorem next_delivery_oracle_witness :
    overflowNetwork.NextDeliveryTimeUs = some 80000 ∧
    (overflowNetwork.DequeueDeliverablePackets noJitter (80000 - 1)).1 = [] ∧
    (overflowNetwork.DequeueDeliverablePackets noJitter 80000).1 ≠ [] :=
  have h := next_delivery_oracle noJitter overflowNetwork 80000 rfl
  ⟨rfl, h.1, h.2.2 rfl rfl rfl rfl rfl rfl⟩

/-- Claim C14: `SetConfig`, `UpdateConfig` and `PauseTransmissionUntil` leave the delay queue
as it is, so its `(packet_id, arrival_time_us)` pairs are unchanged, and a packet that was in
the delay queue is afterwards delivered with its old arrival time as receive time by any
`DequeueDeliverablePackets` call whose time has reached it. -/
theorem reconfiguration_keeps_delay_link (boxMuller : Nat → Nat → ℚ) (net : SimulatedNetwork)
    (config : Config) (config_modifier : Config → Config) (until_us : Int)
    (h1 : config.avg_burst_loss_length ≠ 0)
    (h2 : (config_modifier net.config_state_.config).avg_burst_loss_length ≠ 0) :
    ∃ net1 net2 : SimulatedNetwork,
      net.SetConfig config = some net1 ∧ net.UpdateConfig config_modifier = some net2 ∧
      net1.delay_link_ = net.delay_link_ ∧ net2.delay_link_ = net.delay_link_ ∧
      (net.PauseTransmissionUntil until_us).delay_link_ = net.delay_link_ ∧
      ∀ net3 : SimulatedNetwork,
        net3 = net1 ∨ net3 = net2 ∨ net3 = net.PauseTransmissionUntil until_us →
        net3.delay_link_.map (fun q => (q.packet.packet_id, q.arrival_time_us)) =
          net.delay_link_.map (fun q => (q.packet.packet_id, q.arrival_time_us)) ∧
        ∀ q ∈ net.delay_link_, ∀ now : Int, q.arrival_time_us ≤ now →
          (⟨q.arrival_time_us, q.packet.packet_id⟩ : PacketDeliveryInfo) ∈
            (net3.DequeueDeliverablePackets boxMuller now).1 := by
  obtain ⟨s1, hs1⟩ := makeConfigState_isSome config
    net.config_state_.pause_transmission_until_us h1
  obtain ⟨s2, hs2⟩ := makeConfigState_isSome (config_modifier net.config_state_.config)
    net.config_state_.pause_transmission_until_us h2
  have key : ∀ net3 : SimulatedNetwork, net3.delay_link_ = net.delay_link_ →
      net3.delay_link_.map (fun q => (q.packet.packet_id, q.arrival_time_us)) =
        net.delay_link_.map (fun q => (q.packet.packet_id, q.arrival_time_us)) ∧
      ∀ q ∈ net.delay_link_, ∀ now : Int, q.arrival_time_us ≤ now →
        (⟨q.arrival_time_us, q.packet.packet_id⟩ : PacketDeliveryInfo) ∈
          (net3.DequeueDeliverablePackets boxMuller now).1 := by
    intro net3 h3
    refine ⟨by rw [h3], ?_⟩
    intro q hq now hnow
    exact dequeue_delivers boxMuller net3 now q (by rw [h3]; exact hq) hnow
  refine ⟨net.install s1, net.install s2, by simp [SimulatedNetwork.SetConfig, hs1],
    by simp [SimulatedNetwork.UpdateConfig, SimulatedNetwork.SetConfig, hs2], rfl, rfl, rfl, ?_⟩
  intro net3 h3
  rcases h3 with rfl | rfl | rfl <;> exact key _ rfl

theorem greatestArrival_ge (delay : List PacketInfo) :
    ∀ g, greatestArrival delay = some g → ∀ q ∈ delay, q.arrival_time_us ≤ g := by
  induction delay with
  | nil => intro g h; simp [greatestArrival] at h
  | cons p rest ih =>
    intro g h q hq
    unfold greatestArrival at h
    cases hr : greatestArrival rest with
    | none =>
      rw [hr] at h
      simp only [Option.some.injEq] at h
      cases rest with
      | nil =>
        simp only [List.mem_singleton] at hq
        subst hq
        omega
      | cons a l =>
        unfold greatestArrival at hr
        cases hl : greatestArrival l <;> rw [hl] at hr <;> simp at hr
    | some a =>
      rw [hr] at h
      simp only [Option.some.injEq] at h
      rcases List.mem_cons.1 hq with rfl | hq
      · omega
      · have := ih a hr q hq
        omega

theorem greatestArrival_none (delay : List PacketInfo) (h : greatestArrival delay = none) :
    delay = [] := by
  cases delay with
  | nil => rfl
  | cons p rest =>
    unfold greatestArrival at h
    cases hl : greatestArrival rest <;> rw [hl] at h <;> simp at h

theorem orderedDelivery_ge_all (state : ConfigState) (delay : List PacketInfo) (delivery : Int)
    (hord : state.config.allow_reordering = false) :
    ∀ q ∈ delay, q.arrival_time_us ≤ orderedDelivery state delay delivery := by
  intro q hq
  unfold orderedDelivery
  rw [hord]
  simp only [Bool.false_eq_true, if_false]
  cases hg : greatestArrival delay with
  | none =>
    rw [greatestArrival_none delay hg] at hq
    simp at hq
  | some g =>
    have := greatestArrival_ge delay g hg q hq
    simp only
    omega

theorem promote_sorted (boxMuller : Nat → Nat → ℚ) (state : ConfigState) (now : Int)
    (hord : state.config.allow_reordering = false)
    (cap delay : List PacketInfo) (random : Random) (bursting : Bool)
    (hd : delay.Pairwise PacketInfo.arrivesBefore) :
    (promote boxMuller state now cap delay random bursting).2.1.Pairwise
      PacketInfo.arrivesBefore := by
  induction cap generalizing delay random bursting with
  | nil => simpa [promote] using hd
  | cons p rest ih =>
    unfold promote
    by_cases hnow : p.arrival_time_us ≤ now
    · rw [if_pos hnow]
      by_cases hloss : (lossDecision state bursting random).1 = true
      · simp only [hloss, if_true]
        exact ih delay _ _ hd
      · simp only [hloss, Bool.false_eq_true, if_false]
        apply ih
        rw [List.pairwise_append]
        refine ⟨hd, List.pairwise_singleton _ _, ?_⟩
        intro a ha b hb
        rw [List.mem_singleton] at hb
        subst hb
        exact orderedDelivery_ge_all state delay _ hord a ha
    · rw [if_neg hnow]
      exact hd

theorem filter_split_of_sorted (now : Int) (delay : List PacketInfo)
    (hd : delay.Pairwise PacketInfo.arrivesBefore) :
    delay.filter (fun p => decide (p.arrival_time_us ≤ now)) ++
      delay.filter (fun p => !decide (p.arrival_time_us ≤ now)) = delay := by
  induction delay with
  | nil => rfl
  | cons p rest ih =>
    rw [List.pairwise_cons] at hd
    by_cases hp : p.arrival_time_us ≤ now
    · simp only [List.filter_cons, hp, decide_True, if_true, Bool.not_true, Bool.false_eq_true,
        if_false, List.cons_append]
      rw [ih hd.2]
    · have hrest : rest.filter (fun q => decide (q.arrival_time_us ≤ now)) = [] := by
        rw [List.filter_eq_nil_iff]
        intro q hq
        have : p.arrival_time_us ≤ q.arrival_time_us := hd.1 q hq
        simp only [decide_eq_true_eq, not_le]
        omega
      have hrest2 : rest.filter (fun q => !decide (q.arrival_time_us ≤ now)) = rest := by
        rw [List.filter_eq_self]
        intro q hq
        have : p.arrival_time_us ≤ q.arrival_time_us := hd.1 q hq
        simp only [Bool.not_eq_true', decide_eq_false_iff_not, not_le]
        omega
      simp only [List.filter_cons, hp, decide_False, Bool.false_eq_true, if_false, Bool.not_false,
        if_true, hrest, hrest2, List.nil_append]

theorem dequeue_sorted_shape (boxMuller : Nat → Nat → ℚ) (net : SimulatedNetwork) (now : Int)
    (hord : net.config_state_.config.allow_reordering = false)
    (hd : net.delay_link_.Pairwise PacketInfo.arrivesBefore) :
    ∃ ready taken : List PacketInfo,
      (net.DequeueDeliverablePackets boxMuller now).1 =
        ready.map (fun p => PacketDeliveryInfo.ofSource p.packet p.arrival_time_us) ∧
      (promote boxMuller net.config_state_ now net.capacity_link_ net.delay_link_ net.random_
        net.bursting_).2.1 = ready ++ (net.DequeueDeliverablePackets boxMuller now).2.delay_link_ ∧
      net.capacity_link_ = taken ++ (net.DequeueDeliverablePackets boxMuller now).2.capacity_link_ ∧
      (∀ q ∈ ready, q.arrival_time_us ≤ now) ∧
      (∀ q ∈ (net.DequeueDeliverablePackets boxMuller now).2.delay_link_,
        now < q.arrival_time_us) ∧
      (∀ p, (net.DequeueDeliverablePackets boxMuller now).2.capacity_link_.head? = some p →
        now < p.arrival_time_us) ∧
      ready.Pairwise PacketInfo.arrivesBefore ∧
      (net.DequeueDeliverablePackets boxMuller now).2.delay_link_.Pairwise
        PacketInfo.arrivesBefore ∧
      (net.DequeueDeliverablePackets boxMuller now).2.config_state_ = net.config_state_ ∧
      List.Sublist
        (ready.map (fun q => q.packet) ++ (net.DequeueDeliverablePackets boxMuller now).2.inFlight)
        net.inFlight := by
  obtain ⟨taken, added, h1, h2, h3, h4, h5⟩ := promote_shape boxMuller net.config_state_ now
    net.capacity_link_ net.delay_link_ net.random_ net.bursting_
  have hs := promote_sorted boxMuller net.config_state_ now hord net.capacity_link_
    net.delay_link_ net.random_ net.bursting_ hd
  have hsplit := filter_split_of_sorted now _ hs
  have hready : ((promote boxMuller net.config_state_ now net.capacity_link_ net.delay_link_
      net.random_ net.bursting_).2.1.filter
        (fun p => decide (p.arrival_time_us ≤ now))).Pairwise PacketInfo.arrivesBefore :=
    List.Pairwise.filter _ hs
  have hsort : ((promote boxMuller net.config_state_ now net.capacity_link_ net.delay_link_
      net.random_ net.bursting_).2.1.filter
        (fun p => decide (p.arrival_time_us ≤ now))).insertionSort
          (fun a b => a.arrival_time_us ≤ b.arrival_time_us) =
      (promote boxMuller net.config_state_ now net.capacity_link_ net.delay_link_
        net.random_ net.bursting_).2.1.filter (fun p => decide (p.arrival_time_us ≤ now)) :=
    List.Sorted.insertionSort_eq hready
  refine ⟨(promote boxMuller net.config_state_ now net.capacity_link_ net.delay_link_
      net.random_ net.bursting_).2.1.filter (fun p => decide (p.arrival_time_us ≤ now)),
    taken, ?_, hsplit.symm, h1, ?_, ?_, h4, hready, List.Pairwise.filter _ hs, rfl, ?_⟩
  · simp only [SimulatedNetwork.DequeueDeliverablePackets, SimulatedNetwork.UpdateCapacityQueue,
      SimulatedNetwork.GetConfigState]
    rw [hsort]
  · intro q hq
    simpa using (List.mem_filter.1 hq).2
  · intro q hq
    have hq1 : q ∈ (promote boxMuller net.config_state_ now net.capacity_link_ net.delay_link_
      net.random_ net.bursting_).2.1.filter (fun p => !decide (p.arrival_time_us ≤ now)) := hq
    simpa using (List.mem_filter.1 hq1).2
  · have e : ∀ (ready rest cap1 : List PacketInfo),
        ready ++ rest = net.delay_link_ ++ added → net.capacity_link_ = taken ++ cap1 →
        List.Sublist (ready.map (fun q => q.packet) ++
          (rest.map (fun q => q.packet) ++ cap1.map (fun q => q.packet)))
          (net.delay_link_.map (fun q => q.packet) ++
            net.capacity_link_.map (fun q => q.packet)) := by
      intro ready rest cap1 e1 e2
      rw [← List.append_assoc, ← List.map_append, e1, e2, List.map_append, List.map_append,
        List.append_assoc]
      exact List.Sublist.append_left (List.Sublist.append_right h5 _) _
    exact e _ _ _ (hsplit.trans h2) h1

theorem install_ordered (net : SimulatedNetwork) (state : ConfigState)
    (hs : state.config.allow_reordering = false) (hI : net.ordered) :
    (net.install state).ordered ∧ (net.install state).inFlight = net.inFlight := by
  refine ⟨⟨hs, hI.2⟩, ?_⟩
  show net.delay_link_.map (fun q => q.packet) ++
    (reclock state net.last_capacity_link_exit_time_ net.capacity_link_).map
      (fun q => q.packet) = _
  rw [reclock_packets]
  rfl

theorem call_fifo (boxMuller : Nat → Nat → ℚ) (net net1 : SimulatedNetwork) (c : Call)
    (ds : List PacketDeliveryInfo) (hI : net.ordered) (hc : c.keepsOrdering)
    (h : net.call boxMuller c = some (net1, ds)) :
    net1.ordered ∧
    ∃ P : List PacketInFlightInfo,
      ds.map (fun d => d.packet_id) = P.map (fun p => p.packet_id) ∧
      List.Sublist (P ++ net1.inFlight) (net.inFlight ++ enqueuedPackets [c]) := by
  cases c with
  | enqueue packet =>
    simp only [SimulatedNetwork.call, Option.map_eq_some'] at h
    obtain ⟨⟨b, n1⟩, hr, he⟩ := h
    simp only [Prod.mk.injEq] at he
    obtain ⟨rfl, rfl⟩ := he
    obtain ⟨-, e1, e2, -, e3⟩ := enqueue_result boxMuller net n1 packet b hr
    obtain ⟨taken, added, h1, h2, -, -, h5⟩ := promote_shape boxMuller net.config_state_
      packet.send_time_us net.capacity_link_ net.delay_link_ net.random_ net.bursting_
    have hs := promote_sorted boxMuller net.config_state_ packet.send_time_us hI.1
      net.capacity_link_ net.delay_link_ net.random_ net.bursting_ hI.2
    refine ⟨⟨by rw [e1]; exact hI.1, by rw [e2]; exact hs⟩, [], rfl, ?_⟩
    have hsub : List.Sublist
        ((net.delay_link_ ++ added).map (fun q => q.packet) ++
          (promote boxMuller net.config_state_ packet.send_time_us net.capacity_link_
            net.delay_link_ net.random_ net.bursting_).1.map (fun q => q.packet))
        net.inFlight := by
      unfold SimulatedNetwork.inFlight
      conv_rhs => rw [h1]
      rw [List.map_append, List.map_append, List.append_assoc]
      exact List.Sublist.append_left (List.Sublist.append_right h5 _) _
    simp only [List.nil_append, enqueuedPackets]
    unfold SimulatedNetwork.inFlight at hsub ⊢
    rcases e3 with ⟨-, e3⟩ | ⟨-, ahead, -, e3⟩
    · rw [e2, e3, h2]
      exact List.Sublist.trans hsub (List.sublist_append_left _ _)
    · rw [e2, e3, h2]
      have := List.Sublist.append_right hsub [packet]
      simpa [List.map_append, List.append_assoc] using this
  | setConfig config =>
    simp only [SimulatedNetwork.call, SimulatedNetwork.SetConfig, Option.map_eq_some'] at h
    obtain ⟨n, ⟨state, hst, hn⟩, he⟩ := h
    cases he
    subst hn
    obtain ⟨g1, g2⟩ := install_ordered net state
      (by rw [(makeConfigState_some hst).1]; exact hc) hI
    exact ⟨g1, [], rfl, by simp [enqueuedPackets, g2]⟩
  | updateConfig config_modifier =>
    simp only [SimulatedNetwork.call, SimulatedNetwork.UpdateConfig, SimulatedNetwork.SetConfig,
      Option.map_eq_some'] at h
    obtain ⟨n, ⟨state, hst, hn⟩, he⟩ := h
    cases he
    subst hn
    obtain ⟨g1, g2⟩ := install_ordered net state
      (by rw [(makeConfigState_some hst).1]; exact hc _ hI.1) hI
    exact ⟨g1, [], rfl, by simp [enqueuedPackets, g2]⟩
  | pauseTransmissionUntil until_us =>
    simp only [SimulatedNetwork.call, SimulatedNetwork.PauseTransmissionUntil,
      Option.some.injEq, Prod.mk.injEq] at h
    obtain ⟨rfl, rfl⟩ := h
    obtain ⟨g1, g2⟩ := install_ordered net
      { net.config_state_ with pause_transmission_until_us := until_us } hI.1 hI
    exact ⟨g1, [], rfl, by simp [enqueuedPackets, g2]⟩
  | dequeue receive_time_us =>
    simp only [SimulatedNetwork.call, Option.some.injEq, Prod.mk.injEq] at h
    obtain ⟨rfl, rfl⟩ := h
    obtain ⟨ready, taken, k1, -, -, -, -, -, -, k8, k9, k11⟩ :=
      dequeue_sorted_shape boxMuller net receive_time_us hI.1 hI.2
    refine ⟨⟨by rw [k9]; exact hI.1, k8⟩, ready.map (fun q => q.packet), ?_, ?_⟩
    · rw [k1, List.map_map, List.map_map]
      rfl
    · simp only [enqueuedPackets, List.append_nil]
      exact k11

theorem run_fifo (boxMuller : Nat → Nat → ℚ) (calls : List Call) :
    ∀ (net net1 : SimulatedNetwork) (ds : List PacketDeliveryInfo), net.ordered →
    (∀ c ∈ calls, c.keepsOrdering) →
    SimulatedNetwork.run boxMuller net calls = some (net1, ds) →
    ∃ P : List PacketInFlightInfo,
      ds.map (fun d => d.packet_id) = P.map (fun p => p.packet_id) ∧
      List.Sublist (P ++ net1.inFlight) (net.inFlight ++ enqueuedPackets calls) := by
  induction calls with
  | nil =>
    intro net net1 ds _ _ h
    simp only [SimulatedNetwork.run, Option.some.injEq, Prod.mk.injEq] at h
    obtain ⟨rfl, rfl⟩ := h
    exact ⟨[], rfl, by simp [enqueuedPackets]⟩
  | cons c cs ih =>
    intro net net1 ds hI hcalls h
    unfold SimulatedNetwork.run at h
    cases hcall : net.call boxMuller c with
    | none => simp [hcall] at h
    | some r =>
      obtain ⟨netA, dsA⟩ := r
      simp only [hcall] at h
      cases hrun : SimulatedNetwork.run boxMuller netA cs with
      | none => simp [hrun] at h
      | some r2 =>
        obtain ⟨netB, dsB⟩ := r2
        simp only [hrun, Option.some.injEq, Prod.mk.injEq] at h
        obtain ⟨rfl, rfl⟩ := h
        obtain ⟨g1, P, g2, g3⟩ := call_fifo boxMuller net netA c dsA hI
          (hcalls c (List.mem_cons_self _ _)) hcall
        obtain ⟨Q, i2, i3⟩ := ih netA netB dsB g1
          (fun c1 hc1 => hcalls c1 (List.mem_cons_of_mem _ hc1)) hrun
        refine ⟨P ++ Q, by rw [List.map_append, List.map_append, g2, i2], ?_⟩
        rw [enqueuedPackets_cons, ← List.append_assoc, List.append_assoc P Q]
        exact List.Sublist.trans (List.Sublist.append_left i3 P)
          (by rw [← List.append_assoc]; exact List.Sublist.append_right g3 _)

theorem suffix_above (now : Int) (cap : List PacketInfo)
    (hs : cap.Pairwise PacketInfo.arrivesBefore)
    (hh : ∀ p, cap.head? = some p → now < p.arrival_time_us) :
    ∀ q ∈ cap, now < q.arrival_time_us := by
  cases cap with
  | nil => simp
  | cons p rest =>
    have hp := hh p rfl
    rw [List.pairwise_cons] at hs
    intro q hq
    rcases List.mem_cons.1 hq with rfl | hq
    · exact hp
    · have : p.arrival_time_us ≤ q.arrival_time_us := hs.1 q hq
      omega

theorem le_getLast_of_sorted (cap : List PacketInfo)
    (hs : cap.Pairwise PacketInfo.arrivesBefore) (tail : PacketInfo)
    (ht : cap.getLast? = some tail) : ∀ q ∈ cap, q.arrival_time_us ≤ tail.arrival_time_us := by
  intro q hq
  obtain ⟨front, rfl⟩ : ∃ front, cap = front ++ [tail] := List.getLast?_eq_some_iff.1 ht
  rcases List.mem_append.1 hq with hq | hq
  · exact (List.pairwise_append.1 hs).2.2 q hq tail (List.mem_singleton_self _)
  · rw [List.mem_singleton] at hq
    rw [hq]

theorem enqueue_scheduled (boxMuller : Nat → Nat → ℚ) (net net1 : SimulatedNetwork)
    (packet : PacketInFlightInfo) (b : Bool) (bound : Int)
    (hS : net.scheduledFrom bound) (hsend : bound ≤ packet.send_time_us)
    (h : net.EnqueuePacket boxMuller packet = some (b, net1)) :
    net1.scheduledFrom bound := by
  obtain ⟨hv, hp, hcb, hdb⟩ := hS
  obtain ⟨-, e1, e2, -, e3⟩ := enqueue_result boxMuller net net1 packet b h
  obtain ⟨taken, added, h1, -, -, -, -⟩ := promote_shape boxMuller net.config_state_
    packet.send_time_us net.capacity_link_ net.delay_link_ net.random_ net.bursting_
  obtain ⟨g1, g2, -⟩ := promote_spec boxMuller net.config_state_ packet.send_time_us
    (fun q => bound ≤ q.arrival_time_us) (fun _ _ _ hab hbc => le_trans hab hbc)
    net.capacity_link_ net.delay_link_ net.random_ net.bursting_ hcb hdb
  have hpw : (promote boxMuller net.config_state_ packet.send_time_us net.capacity_link_
      net.delay_link_ net.random_ net.bursting_).1.Pairwise PacketInfo.arrivesBefore := by
    rw [h1] at hp
    exact (List.pairwise_append.1 hp).2.1
  refine ⟨by rw [e1]; exact hv, ?_, ?_, by rw [e2]; exact g2⟩
  · rcases e3 with ⟨-, e3⟩ | ⟨-, ahead, hahead, e3⟩
    · rw [e3]; exact hpw
    · rw [e3, List.pairwise_append]
      refine ⟨hpw, List.pairwise_singleton _ _, ?_⟩
      intro a ha c hc
      rw [List.mem_singleton] at hc
      subst hc
      have h2 := capacityExitTime_ge net.config_state_ hv
        (max packet.send_time_us (max ahead
          net.config_state_.pause_transmission_until_us)) packet.size
      have h3 : ahead ≤ max packet.send_time_us
          (max ahead net.config_state_.pause_transmission_until_us) :=
        le_trans (le_max_left _ _) (le_max_right _ _)
      have h4 : a.arrival_time_us ≤ ahead := by
        cases hlast : (promote boxMuller net.config_state_ packet.send_time_us
            net.capacity_link_ net.delay_link_ net.random_ net.bursting_).1.getLast? with
        | none =>
          rw [List.getLast?_eq_none_iff] at hlast
          rw [hlast] at ha
          simp at ha
        | some tail =>
          rw [hlast] at hahead
          simp only at hahead
          rw [hahead]
          exact le_getLast_of_sorted _ hpw tail hlast a ha
      show a.arrival_time_us ≤ capacityExitTime _ _ _
      omega
  · rcases e3 with ⟨-, e3⟩ | ⟨-, ahead, -, e3⟩
    · rw [e3]; exact g1
    · rw [e3]
      intro q hq
      rcases List.mem_append.1 hq with hq | hq
      · exact g1 q hq
      · rw [List.mem_singleton] at hq
        subst hq
        have h2 := capacityExitTime_ge net.config_state_ hv
          (max packet.send_time_us (max ahead
            net.config_state_.pause_transmission_until_us)) packet.size
        have h3 : packet.send_time_us ≤ max packet.send_time_us
            (max ahead net.config_state_.pause_transmission_until_us) := le_max_left _ _
        show bound ≤ capacityExitTime _ _ _
        omega

theorem dequeue_scheduled (boxMuller : Nat → Nat → ℚ) (net : SimulatedNetwork) (now bound : Int)
    (hI : net.ordered) (hS : net.scheduledFrom bound) :
    (net.DequeueDeliverablePackets boxMuller now).2.scheduledFrom (max bound now) ∧
    ((net.DequeueDeliverablePackets boxMuller now).1.map
      (fun d => d.receive_time_us)).Pairwise (fun a b => a ≤ b) ∧
    ∀ d ∈ (net.DequeueDeliverablePackets boxMuller now).1,
      bound ≤ d.receive_time_us ∧ d.receive_time_us ≤ now := by
  obtain ⟨hv, hp, hcb, hdb⟩ := hS
  obtain ⟨ready, taken, k1, k2, k3, k4, k5, k6, k7, -, k9, -⟩ :=
    dequeue_sorted_shape boxMuller net now hI.1 hI.2
  obtain ⟨g1, g2, -⟩ := promote_spec boxMuller net.config_state_ now
    (fun q => bound ≤ q.arrival_time_us) (fun _ _ _ hab hbc => le_trans hab hbc)
    net.capacity_link_ net.delay_link_ net.random_ net.bursting_ hcb hdb
  rw [k2] at g2
  have hsub : ∀ q ∈ (net.DequeueDeliverablePackets boxMuller now).2.capacity_link_,
      q ∈ net.capacity_link_ := by
    intro q hq
    rw [k3]
    exact List.mem_append_right _ hq
  have hpw : (net.DequeueDeliverablePackets boxMuller now).2.capacity_link_.Pairwise
      PacketInfo.arrivesBefore := by
    rw [k3] at hp
    exact (List.pairwise_append.1 hp).2.1
  have habove := suffix_above now _ hpw k6
  refine ⟨⟨by rw [k9]; exact hv, hpw, ?_, ?_⟩, ?_, ?_⟩
  · intro q hq
    have h1 := habove q hq
    have h2 := hcb q (hsub q hq)
    exact max_le h2 (le_of_lt h1)
  · intro q hq
    have h1 := k5 q hq
    have h2 := g2 q (List.mem_append_right _ hq)
    exact max_le h2 (le_of_lt h1)
  · rw [k1, List.map_map]
    exact List.Pairwise.map _ (fun a b hab => hab) k7
  · intro d hd
    rw [k1, List.mem_map] at hd
    obtain ⟨q, hq, rfl⟩ := hd
    exact ⟨g2 q (List.mem_append_left _ hq), k4 q hq⟩

theorem run_sorted (boxMuller : Nat → Nat → ℚ) (calls : List Call) :
    ∀ (net net1 : SimulatedNetwork) (ds : List PacketDeliveryInfo) (bound : Int),
    net.ordered → net.scheduledFrom bound →
    (∀ c ∈ calls, c.isQueueCall) → dequeueBeforeEnqueue calls →
    (∀ packet : PacketInFlightInfo, Call.enqueue packet ∈ calls →
      bound ≤ packet.send_time_us) →
    SimulatedNetwork.run boxMuller net calls = some (net1, ds) →
    (ds.map (fun d => d.receive_time_us)).Pairwise (fun a b => a ≤ b) ∧
    ∀ d ∈ ds, bound ≤ d.receive_time_us := by
  induction calls with
  | nil =>
    intro net net1 ds bound _ _ _ _ _ h
    simp only [SimulatedNetwork.run, Option.some.injEq, Prod.mk.injEq] at h
    obtain ⟨-, rfl⟩ := h
    exact ⟨List.Pairwise.nil, by simp⟩
  | cons c cs ih =>
    intro net net1 ds bound hI hS hq hdq hb h
    unfold SimulatedNetwork.run at h
    cases hcall : net.call boxMuller c with
    | none => simp [hcall] at h
    | some r =>
      obtain ⟨netA, dsA⟩ := r
      simp only [hcall] at h
      cases hrun : SimulatedNetwork.run boxMuller netA cs with
      | none => simp [hrun] at h
      | some r2 =>
        obtain ⟨netB, dsB⟩ := r2
        simp only [hrun, Option.some.injEq, Prod.mk.injEq] at h
        obtain ⟨-, rfl⟩ := h
        have hqs : ∀ c1 ∈ cs, c1.isQueueCall := fun c1 hc1 => hq c1 (List.mem_cons_of_mem _ hc1)
        have hbs : ∀ packet : PacketInFlightInfo, Call.enqueue packet ∈ cs →
            bound ≤ packet.send_time_us := fun p hp => hb p (List.mem_cons_of_mem _ hp)
        cases c with
        | enqueue packet =>
          have hIA : netA.ordered :=
            (call_fifo boxMuller net netA (Call.enqueue packet) dsA hI trivial hcall).1
          simp only [SimulatedNetwork.call, Option.map_eq_some'] at hcall
          obtain ⟨⟨b, n1⟩, hr, he⟩ := hcall
          simp only [Prod.mk.injEq] at he
          obtain ⟨rfl, rfl⟩ := he
          have hSA := enqueue_scheduled boxMuller net n1 packet b bound hS
            (hb packet (List.mem_cons_self _ _)) hr
          simpa using ih n1 netB dsB bound hIA hSA hqs hdq hbs hrun
        | dequeue receive_time_us =>
          have hIA : netA.ordered :=
            (call_fifo boxMuller net netA (Call.dequeue receive_time_us) dsA hI trivial hcall).1
          simp only [SimulatedNetwork.call, Option.some.injEq, Prod.mk.injEq] at hcall
          obtain ⟨rfl, rfl⟩ := hcall
          obtain ⟨hSA, hsorted, hrange⟩ :=
            dequeue_scheduled boxMuller net receive_time_us bound hI hS
          obtain ⟨hdq1, hdq2⟩ := hdq
          obtain ⟨i1, i2⟩ := ih _ netB dsB (max bound receive_time_us) hIA hSA hqs hdq2
            (fun p hp => max_le (hbs p hp) (hdq1 p hp)) hrun
          refine ⟨?_, ?_⟩
          · rw [List.map_append, List.pairwise_append]
            refine ⟨hsorted, i1, ?_⟩
            intro a ha b hb1
            rw [List.mem_map] at ha hb1
            obtain ⟨d1, hd1, rfl⟩ := ha
            obtain ⟨d2, hd2, rfl⟩ := hb1
            have h1 := (hrange d1 hd1).2
            have h2 := i2 d2 hd2
            have h3 : receive_time_us ≤ max bound receive_time_us := le_max_right _ _
            omega
          · intro d hd
            rcases List.mem_append.1 hd with hd | hd
            · exact (hrange d hd).1
            · have h2 := i2 d hd
              have h3 : bound ≤ max bound receive_time_us := le_max_left _ _
              omega
        | setConfig config => exact absurd (hq _ (List.mem_cons_self _ _)) (by simp [Call.isQueueCall])
        | updateConfig f => exact absurd (hq _ (List.mem_cons_self _ _)) (by simp [Call.isQueueCall])
        | pauseTransmissionUntil u =>
          exact absurd (hq _ (List.mem_cons_self _ _)) (by simp [Call.isQueueCall])

theorem exists_lower_bound (l : List Int) : ∃ B : Int, ∀ x ∈ l, B ≤ x := by
  induction l with
  | nil => exact ⟨0, by simp⟩
  | cons a t ih =>
    obtain ⟨B, hB⟩ := ih
    refine ⟨min a B, ?_⟩
    intro x hx
    rcases List.mem_cons.1 hx with rfl | hx
    · exact min_le_left _ _
    · exact le_trans (min_le_right _ _) (hB x hx)

theorem mem_enqueuedPackets (calls : List Call) (packet : PacketInFlightInfo) :
    Call.enqueue packet ∈ calls → packet ∈ enqueuedPackets calls := by
  induction calls with
  | nil => simp
  | cons c cs ih =>
    intro h
    rw [enqueuedPackets_cons]
    rcases List.mem_cons.1 h with h | h
    · subst h
      simp [enqueuedPackets]
    · exact List.mem_append_right _ (ih h)

/-- Claim C11 as amended: with `allow_reordering == false` in the initial configuration and
in every configuration installed later, the packet ids returned by `DequeueDeliverablePackets`,
concatenated over all calls of any sequence of public calls, form a subsequence of the packet
ids in enqueue order; and their receive times are non-decreasing when the calls are enqueues
and dequeues only, the configuration has `link_capacity_kbps ≥ 0` and `packet_overhead ≥ 0`,
and no packet is sent before the time of an earlier dequeue call. -/
theorem fifo_without_reordering (boxMuller : Nat → Nat → ℚ) (config : Config)
    (random_seed : Nat) (calls : List Call) (ds : List PacketDeliveryInfo)
    (hord : config.allow_reordering = false) (hcalls : ∀ c ∈ calls, c.keepsOrdering)
    (hrun : deliveriesOf boxMuller config random_seed calls = some ds) :
    List.Sublist (ds.map (fun d => d.packet_id))
      ((enqueuedPackets calls).map (fun p => p.packet_id)) ∧
    (config.nonnegative → (∀ c ∈ calls, c.isQueueCall) → dequeueBeforeEnqueue calls →
      (ds.map (fun d => d.receive_time_us)).Pairwise (fun a b => a ≤ b)) := by
  simp only [deliveriesOf, SimulatedNetwork.runFresh, SimulatedNetwork.new, Option.map_eq_some',
    Option.bind_eq_some] at hrun
  obtain ⟨⟨net, ds1⟩, ⟨net0, ⟨state, hst, rfl⟩, hrun⟩, rfl⟩ := hrun
  have hcfg := (makeConfigState_some hst).1
  constructor
  · obtain ⟨P, h1, h2⟩ := run_fifo boxMuller calls _ net ds1
      ⟨by rw [hcfg]; exact hord, List.Pairwise.nil⟩ hcalls hrun
    simp only
    rw [h1]
    apply List.Sublist.map
    have h3 : List.Sublist P (P ++ net.inFlight) := List.sublist_append_left _ _
    exact List.Sublist.trans h3 (by simpa [SimulatedNetwork.inFlight] using h2)
  · intro hv hq hdq
    obtain ⟨B, hB⟩ := exists_lower_bound ((enqueuedPackets calls).map (fun p => p.send_time_us))
    exact (run_sorted boxMuller calls _ net ds1 B
      ⟨by rw [hcfg]; exact hord, List.Pairwise.nil⟩
      ⟨by rw [hcfg]; exact hv, List.Pairwise.nil, by simp, by simp⟩ hq hdq
      (fun p hp => hB _ (List.mem_map_of_mem _ (mem_enqueuedPackets calls p hp))) hrun).1

theorem extraDelayUs_draw (boxMuller : Nat → Nat → ℚ) (state : ConfigState)
    (random r1 r2 : Random) (o1 o2 : Nat) (h1 : random.NextOutput = (o1, r1))
    (h2 : r1.NextOutput = (o2, r2)) :
    extraDelayUs boxMuller state random =
      (max 0 (round ((state.config.queue_delay_ms : ℚ) +
        (state.config.delay_standard_deviation_ms : ℚ) * boxMuller o1 o2) * 1000), r2) := by
  rw [extraDelayUs_eq, h1]
  simp only [h2]

theorem round_clamped (x : ℚ) (h : x ≤ 0) : max 0 (round x * 1000) = 0 := by
  have hr : round x ≤ 0 := by
    rw [round_eq, ← Int.lt_add_one_iff, Int.floor_lt]
    push_cast
    linarith
  omega

theorem round_eq_of_near (x : ℚ) (z : Int) (h1 : (z : ℚ) - 1 / 2 ≤ x) (h2 : x < z + 1 / 2) :
    round x = z := by
  rw [round_eq, Int.floor_eq_iff]
  constructor <;> linarith

/-- The jitter scenario for every factor function that is not positive on the first and the
third Gaussian draw from seed `1` and lies between `0.485` and `0.495` on the second: the
extra delays are `0`, `49` ms and `0`, and the receive times `0`, `49001` and `2`. -/
theorem jitter_run (boxMuller : Nat → Nat → ℚ)
    (hA : boxMuller 12380297144915551517 13389498078930870103 ≤ 0)
    (hB1 : 485 / 1000 ≤ boxMuller 1036278371763004928 14440594066559445721)
    (hB2 : boxMuller 1036278371763004928 14440594066559445721 < 495 / 1000)
    (hC : boxMuller 12425867847131019661 6247250396617125944 ≤ 0) :
    deliveriesOf boxMuller jitterConfig 1 jitterCalls = some [⟨0, 1⟩, ⟨49001, 2⟩, ⟨2, 3⟩] := by
  obtain ⟨net0, h0, a1, a2, a3, a4, a5, a6, a7, a8, a9⟩ := new_idle jitterConfig 1
    (by decide)
  have hps0 := a9 rfl
  have hexit : ∀ (start : Int) (size : Nat), capacityExitTime net0.config_state_ start size =
      start := by
    intro start size
    unfold capacityExitTime
    rw [a6]
    rfl
  have hqd : (net0.config_state_.config.queue_delay_ms : ℚ) = 0 := by rw [a6]; rfl
  have hsd : (net0.config_state_.config.delay_standard_deviation_ms : ℚ) = 100 := by
    rw [a6]; simp [jitterConfig]
  have hr : Random.new 1 = ⟨1⟩ := by decide
  -- the first packet
  have d1 : (⟨1⟩ : Random).NextOutput.2 = ⟨33554433⟩ := by decide
  have d2 : (⟨33554433⟩ : Random).NextOutput =
      (12380297144915551517, ⟨1126174793148417⟩) := by decide
  have d3 : (⟨1126174793148417⟩ : Random).NextOutput =
      (13389498078930870103, ⟨3659449627584515⟩) := by decide
  have j1 : (extraDelayUs boxMuller net0.config_state_ net0.random_.NextOutput.2).1 = 0 := by
    rw [a8, hr, d1, extraDelayUs_draw boxMuller _ _ _ _ _ _ d2 d3, hqd, hsd]
    exact round_clamped _ (by linarith)
  have hstart1 : max (0 : Int) (max net0.last_capacity_link_exit_time_
      net0.config_state_.pause_transmission_until_us) = 0 := by
    rw [a5, a7]; decide
  obtain ⟨net2, b1, b2, b3, b4, b5, b6, b7, b8, -⟩ := idle_round boxMuller net0 ⟨1000, 0, 1⟩ 0 0 0
    a1 a2 a3 (by rw [a4])
    (by rw [a6]; rfl) hps0
    (by show capacityExitTime _ (max (0 : Int) _) _ = 0; rw [hstart1]; exact hexit _ _)
    j1 (le_refl _) (by decide)
  -- the second packet
  have hrand2 : net2.random_ = ⟨3659449627584515⟩ := by
    rw [b8, a8, hr, d1, d2]
    simp only [d3]
  have e1 : (⟨3659449627584515⟩ : Random).NextOutput.2 = ⟨2306758490171379329⟩ := by decide
  have e2 : (⟨2306758490171379329⟩ : Random).NextOutput =
      (1036278371763004928, ⟨585415316980522496⟩) := by decide
  have e3 : (⟨585415316980522496⟩ : Random).NextOutput =
      (14440594066559445721, ⟨12683848079143609325⟩) := by decide
  have j2 : (extraDelayUs boxMuller net2.config_state_ net2.random_.NextOutput.2).1 = 49000 := by
    rw [hrand2, e1, extraDelayUs_draw boxMuller _ _ _ _ _ _ e2 e3, b5, hqd, hsd]
    simp only
    rw [round_eq_of_near _ 49 (by push_cast; linarith) (by push_cast; linarith)]
    decide
  have hstart2 : max (1 : Int) (max net2.last_capacity_link_exit_time_
      net2.config_state_.pause_transmission_until_us) = 1 := by
    rw [b7, b5, a7]; decide
  obtain ⟨net4, c1, c2, c3, c4, c5, c6, c7, c8, -⟩ := idle_round boxMuller net2 ⟨1000, 1, 2⟩ 50000
    1 49000 b2 b3 b4 (by rw [b6]; show (0 : Int) ≤ 1; decide) (by rw [b5, a6]; rfl)
    (by rw [b5]; exact hps0)
    (by show capacityExitTime _ (max (1 : Int) _) _ = 1; rw [hstart2, b5]; exact hexit _ _)
    j2 (by decide) (by decide)
  -- the third packet
  have hrand4 : net4.random_ = ⟨12683848079143609325⟩ := by
    rw [c8, hrand2, e1, e2]
    simp only [e3]
  have f1 : (⟨12683848079143609325⟩ : Random).NextOutput.2 = ⟨3609032897813531829⟩ := by decide
  have f2 : (⟨3609032897813531829⟩ : Random).NextOutput =
      (12425867847131019661, ⟨1206631074890568497⟩) := by decide
  have f3 : (⟨1206631074890568497⟩ : Random).NextOutput =
      (6247250396617125944, ⟨16793493092846982040⟩) := by decide
  have j3 : (extraDelayUs boxMuller net4.config_state_ net4.random_.NextOutput.2).1 = 0 := by
    rw [hrand4, f1, extraDelayUs_draw boxMuller _ _ _ _ _ _ f2 f3, c5, b5, hqd, hsd]
    exact round_clamped _ (by linarith)
  have hstart3 : max (2 : Int) (max net4.last_capacity_link_exit_time_
      net4.config_state_.pause_transmission_until_us) = 2 := by
    rw [c7, c5, b5, a7]; decide
  obtain ⟨net6, g1, -⟩ := idle_round boxMuller net4 ⟨1000, 2, 3⟩ 60000 2 0 c2 c3 c4
    (by rw [c6]; show (1 : Int) ≤ 2; decide) (by rw [c5, b5, a6]; rfl)
    (by rw [c5, b5]; exact hps0)
    (by show capacityExitTime _ (max (2 : Int) _) _ = 2; rw [hstart3, c5, b5]; exact hexit _ _)
    j3 (by decide) (by decide)
  have hrun := run_append boxMuller _ _ _ _ _ _ _ (run_append boxMuller _ _ _ _ _ _ _ b1 c1) g1
  exact (deliveriesOf_eq _ _ _ _ _ _ _ h0 hrun).2

theorem negativeCapacity_run :
    deliveriesOf noJitter negativeCapacityConfig 1
      [Call.enqueue ⟨1, 0, 1⟩, Call.dequeue 0, Call.enqueue ⟨2, 0, 2⟩, Call.dequeue 0] =
      some [⟨-1000, 1⟩, ⟨-2000, 2⟩] := by
  obtain ⟨net0, net2, h0, h1, a1, a2, a3, -, a5, a6, a7, a8, a9, -⟩ := fresh_round noJitter
    negativeCapacityConfig 1 ⟨1, 0, 1⟩ 0 (-1000) (by decide) (by decide) rfl rfl rfl (by decide)
    (by decide)
  have hexit : capacityExitTime net2.config_state_ (max (0 : Int)
      (max net2.last_capacity_link_exit_time_ net2.config_state_.pause_transmission_until_us))
      2 = -2000 := by
    rw [a9, a6]
    unfold capacityExitTime
    rw [a5]
    decide
  obtain ⟨net4, b1, -⟩ := idle_round noJitter net2 ⟨2, 0, 2⟩ 0 (-2000) 0 a1 a2 a3
    (by rw [a8]) (by rw [a5]; rfl) a7 hexit
    (extraDelayUs_zero noJitter _ _ (by rw [a5]; rfl) (by rw [a5]; rfl)) (by decide) (by decide)
  have hrun := run_append noJitter _ _ _ _ _ _ _ h1 b1
  exact (deliveriesOf_eq _ _ _ _ _ _ _ h0 hrun).2

/-- Claim C11 as stated fails. In scenario 4 of the specification (reordering off, infinite
capacity, a standard deviation of 100 ms, seed `1`, three packets sent at `0`, `1` and `2`),
with each packet dequeued before the next is sent, the three Gaussian draws have the factors
`-0.135`, `0.491` and `-0.470`: the extra delays are `0`, `49` ms and `0`, and the packets are
received at `0`, `49001` and `2`. The receive times decrease, and they do so for every factor
function that is not positive on the first and third draw and within `0.485` and `0.495` on
the second. With `link_capacity_kbps = -8` and all call times `0`, a one-byte and a two-byte
packet are received at `-1000` and `-2000`. -/
theorem fifo_without_reordering_counterexample :
    (jitterConfig.allow_reordering = false ∧
      deliveriesOf seedOneFactor jitterConfig 1 jitterCalls =
        some [⟨0, 1⟩, ⟨49001, 2⟩, ⟨2, 3⟩] ∧
      (∀ boxMuller : Nat → Nat → ℚ,
        boxMuller 12380297144915551517 13389498078930870103 ≤ 0 →
        485 / 1000 ≤ boxMuller 1036278371763004928 14440594066559445721 →
        boxMuller 1036278371763004928 14440594066559445721 < 495 / 1000 →
        boxMuller 12425867847131019661 6247250396617125944 ≤ 0 →
        deliveriesOf boxMuller jitterConfig 1 jitterCalls =
          some [⟨0, 1⟩, ⟨49001, 2⟩, ⟨2, 3⟩]) ∧
      ¬ (([⟨0, 1⟩, ⟨49001, 2⟩, ⟨2, 3⟩] : List PacketDeliveryInfo).map
          (fun d => d.receive_time_us)).Pairwise (fun a b => a ≤ b)) ∧
    (negativeCapacityConfig.allow_reordering = false ∧
      deliveriesOf noJitter negativeCapacityConfig 1
        [Call.enqueue ⟨1, 0, 1⟩, Call.dequeue 0, Call.enqueue ⟨2, 0, 2⟩, Call.dequeue 0] =
        some [⟨-1000, 1⟩, ⟨-2000, 2⟩] ∧
      ¬ (([⟨-1000, 1⟩, ⟨-2000, 2⟩] : List PacketDeliveryInfo).map
          (fun d => d.receive_time_us)).Pairwise (fun a b => a ≤ b)) := by
  refine ⟨⟨rfl, ?_, jitter_run, ?_⟩, ⟨rfl, negativeCapacity_run, ?_⟩⟩
  · exact jitter_run seedOneFactor (by norm_num [seedOneFactor]) (by norm_num [seedOneFactor])
      (by norm_num [seedOneFactor]) (by norm_num [seedOneFactor])
  · simp
  · simp

/-- Witness of `fifo_without_reordering`: two packets through the simulator of
`SimulatedNetworkTest.BasicTest`, sent at `0` and `16000` and received at `16000` and `32000`;
the second is sent at the time of the first dequeue call. -/
theorem fifo_without_reordering_witness :
    (basicTestConfig.allow_reordering = false ∧
      (∀ c ∈ [Call.enqueue ⟨1000, 0, 1⟩, Call.dequeue 16000, Call.enqueue ⟨1000, 16000, 2⟩,
        Call.dequeue 32000], c.keepsOrdering) ∧
      deliveriesOf noJitter basicTestConfig 1
        [Call.enqueue ⟨1000, 0, 1⟩, Call.dequeue 16000, Call.enqueue ⟨1000, 16000, 2⟩,
          Call.dequeue 32000] = some [⟨16000, 1⟩, ⟨32000, 2⟩]) ∧
    (basicTestConfig.nonnegative ∧
      (∀ c ∈ [Call.enqueue ⟨1000, 0, 1⟩, Call.dequeue 16000, Call.enqueue ⟨1000, 16000, 2⟩,
        Call.dequeue 32000], c.isQueueCall) ∧
      dequeueBeforeEnqueue [Call.enqueue ⟨1000, 0, 1⟩, Call.dequeue 16000,
        Call.enqueue ⟨1000, 16000, 2⟩, Call.dequeue 32000]) ∧
    List.Sublist (([⟨16000, 1⟩, ⟨32000, 2⟩] : List PacketDeliveryInfo).map (fun d => d.packet_id))
      ((enqueuedPackets [Call.enqueue ⟨1000, 0, 1⟩, Call.dequeue 16000,
        Call.enqueue ⟨1000, 16000, 2⟩, Call.dequeue 32000]).map (fun p => p.packet_id)) ∧
    (([⟨16000, 1⟩, ⟨32000, 2⟩] : List PacketDeliveryInfo).map
      (fun d => d.receive_time_us)).Pairwise (fun a b => a ≤ b) :=
  have h1 : ∀ c ∈ [Call.enqueue ⟨1000, 0, 1⟩, Call.dequeue 16000,
      Call.enqueue ⟨1000, 16000, 2⟩, Call.dequeue 32000], c.keepsOrdering := by
    intro c hc
    simp only [List.mem_cons, List.mem_singleton, List.not_mem_nil, or_false] at hc
    rcases hc with rfl | rfl | rfl | rfl <;> trivial
  have h2 : ∀ c ∈ [Call.enqueue ⟨1000, 0, 1⟩, Call.dequeue 16000,
      Call.enqueue ⟨1000, 16000, 2⟩, Call.dequeue 32000], c.isQueueCall := by
    intro c hc
    simp only [List.mem_cons, List.mem_singleton, List.not_mem_nil, or_false] at hc
    rcases hc with rfl | rfl | rfl | rfl <;> trivial
  have h3 : basicTestConfig.nonnegative := by
    constructor <;> decide
  have h4 : dequeueBeforeEnqueue [Call.enqueue ⟨1000, 0, 1⟩, Call.dequeue 16000,
      Call.enqueue ⟨1000, 16000, 2⟩, Call.dequeue 32000] := by
    simp [dequeueBeforeEnqueue]
  have h := fifo_without_reordering noJitter basicTestConfig 1 _ _ rfl h1 (twoPacket_run 1 2).1
  ⟨⟨rfl, h1, (twoPacket_run 1 2).1⟩, ⟨h3, h2, h4⟩, h.1, h.2 h3 h2 h4⟩

/-- Witness of `reconfiguration_keeps_delay_link`: the pure-delay simulator with its packet in
the delay link, reconfigured to 1000 kbps, by the identity modifier, and paused until `50000`;
the packet is still delivered at `10000`. -/
theorem reconfiguration_keeps_delay_link_witness :
    (reconfigFastConfig.avg_burst_loss_length ≠ 0 ∧
      (id delayedNetwork.config_state_.config).avg_burst_loss_length ≠ 0) ∧
    ∃ net1 net2 : SimulatedNetwork,
      delayedNetwork.SetConfig reconfigFastConfig = some net1 ∧
      delayedNetwork.UpdateConfig id = some net2 ∧
      net1.delay_link_ = [⟨⟨1000, 0, 1⟩, 10000⟩] ∧ net2.delay_link_ = [⟨⟨1000, 0, 1⟩, 10000⟩] ∧
      (delayedNetwork.PauseTransmissionUntil 50000).delay_link_ = [⟨⟨1000, 0, 1⟩, 10000⟩] ∧
      (⟨10000, 1⟩ : PacketDeliveryInfo) ∈ (net1.DequeueDeliverablePackets noJitter 10000).1 := by
  have h1 : reconfigFastConfig.avg_burst_loss_length ≠ 0 := by decide
  have h2 : (id delayedNetwork.config_state_.config).avg_burst_loss_length ≠ 0 := by decide
  obtain ⟨net1, net2, e1, e2, e3, e4, e5, e6⟩ :=
    reconfiguration_keeps_delay_link noJitter delayedNetwork reconfigFastConfig id 50000 h1 h2
  exact ⟨⟨h1, h2⟩, net1, net2, e1, e2, e3, e4, e5,
    (e6 net1 (Or.inl rfl)).2 ⟨⟨1000, 0, 1⟩, 10000⟩ (List.mem_singleton_self _) 10000 (le_refl _)⟩

/-- Witness of `range_sampler_bad_bounds`: `low = 1`, `high = 0` for both samplers. -/
theorem range_sampler_bad_bounds_witness :
    ((1 : Nat) < 2 ^ 32 ∧ (0 : Nat) < 1 ∧ (1 : Int) < 2 ^ 31 ∧ (-2 ^ 31 : Int) ≤ 0 ∧
      (0 : Int) < 1) ∧
    (⟨1⟩ : Random).RandU32 1 0 =
      ((((⟨1⟩ : Random).Rand (0 + 2 ^ 32 - 1)).1 + 1) % 2 ^ 32, (⟨1⟩ : Random).NextOutput.2) ∧
    (⟨1⟩ : Random).RandI32 1 0 =
      (wrapI32 ((((⟨1⟩ : Random).Rand ((0 : Int) - 1 + 2 ^ 32).toNat).1 : Int) + 1),
        (⟨1⟩ : Random).NextOutput.2) :=
  ⟨⟨by decide, by decide, by decide, by decide, by decide⟩,
    range_sampler_bad_bounds ⟨1⟩ 1 0 1 0 (by decide) (by decide) (by decide) (by decide)
      (by decide)⟩

/-- Witness of `rng_reproducible`: seed `1` and three sampler calls, four core steps. -/
theorem rng_reproducible_witness :
    (Random.new 1 = Random.new 1 ∧ Random.new 1 = Random.new 1) ∧
    ((Random.new 1).sampleAll noJitter
        [SamplerCall.rand 9, SamplerCall.gaussian 0 1, SamplerCall.randBool]).outputs =
      (Random.new 1).outputStream 4 ∧
    ((Random.new 1).sampleAll noJitter
        [SamplerCall.rand 9, SamplerCall.gaussian 0 1, SamplerCall.randBool]).final =
      (Random.new 1).steps 4 :=
  have h := rng_reproducible noJitter 1
    [SamplerCall.rand 9, SamplerCall.gaussian 0 1, SamplerCall.randBool]
    (Random.new 1) (Random.new 1) rfl rfl
  ⟨⟨rfl, rfl⟩, h.2.2.2.1, h.2.2.2.2⟩

/-- Witness of `doubleNumerator_zero_only_at`: the generator with state `1`. -/
theorem doubleNumerator_zero_only_at_witness :
    ((⟨1⟩ : Random).state_ < 2 ^ 64 ∧ (⟨1⟩ : Random).state_ ≠ 0) ∧
    ((⟨1⟩ : Random).doubleNumerator = 0 ↔ (⟨1⟩ : Random).state_ = outputOneState) ∧
    (⟨1⟩ : Random).doubleNumerator ≠ 0 ∧
    (2 : ℚ) ^ (-64 : Int) ≤ (⟨1⟩ : Random).RandDouble.1 :=
  have h := doubleNumerator_zero_only_at ⟨1⟩ (by decide) (by decide)
  ⟨⟨by decide, by decide⟩, h.1, h.2 (by decide)⟩

/-- Witness of `NextOutput_injective`: the states `1` and `2`, and the output value `1`. -/
theorem NextOutput_injective_witness :
    ((1 : Nat) < 2 ^ 64 ∧ (2 : Nat) < 2 ^ 64 ∧ (1 : Nat) ≠ 2 ∧ (1 : Nat) ≠ 0 ∧
      (1 : Nat) < 2 ^ 64) ∧
    (⟨1⟩ : Random).NextOutput.2 ≠ (⟨2⟩ : Random).NextOutput.2 ∧
    (⟨1⟩ : Random).NextOutput.1 ≠ (⟨2⟩ : Random).NextOutput.1 ∧
    (nextState 0 = 0 ∧ ∀ s, s < 2 ^ 64 → nextState s = 0 → s = 0) ∧
    (∃ s, s < 2 ^ 64 ∧ nextState s = 1) ∧
    (∃ m, m < 2 ^ 64 ∧ (m * 2685821657736338717) % 2 ^ 64 = 1) ∧
    ∃! s, (s ≠ 0 ∧ s < 2 ^ 64) ∧ (⟨s⟩ : Random).NextOutput.1 = 1 :=
  ⟨⟨by decide, by decide, by decide, by decide, by decide⟩,
    NextOutput_injective 1 2 1 (by decide) (by decide) (by decide) (by decide) (by decide)⟩

end netsim
